import Mathlib

/-!
# WinMerge `LanguageSelect.cpp`: language switching and the `.po` catalog loader

A shallow embedding of `Src/Common/LanguageSelect.cpp` (compiled with
`LANG_PO(LANG, PO) PO`, i.e. for `.po` catalogs) together with theorems about it.

Conventions of the embedding.

* A `char` buffer is a `List Nat` of byte values `0 .. 255`; a C string is the part of
  the buffer before its first `0`.
* A pointer into a buffer is represented by the list of bytes from that position on.
  Reading where the list is exhausted is a read outside the storage and yields `none`.
* Functions of the C runtime and of the Windows API that the file calls (`strtol`,
  `strchr`, `IsDBCSLeadByteEx`, `LoadLibrary`, ...) are modelled after their documented
  behaviour or taken as parameters.
-/

namespace LanguageSelect

/-! ## C runtime helpers -/

/-- The part of a buffer seen by the C string functions: the bytes before the first NUL. -/
def cstr (buf : List Nat) : List Nat := buf.takeWhile (fun c => c != 0)

/-- Bytes of an ASCII text. -/
def bytes (s : String) : List Nat := s.toList.map Char.toNat

/-- The C library predicate `isspace` in the "C" locale. -/
def isspace (c : Nat) : Bool := c == 0x20 || (0x09 ≤ c && c ≤ 0x0D)

/-- Value of `c` as a digit of a numeral (`0-9`, then letters of either case from 10). -/
def digitVal (c : Nat) : Nat :=
  if 0x30 ≤ c ∧ c ≤ 0x39 then c - 0x30
  else if 0x61 ≤ c ∧ c ≤ 0x7A then c - 0x61 + 10
  else if 0x41 ≤ c ∧ c ≤ 0x5A then c - 0x41 + 10
  else 36

/-- Whether `c` is a digit in the given base. -/
def isDigitIn (base : Nat) (c : Nat) : Bool := digitVal c < base

/-- The constant `LONG_MAX` of the target (`long` has 32 bits on Windows). -/
def LONG_MAX : Int := 2147483647

/-- The constant `LONG_MIN` of the target. -/
def LONG_MIN : Int := -2147483648

/-- The C library function `strtol(nptr, &endptr, base)` for `base` 8, 10 or 16, following
ISO C: leading white space is skipped, one sign is accepted, base 16 accepts a `0x`
prefix when a hexadecimal digit follows it, the longest run of digits is converted and
the value is clamped to the range of `long`. The result is the value and the number of
bytes consumed, `endptr - nptr`; when no digit is found nothing is consumed and the
value is `0`. -/
def strtol (nptr : List Nat) (base : Nat) : Int × Nat :=
  let ws := nptr.takeWhile isspace
  let s1 := nptr.dropWhile isspace
  let neg : Bool := match s1 with
    | 0x2D :: _ => true
    | _ => false
  let nsign : Nat := match s1 with
    | 0x2D :: _ => 1
    | 0x2B :: _ => 1
    | _ => 0
  let s2 := s1.drop nsign
  let npre : Nat := match s2 with
    | 0x30 :: x :: d :: _ =>
      if base = 16 ∧ (x = 0x78 ∨ x = 0x58) ∧ isDigitIn 16 d then 2 else 0
    | _ => 0
  let s3 := s2.drop npre
  let ds := s3.takeWhile (isDigitIn base)
  if ds.isEmpty then (0, 0)
  else
    let v : Nat := ds.foldl (fun a c => a * base + digitVal c) 0
    let r : Int :=
      if neg then (if (v : Int) > -LONG_MIN then LONG_MIN else -(v : Int))
      else (if (v : Int) > LONG_MAX then LONG_MAX else (v : Int))
    (r, ws.length + nsign + npre + ds.length)

/-- The conversion `(char)` of a `long`, as the byte value `0 .. 255` that is stored. -/
def toChar (v : Int) : Nat := (v % 256).toNat

/-! ## `unslash` -/

/-- The `default:` label of the outer `switch` in `unslash` up to the loop condition,
entered with the character `c` and the pointer `r`: `*p = c`; when `c` has its high bit
set and is a lead byte of the codepage, `*++p = *r++`; then `q = r`. The result is the
bytes written and the read pointer for the next iteration, or `none` in its place when
`c == 0` ends the loop. -/
def unslashDefault (IsDBCSLeadByteEx : Nat → Nat → Bool) (codepage : Nat) (c : Nat)
    (r : List Nat) : Option (List Nat × Option (List Nat)) :=
  if (c &&& 0x80) ≠ 0 ∧ IsDBCSLeadByteEx codepage c = true then
    match r with
    | [] => none
    | t :: r1 => some ([c, t], if c = 0 then none else some r1)
  else some ([c], if c = 0 then none else some r)

/-- One iteration of the body of the `do ... while (c != 0)` loop of `unslash`, entered
with the read pointer `q`. The result is the bytes the iteration writes through `p` and
the read pointer for the next iteration, or `none` in its place when the iteration ends
with `c == 0` and the loop stops. -/
def unslashIter (IsDBCSLeadByteEx : Nat → Nat → Bool) (codepage : Nat) (q : List Nat) :
    Option (List Nat × Option (List Nat)) :=
  match q with
  | [] => none
  | c :: r =>
    if c = 0x5C then
      match r with
      | [] => none
      | c1 :: r1 =>
        if c1 = 0x61 then unslashDefault IsDBCSLeadByteEx codepage 0x07 r1
        else if c1 = 0x62 then unslashDefault IsDBCSLeadByteEx codepage 0x08 r1
        else if c1 = 0x66 then unslashDefault IsDBCSLeadByteEx codepage 0x0C r1
        else if c1 = 0x6E then unslashDefault IsDBCSLeadByteEx codepage 0x0A r1
        else if c1 = 0x72 then unslashDefault IsDBCSLeadByteEx codepage 0x0D r1
        else if c1 = 0x74 then unslashDefault IsDBCSLeadByteEx codepage 0x09 r1
        else if c1 = 0x76 then unslashDefault IsDBCSLeadByteEx codepage 0x0B r1
        else if c1 = 0x78 then
          -- `*p = (char)strtol(r, &q, 16); if (q > r) break;`
          if 0 < (strtol r1 16).2 then
            some ([toChar (strtol r1 16).1],
              if c1 = 0 then none else some (r1.drop (strtol r1 16).2))
          else unslashDefault IsDBCSLeadByteEx codepage c1 r1
        else
          -- `*p = (char)strtol(--r, &q, 8); if (q > r) break;`
          if 0 < (strtol (c1 :: r1) 8).2 then
            some ([toChar (strtol (c1 :: r1) 8).1],
              if c1 = 0 then none else some ((c1 :: r1).drop (strtol (c1 :: r1) 8).2))
          else unslashDefault IsDBCSLeadByteEx codepage c1 (c1 :: r1)
    else unslashDefault IsDBCSLeadByteEx codepage c r

/-- The `do ... while (c != 0)` loop of `unslash`. The argument `q` is the buffer from
the read pointer on; the result is the sequence of bytes the loop writes through `p`
(a write lands at or before the byte that was last read, so no byte is overwritten before
it is read). `fuel` bounds the number of iterations; every iteration advances `q`. -/
def unslashLoop (IsDBCSLeadByteEx : Nat → Nat → Bool) (codepage : Nat) :
    Nat → List Nat → Option (List Nat)
  | 0, _ => none
  | fuel + 1, q =>
    match unslashIter IsDBCSLeadByteEx codepage q with
    | none => none
    | some (w, none) => some w
    | some (w, some q1) =>
      (unslashLoop IsDBCSLeadByteEx codepage fuel q1).map (fun t => w ++ t)

/-- The function `unslash(codepage, s)`: the loop runs over the characters of `s` and its
terminating NUL, and `s.resize(p - 1 - &*s.begin())` drops the last byte written. The
result is `none` when the loop reads past the terminator. -/
def unslash (IsDBCSLeadByteEx : Nat → Nat → Bool) (codepage : Nat) (s : List Nat) :
    Option (List Nat) :=
  (unslashLoop IsDBCSLeadByteEx codepage (s.length + 1) (s ++ [0])).map List.dropLast

/-! ## Windows constants and the language table -/

/-- The macro `MAKELANGID(p, s)` of `winnt.h`: `(s << 10) | p`. -/
def MAKELANGID (p s : Nat) : Nat := ((s <<< 10) ||| p) % 65536

/-- The macro `PRIMARYLANGID(lgid)` of `winnt.h`: `lgid & 0x3ff`. -/
def PRIMARYLANGID (lgid : Nat) : Nat := (lgid % 65536) &&& 0x3ff

/-- The macro `SUBLANGID(lgid)` of `winnt.h`: `lgid >> 10`. -/
def SUBLANGID (lgid : Nat) : Nat := (lgid % 65536) >>> 10

/-- The constant `LANG_ENGLISH` of `winnt.h`. -/
def LANG_ENGLISH : Nat := 0x09

/-- The constant `SUBLANG_ENGLISH_US` of `winnt.h`. -/
def SUBLANG_ENGLISH_US : Nat := 0x01

/-- The constant `SUBLANG_DEFAULT` of `winnt.h`. -/
def SUBLANG_DEFAULT : Nat := 0x01

/-- The constant `wSourceLangId`: the default English language. -/
def wSourceLangId : Nat := MAKELANGID LANG_ENGLISH SUBLANG_ENGLISH_US

/-- The structure `tLangDef`, without the display names `m_IdName`, `m_NativeName` and
`m_AsciiName`. A `NULL` string pointer is `none`. -/
structure tLangDef where
  m_LangId : Nat
  lang : Option String
  sublang : Option String
  pszLocale : Option String
  deriving DecidableEq, Repr

/-- An entry of `lang_map` written with `MAKELANGID2(lang, sublang)`, which expands to the
language id followed by the two macro arguments as strings; the numeric values of the
`LANG_` and `SUBLANG_` constants are those of `winnt.h`. -/
def MAKELANGID2 (langValue : Nat) (lang : String) (sublangValue : Nat) (sublang : String)
    (pszLocale : String) : tLangDef :=
  ⟨MAKELANGID langValue sublangValue, some lang, some sublang, some pszLocale⟩

/-- The table `lang_map`, ending with the sentinel entry whose language id is 0. -/
def lang_map : List tLangDef :=
  [ MAKELANGID2 0x1c "LANG_ALBANIAN" 0x01 "SUBLANG_DEFAULT" "",
    MAKELANGID2 0x01 "LANG_ARABIC" 0x03 "SUBLANG_ARABIC_EGYPT" "",
    MAKELANGID2 0x2b "LANG_ARMENIAN" 0x01 "SUBLANG_DEFAULT" "",
    MAKELANGID2 0x2d "LANG_BASQUE" 0x01 "SUBLANG_DEFAULT" "",
    MAKELANGID2 0x23 "LANG_BELARUSIAN" 0x01 "SUBLANG_DEFAULT" "",
    MAKELANGID2 0x02 "LANG_BULGARIAN" 0x01 "SUBLANG_DEFAULT" "",
    MAKELANGID2 0x03 "LANG_CATALAN" 0x01 "SUBLANG_DEFAULT" "",
    MAKELANGID2 0x04 "LANG_CHINESE" 0x01 "SUBLANG_CHINESE_TRADITIONAL" "cht",
    MAKELANGID2 0x04 "LANG_CHINESE" 0x02 "SUBLANG_CHINESE_SIMPLIFIED" "chs",
    MAKELANGID2 0x1a "LANG_CROATIAN" 0x01 "SUBLANG_DEFAULT" "",
    MAKELANGID2 0x05 "LANG_CZECH" 0x01 "SUBLANG_DEFAULT" "czech",
    MAKELANGID2 0x06 "LANG_DANISH" 0x01 "SUBLANG_DEFAULT" "danish",
    MAKELANGID2 0x13 "LANG_DUTCH" 0x01 "SUBLANG_DUTCH" "dutch",
    MAKELANGID2 0x09 "LANG_ENGLISH" 0x01 "SUBLANG_ENGLISH_US" "american",
    MAKELANGID2 0x25 "LANG_ESTONIAN" 0x01 "SUBLANG_DEFAULT" "",
    MAKELANGID2 0x38 "LANG_FAEROESE" 0x01 "SUBLANG_DEFAULT" "",
    MAKELANGID2 0x29 "LANG_FARSI" 0x01 "SUBLANG_DEFAULT" "",
    MAKELANGID2 0x0b "LANG_FINNISH" 0x01 "SUBLANG_DEFAULT" "fin",
    MAKELANGID2 0x0c "LANG_FRENCH" 0x01 "SUBLANG_FRENCH" "fra",
    MAKELANGID2 0x37 "LANG_GEORGIAN" 0x01 "SUBLANG_DEFAULT" "",
    MAKELANGID2 0x07 "LANG_GERMAN" 0x01 "SUBLANG_GERMAN" "deu",
    MAKELANGID2 0x08 "LANG_GREEK" 0x01 "SUBLANG_DEFAULT" "greek",
    MAKELANGID2 0x0e "LANG_HUNGARIAN" 0x01 "SUBLANG_DEFAULT" "hun",
    MAKELANGID2 0x10 "LANG_ITALIAN" 0x01 "SUBLANG_ITALIAN" "ita",
    MAKELANGID2 0x11 "LANG_JAPANESE" 0x01 "SUBLANG_DEFAULT" "jpn",
    MAKELANGID2 0x12 "LANG_KOREAN" 0x01 "SUBLANG_KOREAN" "kor",
    MAKELANGID2 0x14 "LANG_NORWEGIAN" 0x01 "SUBLANG_NORWEGIAN_BOKMAL" "nor",
    MAKELANGID2 0x15 "LANG_POLISH" 0x01 "SUBLANG_DEFAULT" "plk",
    MAKELANGID2 0x16 "LANG_PORTUGUESE" 0x02 "SUBLANG_PORTUGUESE" "ptg",
    MAKELANGID2 0x16 "LANG_PORTUGUESE" 0x01 "SUBLANG_PORTUGUESE_BRAZILIAN" "ptb",
    MAKELANGID2 0x19 "LANG_RUSSIAN" 0x01 "SUBLANG_DEFAULT" "rus",
    MAKELANGID2 0x1a "LANG_SERBIAN" 0x02 "SUBLANG_SERBIAN_LATIN" "",
    MAKELANGID2 0x1a "LANG_SERBIAN" 0x03 "SUBLANG_SERBIAN_CYRILLIC" "",
    MAKELANGID2 0x1b "LANG_SLOVAK" 0x01 "SUBLANG_DEFAULT" "sky",
    MAKELANGID2 0x24 "LANG_SLOVENIAN" 0x01 "SUBLANG_DEFAULT" "",
    MAKELANGID2 0x0a "LANG_SPANISH" 0x03 "SUBLANG_SPANISH_MODERN" "esn",
    MAKELANGID2 0x1d "LANG_SWEDISH" 0x01 "SUBLANG_SWEDISH" "sve",
    MAKELANGID2 0x1f "LANG_TURKISH" 0x01 "SUBLANG_DEFAULT" "trk",
    MAKELANGID2 0x20 "LANG_URDU" 0x01 "SUBLANG_URDU_PAKISTAN" "",
    MAKELANGID2 0x20 "LANG_URDU" 0x02 "SUBLANG_URDU_INDIA" "",
    ⟨0, none, none, none⟩ ]

/-- The loop of the static function `GetLanguageArrayIndex(lang, sublang)` from index `i`
over the entries `tbl` that remain: the index of the first entry before the sentinel whose
two names equal the arguments, or `-1`. A `NULL` argument is `none`; the result is `none`
when `strcmp` is called with a `NULL` argument. -/
def GetLanguageArrayIndexFrom (tbl : List tLangDef) (lang sublang : Option (List Nat))
    (i : Nat) : Option Int :=
  match tbl with
  | [] => some (-1)
  | e :: t =>
    if e.m_LangId = 0 then some (-1)
    else
      match e.lang, lang with
      | some el, some l =>
        if bytes el = l then
          match e.sublang, sublang with
          | some es, some sl =>
            if bytes es = sl then some i else GetLanguageArrayIndexFrom t lang sublang (i + 1)
          | _, _ => none
        else GetLanguageArrayIndexFrom t lang sublang (i + 1)
      | _, _ => none

/-- The static function `GetLanguageArrayIndex(lang, sublang)`. -/
def GetLanguageArrayIndex (lang sublang : Option (List Nat)) : Option Int :=
  GetLanguageArrayIndexFrom lang_map lang sublang 0

/-! ## The environment and the object state -/

/-- What the functions of the file observe of the process and of the machine: results of
Windows API and C runtime calls that do not depend on the object. Strings of `TCHAR` are
lists of character codes. -/
structure World where
  /-- The result of `IsDBCSLeadByteEx(codepage, byte)`. -/
  IsDBCSLeadByteEx : Nat → Nat → Bool
  /-- The result of `AfxGetInstanceHandle()`. -/
  instanceHandle : Nat
  /-- The fixed file version `(MS, LS)` read from the instance handle. -/
  instanceVer : Nat × Nat
  /-- The handle returned by `LoadLibrary("MergeLang.dll")`, `0` when it fails. -/
  mergeLangDll : Nat
  /-- The fixed file version `(MS, LS)` read from `MergeLang.dll`. -/
  resourceVer : Nat × Nat
  /-- The bytes of the `MERGEPOT` resource of `MergeLang.dll`, `none` when
  `FindResource` fails. -/
  mergepot : Option (List Nat)
  /-- The characters a stream opened by `fopen(name, "r")` delivers, `none` when the file
  cannot be opened. -/
  fopen : List Nat → Option (List Nat)
  /-- The path stored by `GetModuleFileName(m_hModule, ...)`, `none` when it fails. -/
  moduleFileName : Option (List Nat)
  /-- The path part `drive + dir` that `_tsplitpath` extracts from a file name. -/
  splitpath : List Nat → List Nat
  /-- The entries enumerated by `FindFirstFile` and `FindNextFile` for a file
  specification: `cFileName`, and whether `FILE_ATTRIBUTE_DIRECTORY` is set. -/
  findFiles : List Nat → List (List Nat × Bool)

/-- The members of `CLanguageSelect` that the modelled functions read or write, followed
by the process state they change through the framework, the Windows API and the C
runtime. Writes to the log `m_pLog` and message boxes are not modelled. -/
structure CLanguageSelect where
  /-- The member `m_wCurLanguage`. -/
  m_wCurLanguage : Nat
  /-- The member `m_hCurrentDll`; `0` is `NULL`. -/
  m_hCurrentDll : Nat
  /-- The member `m_strarray`: the string for each line number. -/
  m_strarray : List (List Nat)
  /-- The member `m_codepage`. -/
  m_codepage : Nat
  /-- The handle last passed to `AfxSetResourceHandle`. -/
  resourceHandle : Nat
  /-- The values written by `WriteProfileInt(LANGUAGE_SECTION, COUNTRY_ENTRY, ...)`, oldest
  first. -/
  profileWrites : List Nat
  /-- The locale last passed to `SetThreadLocale`. -/
  threadLocale : Nat
  /-- The locale name last passed to `_tsetlocale(LC_ALL, ...)`. -/
  crtLocale : Option String
  /-- The module handles passed to `FreeLibrary`, oldest first. -/
  freed : List Nat
  deriving DecidableEq, Repr

/-! ## Parsing helpers -/

/-- Lower case of an ASCII letter, as `_memicmp` compares bytes. -/
def tolower (c : Nat) : Nat := if 0x41 ≤ c ∧ c ≤ 0x5A then c + 0x20 else c

/-- The function `EatPrefix(text, prefix)` on the C string `text`: the text after the
prefix when the first `strlen(prefix)` bytes equal the prefix up to letter case, `none`
for the null pointer otherwise. -/
def EatPrefix (text : List Nat) (pfx : String) : Option (List Nat) :=
  let len := (bytes pfx).length
  if len ≠ 0 ∧ (text.take len).map tolower = (bytes pfx).map tolower then some (text.drop len)
  else none

/-- The C library function `strchr(s, c)` on a C string, as the offset of the first
occurrence of `c`. -/
def strchr (s : List Nat) (c : Nat) : Option Nat :=
  if s.indexOf c < s.length then some (s.indexOf c) else none

/-- The C library function `strrchr(s, c)` on a C string, as the offset of the last
occurrence of `c`. -/
def strrchr (s : List Nat) (c : Nat) : Option Nat :=
  if s.reverse.indexOf c < s.length then some (s.length - 1 - s.reverse.indexOf c) else none

/-- The conversion of the `int` result of `strtol` to `unsigned`. -/
def toUnsigned (v : Int) : Nat := (v % 4294967296).toNat

/-- The statements guarded by `if (char *q = strchr(p, ':'))` on the text `p` after the
prefix `#:`, namely `int line = strtol(q + 1, &q, 10); lines.push_back(line);`. -/
def pushReference (p : List Nat) (lines : List Nat) : List Nat :=
  match strchr p 0x3A with
  | none => lines
  | some i => lines ++ [toUnsigned (strtol (p.drop (i + 1)) 10).1]

/-- The quoted part of a line: with `p = strchr(buf, '"')` and `q = strrchr(buf, '"')`,
the value `n = q - p` and the `n - 1` bytes from `p + 1` when `n` is not zero; `none`
when `n` is zero, which is when the line has no quote or exactly one. -/
def quoted (buf : List Nat) : Option (List Nat) :=
  match strchr buf 0x22, strrchr buf 0x22 with
  | some p, some q => if q - p ≠ 0 then some ((buf.drop (p + 1)).take (q - p - 1)) else none
  | _, _ => none

/-- The method `std::vector::resize(n)` on a vector of strings. -/
def resize (a : List (List Nat)) (n : Nat) : List (List Nat) :=
  a.take n ++ List.replicate (n - a.length) []

/-- The statements `if (m_strarray.size() <= line) m_strarray.resize(line + 1);` with the
sum computed in `unsigned`. -/
def growTo (a : List (List Nat)) (line : Nat) : List (List Nat) :=
  if a.length ≤ line then resize a ((line + 1) % 4294967296) else a

/-- Removal of the characters `" \t\r\n"` from both ends of a string, as done by the two
`erase` calls on `format` and `directive`. -/
def trim (s : List Nat) : List Nat :=
  let ws := fun (c : Nat) => c == 0x20 || c == 0x09 || c == 0x0D || c == 0x0A
  ((s.dropWhile ws).reverse.dropWhile ws).reverse

/-- The strings successive calls of `fgets(buf, n, f)` deliver for the remaining
characters of a stream, `cur` being the part of the current string already read: a string
ends after a newline, after `n - 1` characters, or at the end of the stream. -/
def fgetsAll (n : Nat) : List Nat → List Nat → List (List Nat)
  | [], cur => if cur.isEmpty then [] else [cur]
  | c :: f, cur =>
    if c = 0x0A ∨ cur.length + 1 = n - 1 then (cur ++ [c]) :: fgetsAll n f []
    else fgetsAll n f (cur ++ [c])

/-- The lines the loop `while (eol = memchr(data, '\n', size))` over the template copies
into `buf`: each line without its newline, up to the first line of `sizeof buf` or more
bytes or to the last newline; `cur` is the part of the current line already scanned. -/
def templateLines (n : Nat) : List Nat → List Nat → List (List Nat)
  | [], _ => []
  | c :: d, cur =>
    if c = 0x0A then (if cur.length ≥ n then [] else cur :: templateLines n d [])
    else templateLines n d (cur ++ [c])

/-- The value of `i` after `int i = 0; sscanf(buf, "msgid \" LANG_ENGLISH ,
SUBLANG_ENGLISH_US \" %d", &i)`: white space in the format matches any run of white
space, other characters match themselves, and `%d` converts a decimal number like
`strtol`; `i` keeps the value 0 when the input stops matching before the conversion. -/
def sscanfMarker (buf : List Nat) : Int :=
  let ws := fun (s : List Nat) => s.dropWhile isspace
  let lit := fun (t : String) (s : Option (List Nat)) =>
    match s with
    | none => none
    | some s => if (bytes t).isPrefixOf s then some (ws (s.drop (bytes t).length)) else none
  let quote := fun (s : Option (List Nat)) =>
    match s with
    | some (0x22 :: s) => some (ws s)
    | _ => none
  match quote (lit "SUBLANG_ENGLISH_US" (lit "," (lit "LANG_ENGLISH" (quote (lit "msgid"
      (some buf)))))) with
  | none => 0
  | some s => (strtol s 10).1

/-- The C library function `strstr(s, pat)` on a C string: the text from the first
occurrence of `pat` on, `none` for the null pointer. -/
def strstr (s : List Nat) (pat : List Nat) : Option (List Nat) :=
  match s with
  | [] => if pat.isEmpty then some [] else none
  | c :: t => if pat.isPrefixOf (c :: t) then some (c :: t) else strstr t pat

/-- The C string found at `s` after `strtok(s, ",\" \t\r\n")` when `s` does not start
with a delimiter: the characters up to the first delimiter, which `strtok` replaces by a
NUL. -/
def strtokToken (s : List Nat) : List Nat :=
  s.takeWhile (fun c => !(c == 0x2C || c == 0x22 || c == 0x20 || c == 0x09 || c == 0x0D
    || c == 0x0A))

/-! ## `LoadResourceDLL` -/

/-- The local variables of the first loop of `LoadResourceDLL`, over the template, and
the array it fills. `ps` tells whether the pointer `ps` is set (to `&msgid`). -/
structure PotParse where
  ps : Bool
  msgid : List Nat
  lines : List Nat
  m_strarray : List (List Nat)
  deriving DecidableEq, Repr

/-- The loop `for (pline ...)` at the end of a template entry: every collected line
receives `msgid`. The result is `none` when `m_strarray[line]` is outside the array,
which is when `line + 1` wraps to zero. -/
def potAssign (msgid : List Nat) : List Nat → List (List Nat) → Option (List (List Nat))
  | [], a => some a
  | line :: rest, a =>
    let a1 := growTo a line
    if line < a1.length then potAssign msgid rest (a1.set line msgid) else none

/-- The chain `if (EatPrefix(buf, "#:")) ... else if (EatPrefix(buf, "msgid ")) ...` of the
first loop of `LoadResourceDLL`. -/
def potDirective (st : PotParse) (text : List Nat) : PotParse :=
  match EatPrefix text "#:" with
  | some p => { st with lines := pushReference p st.lines }
  | none =>
    match EatPrefix text "msgid " with
    | some _ => { st with ps := true }
    | none => st

/-- The body of the first loop of `LoadResourceDLL` for one line `buf` of the template. -/
def potStep (st : PotParse) (buf : List Nat) : Option PotParse :=
  let st1 := potDirective st (cstr buf)
  if st1.ps then
    match quoted (cstr buf) with
    | some part => some { st1 with msgid := st1.msgid ++ part }
    | none =>
      match potAssign st1.msgid st1.lines st1.m_strarray with
      | none => none
      | some a => some { ps := false, msgid := [], lines := [], m_strarray := a }
  else some st1

/-- The first loop of `LoadResourceDLL` over the lines of the template. -/
def potLoop : List (List Nat) → PotParse → Option PotParse
  | [], st => some st
  | buf :: rest, st =>
    match potStep st buf with
    | none => none
    | some st1 => potLoop rest st1

/-- The string the pointer `ps` designates in the second loop. -/
inductive Target where
  | msgid
  | msgstr
  deriving DecidableEq, Repr

/-- A comparison `m_strarray[line] == msgid` made by the second loop: the line, the
string held for it and the `msgid` it is compared with. -/
structure Check where
  line : Nat
  held : List Nat
  msgid : List Nat
  deriving DecidableEq, Repr

/-- The local variables of the second loop of `LoadResourceDLL`, over the catalog file,
and the members it changes. The field `checks` is not a variable of the program: it
records the comparisons made so far, for use in statements about the loop. -/
structure PoParse where
  ps : Option Target
  msgid : List Nat
  msgstr : List Nat
  format : List Nat
  directive : List Nat
  lines : List Nat
  badrefs : Nat
  m_strarray : List (List Nat)
  m_codepage : Nat
  checks : List Check
  deriving DecidableEq, Repr

/-- The constant `INT_MAX` of the target. -/
def INT_MAX : Nat := 2147483647

/-- The loop `for (pline ...)` at the end of a catalog entry: a collected line whose
string equals `msgid` receives `msgstr`, any other one increments `badrefs`. The result
is `none` when `m_strarray[line]` is outside the array or `++badrefs` overflows `int`. -/
def poAssign (msgid msgstr : List Nat) :
    List Nat → List (List Nat) × Nat × List Check → Option (List (List Nat) × Nat × List Check)
  | [], acc => some acc
  | line :: rest, (a, badrefs, checks) =>
    let a1 := growTo a line
    match a1[line]? with
    | none => none
    | some held =>
      if held = msgid then
        poAssign msgid msgstr rest (a1.set line msgstr, badrefs, checks ++ [⟨line, held, msgid⟩])
      else if badrefs < INT_MAX then
        poAssign msgid msgstr rest (a1, badrefs + 1, checks ++ [⟨line, held, msgid⟩])
      else none

/-- The end of a catalog entry: the `else` branch of `if (n = q - p)` in the second
loop. -/
def poCommit (w : World) (st : PoParse) : Option PoParse :=
  let msgstr0 := if st.msgstr.isEmpty then st.msgid else st.msgstr
  match unslash w.IsDBCSLeadByteEx st.m_codepage msgstr0 with
  | none => none
  | some msgstr =>
    match poAssign st.msgid msgstr st.lines (st.m_strarray, st.badrefs, st.checks) with
    | none => none
    | some (a, badrefs, checks) =>
      some { ps := none, msgid := [], msgstr := [], format := st.format,
             directive := st.directive, lines := [], badrefs := badrefs, m_strarray := a,
             m_codepage :=
               if st.directive = bytes "Codepage" then toUnsigned (strtol msgstr 10).1
               else st.m_codepage,
             checks := checks }

/-- The chain `if (EatPrefix(buf, "#:")) ... else if (EatPrefix(buf, "msgstr ")) ...` of
the second loop of `LoadResourceDLL`. -/
def poDirective (st : PoParse) (text : List Nat) : PoParse :=
  match EatPrefix text "#:" with
  | some p => { st with lines := pushReference p st.lines }
  | none =>
    match EatPrefix text "#," with
    | some p => { st with format := trim p }
    | none =>
      match EatPrefix text "#." with
      | some p => { st with directive := trim p }
      | none =>
        match EatPrefix text "msgid " with
        | some _ => { st with ps := some Target.msgid }
        | none =>
          match EatPrefix text "msgstr " with
          | some _ => { st with ps := some Target.msgstr }
          | none => st

/-- The body of the second loop of `LoadResourceDLL` for one string `buf` delivered by
`fgets`. -/
def poStep (w : World) (st : PoParse) (buf : List Nat) : Option PoParse :=
  let st1 := poDirective st (cstr buf)
  match st1.ps with
  | none => some st1
  | some t =>
    match quoted (cstr buf) with
    | some part =>
      match t with
      | Target.msgid => some { st1 with msgid := st1.msgid ++ part }
      | Target.msgstr => some { st1 with msgstr := st1.msgstr ++ part }
    | none => poCommit w st1

/-- The second loop of `LoadResourceDLL` over the strings delivered by `fgets`. -/
def poLoop (w : World) : List (List Nat) → PoParse → Option PoParse
  | [], st => some st
  | buf :: rest, st =>
    match poStep w st buf with
    | none => none
    | some st1 => poLoop w rest st1

/-- The state of the second loop when it is entered with the array `a` left by the
first. -/
def poInit (a : List (List Nat)) : PoParse :=
  { ps := none, msgid := [], msgstr := [], format := [], directive := [], lines := [],
    badrefs := 0, m_strarray := a, m_codepage := 0, checks := [] }

namespace CLanguageSelect

/-- The statements `FreeLibrary(m_hCurrentDll); m_hCurrentDll = NULL;`. -/
def FreeCurrentDll (self : CLanguageSelect) : CLanguageSelect :=
  { self with freed := self.freed ++ [self.m_hCurrentDll], m_hCurrentDll := 0 }

/-- The method `CLanguageSelect::LoadResourceDLL(szDllFileName)`; the null pointer is
`none`. The result is the returned `BOOL` and the object afterwards, or `none` when the
execution is undefined (an access outside `m_strarray` or outside a string, an overflow
of `badrefs`). -/
def LoadResourceDLL (w : World) (szDllFileName : Option (List Nat)) (self : CLanguageSelect) :
    Option (Bool × CLanguageSelect) :=
  -- reset the resource handle to point to the current file
  let s0 := { self with resourceHandle := w.instanceHandle }
  -- free the existing DLL
  let s1 := if s0.m_hCurrentDll ≠ 0 then FreeCurrentDll s0 else s0
  -- bail if using local resources
  match szDllFileName with
  | none => some (false, s1)
  | some name =>
    if cstr name = [] then some (false, s1)
    else
      let s2 := { s1 with m_strarray := [], m_codepage := 0, m_hCurrentDll := w.mergeLangDll }
      if s2.m_hCurrentDll = 0 then some (false, s2)
      else if w.instanceVer.1 ≠ w.resourceVer.1 ∨ w.instanceVer.2 ≠ w.resourceVer.2 then
        some (false, FreeCurrentDll s2)
      else
        match w.mergepot with
        | none => some (false, s2)
        | some data =>
          match potLoop (templateLines 1024 data [])
              { ps := false, msgid := [], lines := [], m_strarray := s2.m_strarray } with
          | none => none
          | some pot =>
            let s3 := { s2 with m_strarray := pot.m_strarray }
            match w.fopen name with
            | none => some (false, FreeCurrentDll s3)
            | some f =>
              match poLoop w (fgetsAll 1024 f []) (poInit s3.m_strarray) with
              | none => none
              | some po =>
                if po.badrefs ≠ 0 then
                  some (false, { FreeCurrentDll s3 with m_strarray := [], m_codepage := 0 })
                else
                  some (true, { s3 with m_strarray := po.m_strarray, m_codepage := po.m_codepage,
                                        resourceHandle := s3.m_hCurrentDll })

/-- The loop `while (fgets(buf, sizeof buf, f))` of `GetLanguage` over the strings
delivered by `fgets`. The result is `some (some id)` when the method returns `TRUE` with
`uiLanguage = id`, `some none` when it returns `FALSE`, and `none` when the execution is
undefined: `strcat(buf, "1")` on a full buffer, or a null pointer given to `strcmp`. -/
def GetLanguageLoop : List (List Nat) → Option (Option Nat)
  | [] => some none
  | buf :: rest =>
    if (cstr buf).length + 2 > 1024 then none
    else if sscanfMarker (cstr buf ++ [0x31]) ≠ 0 then
      match rest with
      | [] => some none
      | buf2 :: _ =>
        let lang := strstr (cstr buf2) (bytes "LANG_")
        let sublang := strstr (cstr buf2) (bytes "SUBLANG_")
        match LanguageSelect.GetLanguageArrayIndex (lang.map strtokToken)
            (sublang.map strtokToken) with
        | none => none
        | some i =>
          if i ≠ -1 then some ((lang_map[i.toNat]?).map (fun e => e.m_LangId))
          else some none
    else GetLanguageLoop rest

/-- The method `CLanguageSelect::GetLanguage(DllName, uiLanguage)`, see
`GetLanguageLoop` for the result. -/
def GetLanguage (w : World) (DllName : List Nat) : Option (Option Nat) :=
  match w.fopen DllName with
  | none => some none
  | some f => GetLanguageLoop (fgetsAll 1024 f [])

/-- The method `CLanguageSelect::GetPath(FileName)`. -/
def GetPath (w : World) (FileName : List Nat) : List Nat :=
  let Path := w.splitpath FileName
  if Path.getLast? ≠ some 0x5C ∧ Path.getLast? ≠ some 0x2F then Path ++ [0x5C] else Path

/-- The method `CLanguageSelect::GetLanguagePath(FileName)`, with `szRelativePath`. -/
def GetLanguagePath (w : World) (FileName : List Nat) : List Nat :=
  GetPath w FileName ++ (bytes "Languages" ++ [0x5C])

/-- The method `CLanguageSelect::GetDllsAt(szSearchPath, dlls)`: the paths added to
`dlls`. -/
def GetDllsAt (w : World) (szSearchPath : List Nat) : List (List Nat) :=
  ((w.findFiles (szSearchPath ++ bytes "*.po")).filter (fun e => !e.2)).map
    (fun e => szSearchPath ++ e.1)

/-- The loop of `GetDllName` over the files found. -/
def GetDllNameLoop (w : World) (wLangId : Nat) : List (List Nat) → Option (List Nat)
  | [] => some []
  | dll :: rest =>
    match GetLanguage w dll with
    | none => none
    | some (some wDllLang) => if wLangId = wDllLang then some dll else GetDllNameLoop w wLangId rest
    | some none => GetDllNameLoop w wLangId rest

/-- The method `CLanguageSelect::GetDllName(wLangId)`: the file name returned, empty when
there is none; `none` when the execution of `GetLanguage` is undefined. -/
def GetDllName (w : World) (wLangId : Nat) : Option (List Nat) :=
  match w.moduleFileName with
  | none => some []
  | some fullpath => GetDllNameLoop w wLangId (GetDllsAt w (GetLanguagePath w fullpath))

/-- The loop of the method `CLanguageSelect::GetLanguageArrayIndex(LangId)` from index
`i` over the entries that remain. -/
def GetLanguageArrayIndexFrom (tbl : List tLangDef) (LangId : Nat) (i : Nat) : Int :=
  match tbl with
  | [] => -1
  | e :: t =>
    if e.m_LangId = 0 then -1
    else if e.m_LangId = LangId then i
    else GetLanguageArrayIndexFrom t LangId (i + 1)

/-- The method `CLanguageSelect::GetLanguageArrayIndex(LangId)`. -/
def GetLanguageArrayIndex (LangId : Nat) : Int :=
  GetLanguageArrayIndexFrom lang_map LangId 0

/-- The part of `SetLanguage` under `if (result)`. -/
def SetLanguageResult (wLangId : Nat) (override : Bool) (result : Bool)
    (self : CLanguageSelect) : Bool × CLanguageSelect :=
  if result then
    let s1 := { self with m_wCurLanguage := wLangId }
    let s2 := if override then { s1 with profileWrites := s1.profileWrites ++ [wLangId] } else s1
    -- `MAKELCID(m_wCurLanguage, SORT_DEFAULT)` with `SORT_DEFAULT` equal to 0
    let s3 := { s2 with threadLocale := s2.m_wCurLanguage }
    let idx := GetLanguageArrayIndex s3.m_wCurLanguage
    let s4 :=
      if idx ≠ -1 then
        match lang_map[idx.toNat]? with
        | some e =>
          match e.pszLocale with
          | some l => if l ≠ "" then { s3 with crtLocale := some l } else s3
          | none => s3
        | none => s3
      else s3
    (result, s4)
  else (result, self)

/-- The method `CLanguageSelect::SetLanguage(wLangId, override)`: the returned `BOOL` and
the object afterwards, or `none` when the execution is undefined. -/
def SetLanguage (w : World) (wLangId : Nat) (override : Bool) (self : CLanguageSelect) :
    Option (Bool × CLanguageSelect) :=
  -- use local resources
  if PRIMARYLANGID wLangId = LANG_ENGLISH ∧ SUBLANGID wLangId = SUBLANG_ENGLISH_US then
    match LoadResourceDLL w none self with
    | none => none
    | some (_, s1) => some (SetLanguageResult wLangId override true s1)
  -- use resources from DLL
  else if self.m_wCurLanguage ≠ wLangId then
    match GetDllName w wLangId with
    | none => none
    | some strPath =>
      if ¬ strPath.isEmpty then
        match LoadResourceDLL w (some strPath) self with
        | none => none
        | some (r, s1) => some (SetLanguageResult wLangId override r s1)
      else some (SetLanguageResult wLangId override false self)
  else some (SetLanguageResult wLangId override false self)

/-- The state after the constructor `CLanguageSelect::CLanguageSelect`, which leaves
`m_codepage` uninitialised: its value is the argument `m_codepage`. The process state is
taken at its start: the resource handle is the instance handle and nothing was written. -/
def init (w : World) (m_codepage : Nat) : CLanguageSelect :=
  { m_wCurLanguage := wSourceLangId, m_hCurrentDll := 0, m_strarray := [],
    m_codepage := m_codepage, resourceHandle := w.instanceHandle, profileWrites := [],
    threadLocale := 0, crtLocale := none, freed := [] }

/-- The method `CLanguageSelect::TranslateString(line, s)` for `std::string`: the string
assigned to `s` when the method returns `true`, `none` when it returns `false`. -/
def TranslateString (self : CLanguageSelect) (line : Nat) : Option (List Nat) :=
  if line > 0 ∧ line < self.m_strarray.length then self.m_strarray[line]? else none

end CLanguageSelect

/-! ## Vocabulary of the statements about `unslash` -/

/-- The control character that a letter escape stands for in C: `a b f n r t v`. -/
def controlOf (letter : Nat) : Option Nat :=
  if letter = 0x61 then some 0x07
  else if letter = 0x62 then some 0x08
  else if letter = 0x66 then some 0x0C
  else if letter = 0x6E then some 0x0A
  else if letter = 0x72 then some 0x0D
  else if letter = 0x74 then some 0x09
  else if letter = 0x76 then some 0x0B
  else none

/-- A unit of escaped text: an ordinary byte, or a backslash followed by a letter. -/
inductive Piece where
  | plain (c : Nat)
  | escape (letter : Nat)
  deriving DecidableEq, Repr

/-- The pieces the letter-escape statement ranges over: an ordinary byte is a non-zero
ASCII byte other than the backslash, an escape letter is one of `a b f n r t v`. -/
def Piece.ordinary : Piece → Prop
  | .plain c => 0 < c ∧ c < 0x80 ∧ c ≠ 0x5C
  | .escape l => (controlOf l).isSome = true

instance (p : Piece) : Decidable p.ordinary := by
  cases p <;> unfold Piece.ordinary <;> infer_instance

/-- The bytes of a piece as written in the escaped text. -/
def Piece.raw : Piece → List Nat
  | .plain c => [c]
  | .escape l => [0x5C, l]

/-- The single byte a piece stands for. -/
def Piece.decoded : Piece → Nat
  | .plain c => c
  | .escape l => (controlOf l).getD l

/-- The character of the hexadecimal digit `n < 16`, in upper or lower case. -/
def hexDigitChar (upper : Bool) (n : Nat) : Nat :=
  if n < 10 then 0x30 + n else (if upper then 0x41 else 0x61) + (n - 10)

/-- The two-digit hexadecimal spelling of the byte `b`. -/
def hexSpelling (upper : Bool) (b : Nat) : List Nat :=
  [hexDigitChar upper (b / 16), hexDigitChar upper (b % 16)]

/-- The three-digit octal spelling of the byte `b`. -/
def octSpelling (b : Nat) : List Nat :=
  [0x30 + b / 64, 0x30 + b / 8 % 8, 0x30 + b % 8]

/-- Whether a text starts with a digit of the given base. -/
def startsWithDigit (base : Nat) (s : List Nat) : Bool :=
  match s with
  | [] => false
  | c :: _ => isDigitIn base c

/-! ## Vocabulary of the statements about loading and switching -/

/-- The files `GetDllName` probes: those `GetDllsAt` finds in the language directory of
the executable, none when `GetModuleFileName` fails. -/
def discovered (w : World) : List (List Nat) :=
  match w.moduleFileName with
  | none => []
  | some fullpath => CLanguageSelect.GetDllsAt w (CLanguageSelect.GetLanguagePath w fullpath)

/-- The array `m_strarray` after the first loop of `LoadResourceDLL`, when
`MergeLang.dll` has a `MERGEPOT` resource and the loop is defined. -/
def templateArray (w : World) : Option (List (List Nat)) :=
  match w.mergepot with
  | none => none
  | some data =>
    (potLoop (templateLines 1024 data [])
      { ps := false, msgid := [], lines := [], m_strarray := [] }).map (fun pot => pot.m_strarray)

/-- The state of the second loop of `LoadResourceDLL` when it ends, for the catalog file
`name`, when the template and the file can be read and both loops are defined. -/
def catalogRun (w : World) (name : List Nat) : Option PoParse :=
  match templateArray w with
  | none => none
  | some a =>
    match w.fopen name with
    | none => none
    | some f => poLoop w (fgetsAll 1024 f []) (poInit a)

/-- The handles freed once `LoadResourceDLL` has executed `free the existing DLL`: the
module of the object is freed when there is one. -/
def freedOnEntry (s : CLanguageSelect) : List Nat :=
  if s.m_hCurrentDll ≠ 0 then s.freed ++ [s.m_hCurrentDll] else s.freed

/-- The object after `LoadResourceDLL` has reset the resource handle and freed the
existing module, which is where it returns when it is called for the local resources. -/
def localResources (w : World) (s : CLanguageSelect) : CLanguageSelect :=
  { s with resourceHandle := w.instanceHandle, m_hCurrentDll := 0, freed := freedOnEntry s }

/-- The handles freed when `LoadResourceDLL` fails after `LoadLibrary("MergeLang.dll")`
on a path that frees what it loaded; nothing more is freed when the library did not
load. -/
def freedOnFailure (w : World) (s : CLanguageSelect) : List Nat :=
  if w.mergeLangDll = 0 then freedOnEntry s else freedOnEntry s ++ [w.mergeLangDll]

/-- A comparison that fails: the string held for the line differs from the `msgid`. -/
def Check.mismatch (c : Check) : Bool := c.held != c.msgid

/-- Whether the second loop of `LoadResourceDLL` runs for the catalog file `name` and
some committed entry has a reference line whose held string differs from the entry's
`msgid`. -/
def hasMismatch (w : World) (name : List Nat) : Bool :=
  match catalogRun w name with
  | none => false
  | some po => po.checks.any Check.mismatch

/-! ## Example environments -/

/-- A line of text with its newline. -/
def textLine (s : String) : List Nat := bytes s ++ [0x0A]

/-- A line `key "text"` with its newline. -/
def quotedLine (key : String) (text : String) : List Nat :=
  bytes key ++ [0x20, 0x22] ++ bytes text ++ [0x22, 0x0A]

/-- A catalog record: reference line, `msgid` line and `msgstr` line. -/
def record (ref : String) (msgid msgstr : String) : List Nat :=
  textLine ref ++ quotedLine "msgid" msgid ++ quotedLine "msgstr" msgstr

/-- A template that records the source text `Hello` for line 10 and `Bye` for line 12. -/
def demoTemplate : List Nat :=
  record "#: Merge.rc:10" "Hello" "" ++ textLine "" ++ record "#: Merge.rc:12" "Bye" "" ++
    textLine ""

/-- The header entry of a catalog for French. -/
def demoHeader : List Nat :=
  quotedLine "msgid" "LANG_ENGLISH, SUBLANG_ENGLISH_US" ++
    quotedLine "msgstr" "LANG_FRENCH, SUBLANG_FRENCH" ++ textLine ""

/-- The header entry of a catalog for German. -/
def demoHeaderGerman : List Nat :=
  quotedLine "msgid" "LANG_ENGLISH, SUBLANG_ENGLISH_US" ++
    quotedLine "msgstr" "LANG_GERMAN, SUBLANG_GERMAN" ++ textLine ""

/-- The path of the French catalog file of the example environments. -/
def demoPath : List Nat := bytes "C:/WinMerge/Languages" ++ [0x5C] ++ bytes "French.po"

/-- The path of the German catalog file of the example environments. -/
def demoPathGerman : List Nat := bytes "C:/WinMerge/Languages" ++ [0x5C] ++ bytes "German.po"

/-- An environment with two catalog files, `French.po` and `German.po`, of the given
contents, the template `demoTemplate`, and `MergeLang.dll` loading with the given
handle. -/
def demoWorld (mergeLangDll : Nat) (french german : List Nat) : World :=
  { IsDBCSLeadByteEx := fun _ _ => false, instanceHandle := 1, instanceVer := (2, 7),
    mergeLangDll := mergeLangDll, resourceVer := (2, 7), mergepot := some demoTemplate,
    fopen := fun n =>
      if n = demoPath then some french else if n = demoPathGerman then some german else none,
    moduleFileName := some (bytes "C:/WinMerge/WinMerge.exe"),
    splitpath := fun _ => bytes "C:/WinMerge/",
    findFiles := fun _ => [(bytes "French.po", false), (bytes "German.po", false)] }

/-- A catalog for French that translates line 10. -/
def demoFrench : List Nat :=
  demoHeader ++ record "#: file:10" "Hello" "Bonjour" ++ textLine ""

/-- A catalog for German whose entry for line 10 has a `msgid` other than the template's:
a mismatched reference. -/
def demoGermanBad : List Nat :=
  demoHeaderGerman ++ record "#: file:10" "Hi" "Hallo" ++ textLine ""

/-- A catalog for French whose second record refers to line 10 with another `msgid`. -/
def demoFrenchBad : List Nat :=
  demoHeader ++ record "#: file:10" "Hello" "Bonjour" ++ textLine "" ++
    record "#: file:10" "Hi" "Bonjour" ++ textLine ""

/-- A catalog for French made of a record and a second identical record, nothing else. -/
def demoTwiceAdjacent : List Nat :=
  record "#: file:10" "Hello" "Bonjour" ++ record "#: file:10" "Hello" "Bonjour"

/-- A catalog for French with a record, a blank line, a second identical record and a
blank line. -/
def demoTwiceClosed : List Nat :=
  demoHeader ++ record "#: file:10" "Hello" "Bonjour" ++ textLine "" ++
    record "#: file:10" "Hello" "Bonjour" ++ textLine ""

/-- The language id of French, `MAKELANGID(LANG_FRENCH, SUBLANG_FRENCH)`. -/
def demoFrenchId : Nat := MAKELANGID 0x0c 0x01

/-- The language id of German, `MAKELANGID(LANG_GERMAN, SUBLANG_GERMAN)`. -/
def demoGermanId : Nat := MAKELANGID 0x07 0x01

/-- The language id of Italian, `MAKELANGID(LANG_ITALIAN, SUBLANG_ITALIAN)`. -/
def demoItalianId : Nat := MAKELANGID 0x10 0x01

/-- The object after French has been selected in `demoWorld 5 demoFrench demoGermanBad`
starting from the constructed object. -/
def demoLoaded : CLanguageSelect :=
  { m_wCurLanguage := demoFrenchId, m_hCurrentDll := 5,
    m_strarray := [[], [], [], [], [], [], [], [], [], [], bytes "Bonjour", [], bytes "Bye"],
    m_codepage := 0, resourceHandle := 5, profileWrites := [demoFrenchId],
    threadLocale := demoFrenchId, crtLocale := some "fra", freed := [] }

/-- The object after German has been selected without success while `demoLoaded` was
the state, in `demoWorld 5 demoFrench demoGermanBad`: the French module and then
`MergeLang.dll` have been freed. -/
def demoAfterFailure : CLanguageSelect :=
  { demoLoaded with m_hCurrentDll := 0, m_strarray := [], resourceHandle := 1,
                    freed := [5, 5] }

/-! ## Vocabulary of the statements about `lang_map` -/

/-- The entries of a table before its sentinel, the first entry whose language id is 0. -/
def beforeSentinel (tbl : List tLangDef) : List tLangDef :=
  tbl.takeWhile (fun e => e.m_LangId != 0)

/-- The index `k` is the least index of an entry of `es` that satisfies `p`. -/
def LeastIndex (p : tLangDef → Prop) (es : List tLangDef) (k : Nat) : Prop :=
  (∃ e, es[k]? = some e ∧ p e) ∧ ∀ j e, j < k → es[j]? = some e → ¬ p e

/-- The key of the lookup by names: both name strings equal the arguments. -/
def hasNames (lang sublang : List Nat) (e : tLangDef) : Prop :=
  e.lang.map bytes = some lang ∧ e.sublang.map bytes = some sublang

/-- The pairs of name strings `(lang, sublang)` of the entries of `lang_map` before the
sentinel, in table order. -/
def lang_map_names : List (Option String × Option String) :=
  (beforeSentinel lang_map).map (fun e => (e.lang, e.sublang))

/-! ## Vocabulary of the statements about sequences of calls and about entries -/

/-- A sequence of `SetLanguage` calls, each given by its language id and its override
flag, from the object `s`: the object after the last call. -/
def SetLanguageSeq (w : World) : List (Nat × Bool) → CLanguageSelect → Option CLanguageSelect
  | [], s => some s
  | call :: rest, s =>
    match CLanguageSelect.SetLanguage w call.1 call.2 s with
    | none => none
    | some r => SetLanguageSeq w rest r.2

/-- The comparisons the second loop of `LoadResourceDLL` makes for the catalog file
`name` after the first `n` of them. -/
def checksFrom (w : World) (name : List Nat) (n : Nat) : List Check :=
  match catalogRun w name with
  | none => []
  | some po => po.checks.drop n

/-- The state `Default` of the specification: the current language is the default id
and no module is loaded. -/
def IsDefault (s : CLanguageSelect) : Prop :=
  s.m_wCurLanguage = wSourceLangId ∧ s.m_hCurrentDll = 0

/-- The state `Loaded` of the specification: the current language is a non-default id,
the module `MergeLang.dll` is loaded, and the mapping and the codepage are those the
second loop of `LoadResourceDLL` computes, without bad reference, for the catalog file
`GetDllName` finds for the current language. -/
def IsLoaded (w : World) (s : CLanguageSelect) : Prop :=
  s.m_wCurLanguage ≠ wSourceLangId ∧ s.m_hCurrentDll ≠ 0 ∧ s.m_hCurrentDll = w.mergeLangDll ∧
    ∃ path po, CLanguageSelect.GetDllName w s.m_wCurLanguage = some path ∧
      catalogRun w path = some po ∧ po.badrefs = 0 ∧
      s.m_strarray = po.m_strarray ∧ s.m_codepage = po.m_codepage

/-- Whether every call of a sequence of `SetLanguage` calls from the object `s` is
defined and either returns `TRUE` or leaves the object as it was. -/
def succeedOrKeep (w : World) : List (Nat × Bool) → CLanguageSelect → Bool
  | [], _ => true
  | call :: rest, s =>
    match CLanguageSelect.SetLanguage w call.1 call.2 s with
    | none => false
    | some (r, s1) => (r || decide (s1 = s)) && succeedOrKeep w rest s1

/-- Whether `GetLanguage` takes the string `buf` delivered by `fgets` for the marker
record: its test `if (i)` after `strcat(buf, "1")` and `sscanf`. -/
def isMarker (buf : List Nat) : Bool := sscanfMarker (cstr buf ++ [0x31]) != 0

/-- Whether `strcat(buf, "1")` stays inside `char buf[1024]` for the string `buf`
delivered by `fgets`. -/
def fitsBuffer (buf : List Nat) : Bool := (cstr buf).length + 2 ≤ 1024

/-! ## More example catalogs -/

/-- A catalog for French with a `Codepage` entry translated to 1250 and nothing else. -/
def demoCodepageOnly : List Nat :=
  demoHeader ++ textLine "#. Codepage" ++ quotedLine "msgid" "1252" ++
    quotedLine "msgstr" "1250" ++ textLine ""

/-- A catalog for French with a `Codepage` entry translated to 1250, followed by an entry
that translates line 10. -/
def demoCodepageThenEntry : List Nat :=
  demoCodepageOnly ++ record "#: file:10" "Hello" "Bonjour" ++ textLine ""

/-- The object `LoadResourceDLL` leaves when it loads `French.po` of
`demoWorld 5 demoFrench demoGermanBad` into the constructed object. -/
def demoAfterLoad : CLanguageSelect :=
  { CLanguageSelect.init (demoWorld 5 demoFrench demoGermanBad) 1252 with
    m_hCurrentDll := 5, m_strarray := demoLoaded.m_strarray, m_codepage := 0,
    resourceHandle := 5 }

/-- A catalog made of one entry for line 10 with an empty `msgstr`, ended by a blank
line. -/
def demoFallback : List Nat :=
  record "#: file:10" "Hello" "" ++ textLine ""

/-- A catalog for French whose entry for line 10 has an empty `msgstr`, followed by a
second entry for line 10 with the translation `Bonjour`. -/
def demoFallbackThenEntry : List Nat :=
  demoHeader ++ record "#: file:10" "Hello" "" ++ textLine "" ++
    record "#: file:10" "Hello" "Bonjour" ++ textLine ""

/-- A catalog for French whose only entry with a reference has an empty `msgstr`. -/
def demoFallbackOnly : List Nat := demoHeader ++ demoFallback

/-- The array the first loop of `LoadResourceDLL` builds from `demoTemplate`. -/
def demoTemplateArray : List (List Nat) :=
  [[], [], [], [], [], [], [], [], [], [], bytes "Hello", [], bytes "Bye"]

/-- The state of the second loop once it has read `#: file:10`, `msgid "Hello"` and
`msgstr ""` after the header entry of a demo catalog. -/
def demoBeforeCommit : PoParse :=
  { ps := some Target.msgstr, msgid := bytes "Hello", msgstr := [], format := [],
    directive := [], lines := [10], badrefs := 0, m_strarray := demoTemplateArray,
    m_codepage := 0, checks := [] }

/-- A catalog file without marker record whose first line has 1023 letters `A`. -/
def demoLongLine : List Nat := List.replicate 1023 0x41 ++ [0x0A]

/-- A catalog file whose marker record is followed by an empty `msgstr`. -/
def demoUntranslated : List Nat :=
  quotedLine "msgid" "LANG_ENGLISH, SUBLANG_ENGLISH_US" ++ quotedLine "msgstr" "" ++
    textLine ""

/-- A catalog file whose marker record is followed by names that are not in
`lang_map`. -/
def demoUnknownNames : List Nat :=
  quotedLine "msgid" "LANG_ENGLISH, SUBLANG_ENGLISH_US" ++
    quotedLine "msgstr" "LANG_KLINGON, SUBLANG_DEFAULT" ++ textLine ""

/-! ## Vocabulary of the statements about records, positions and lead bytes -/

/-- The test `(*p & 0x80) && IsDBCSLeadByteEx(codepage, *p)` of `unslash` on the byte
`c`. -/
def isLeadByte (IsDBCSLeadByteEx : Nat → Nat → Bool) (codepage : Nat) (c : Nat) : Bool :=
  (c &&& 0x80 != 0) && IsDBCSLeadByteEx codepage c

/-- The values of `p - &*s.begin()` and `q - &*s.begin()` at the start of every iteration
of the loop of `unslash`, first iteration first, when the loop starts with these values
`p` and `qpos` and the buffer `q` from the read pointer on. An iteration moves `p` by the
number of bytes it writes and `q` to the read pointer it leaves. -/
def unslashHeads (IsDBCSLeadByteEx : Nat → Nat → Bool) (codepage : Nat) :
    Nat → List Nat → Nat → Nat → Option (List (Nat × Nat))
  | 0, _, _, _ => none
  | fuel + 1, q, p, qpos =>
    match unslashIter IsDBCSLeadByteEx codepage q with
    | none => none
    | some (_, none) => some [(p, qpos)]
    | some (w, some q1) =>
      (unslashHeads IsDBCSLeadByteEx codepage fuel q1 (p + w.length)
        (qpos + (q.length - q1.length))).map (fun t => (p, qpos) :: t)

/-- What the loop of `unslash` needs of the buffer from the read pointer on: it ends with
the terminator, and every byte that passes the lead-byte test is followed by two bytes at
least, the last being the terminator. -/
def okBuf (lead : Nat → Nat → Bool) (cp : Nat) (q : List Nat) : Prop :=
  q.getLast? = some 0 ∧
    ∀ pre L rest, q = pre ++ L :: rest → isLeadByte lead cp L = true → 2 ≤ rest.length

/-- The string `msgstr` of an entry when it is committed, after the statement
`if (msgstr.empty()) msgstr = msgid;` and before `unslash`. -/
def PoParse.translation (st : PoParse) : List Nat :=
  if st.msgstr.isEmpty then st.msgid else st.msgstr

/-- Whether the string `buf` ends a record in the state `st` of the second loop: after
the directive of the line a literal is open (`ps` is set), and the line has no two
double quotes (`n = q - p` is zero). -/
def endsRecord (st : PoParse) (buf : List Nat) : Bool :=
  (poDirective st (cstr buf)).ps.isSome && (quoted (cstr buf)).isNone

/-- The state of the first loop of `LoadResourceDLL` when it is entered. -/
def potInit : PotParse := { ps := false, msgid := [], lines := [], m_strarray := [] }

/-- Whether a line opens a literal: it starts with `msgid ` or with `msgstr `, the two
prefixes for which the second loop sets `ps`. -/
def opensLiteral (text : List Nat) : Bool :=
  (EatPrefix text "msgid ").isSome || (EatPrefix text "msgstr ").isSome

/-- The reference lines that the `#:` lines among `bufs` add to `acc`, in order; both
loops of `LoadResourceDLL` treat these lines with the same statements. -/
def referenceLinesFrom (acc : List Nat) : List (List Nat) → List Nat
  | [] => acc
  | buf :: rest =>
    match EatPrefix (cstr buf) "#:" with
    | some p => referenceLinesFrom (pushReference p acc) rest
    | none => referenceLinesFrom acc rest

/-- The reference lines named on the `#:` lines among `bufs`. -/
def referenceLines (bufs : List (List Nat)) : List Nat := referenceLinesFrom [] bufs

/-- The text written in the lines `bufs` of a literal: for each line the bytes between
its first and its last double quote, as they are in the file. -/
def literalText (bufs : List (List Nat)) : List Nat :=
  (bufs.map (fun b => (quoted (cstr b)).getD [])).flatten

/-- Whether the lines are a record of the template as a `.pot` file has it: lines `refs`
that do not start with `msgid `, the line `mid` that starts with `msgid `, the lines
`conts` that continue the literal, the lines `ms` of the `msgstr`, all these with two
double quotes and no `#:` prefix, and the line `fin` without two quotes that ends the
record. -/
def isTemplateRecord (refs : List (List Nat)) (mid : List Nat) (conts ms : List (List Nat))
    (fin : List Nat) : Bool :=
  refs.all (fun b => (EatPrefix (cstr b) "msgid ").isNone) &&
  (EatPrefix (cstr mid) "msgid ").isSome &&
  (mid :: (conts ++ ms)).all
    (fun b => (EatPrefix (cstr b) "#:").isNone && (quoted (cstr b)).isSome) &&
  (EatPrefix (cstr fin) "#:").isNone && (quoted (cstr fin)).isNone

/-- Whether a line starts the `msgid` of an entry of the catalog: none of the prefixes
`#:`, `#,`, `#.` applies and the prefix `msgid ` does. -/
def startsMsgid (text : List Nat) : Bool :=
  (EatPrefix text "#:").isNone && (EatPrefix text "#,").isNone &&
    (EatPrefix text "#.").isNone && (EatPrefix text "msgid ").isSome

/-- Whether a line starts the `msgstr` of an entry of the catalog: of the five prefixes
of the second loop only the last, `msgstr `, applies. -/
def startsMsgstr (text : List Nat) : Bool :=
  (EatPrefix text "#:").isNone && (EatPrefix text "#,").isNone &&
    (EatPrefix text "#.").isNone && (EatPrefix text "msgid ").isNone &&
    (EatPrefix text "msgstr ").isSome

/-- Whether none of the five prefixes of the second loop applies to a line, as for a
line that continues a literal and for a blank line. -/
def isContinuation (text : List Nat) : Bool :=
  (EatPrefix text "#:").isNone && (EatPrefix text "#,").isNone &&
    (EatPrefix text "#.").isNone && (EatPrefix text "msgid ").isNone &&
    (EatPrefix text "msgstr ").isNone

/-- Whether the strings are an entry of the catalog as a `.po` file has it: lines `refs`
that open no literal (references and comments), the `msgid` line `mid` with its
continuation lines, the `msgstr` line `ms` with its continuation lines, all literal lines
with two double quotes, and the line `fin` without prefix and without two quotes that
ends the record. -/
def isCatalogRecord (refs : List (List Nat)) (mid : List Nat) (midconts : List (List Nat))
    (ms : List Nat) (msconts : List (List Nat)) (fin : List Nat) : Bool :=
  refs.all (fun b => !opensLiteral (cstr b)) &&
  startsMsgid (cstr mid) && midconts.all (fun b => isContinuation (cstr b)) &&
  startsMsgstr (cstr ms) && msconts.all (fun b => isContinuation (cstr b)) &&
  (mid :: (midconts ++ ms :: msconts)).all (fun b => (quoted (cstr b)).isSome) &&
  isContinuation (cstr fin) && (quoted (cstr fin)).isNone

/-- The reference lines of the entries that the second loop commits for the strings
`bufs`, in the order of its comparisons, when it starts with the pointer `ps` and the
collected `lines`: a string ends a record when `ps` is set after its directive and it has
no two double quotes, and the record then has the lines collected so far. Only the
prefixes and the quotes of the strings are looked at. -/
def committedRefs : List (List Nat) → Option Target → List Nat → List Nat
  | [], _, _ => []
  | buf :: rest, ps, lines =>
    let st1 := poDirective { poInit [] with ps := ps, lines := lines } (cstr buf)
    if st1.ps.isSome && (quoted (cstr buf)).isNone then st1.lines ++ committedRefs rest none []
    else committedRefs rest st1.ps st1.lines

/-- Whether every lead byte of the text is followed by another byte of the text, a lead
byte being the first byte of a two-byte character: the text is read character by
character from its start, a byte that passes the lead-byte test takes the next byte as its
trail byte, whatever its value, and a lead byte with nothing after it makes the text
fail. -/
def leadBytesFollowed (IsDBCSLeadByteEx : Nat → Nat → Bool) (codepage : Nat) :
    List Nat → Bool
  | [] => true
  | [c] => !isLeadByte IsDBCSLeadByteEx codepage c
  | c :: t :: r =>
    if isLeadByte IsDBCSLeadByteEx codepage c then leadBytesFollowed IsDBCSLeadByteEx codepage r
    else leadBytesFollowed IsDBCSLeadByteEx codepage (t :: r)

/-! ## Example environments for records and templates -/

/-- The example environment with `French.po` and `German.po`, where `MergeLang.dll`
loads with handle 5 and the right version but has no `MERGEPOT` resource. -/
def demoNoTemplate : World :=
  { demoWorld 5 demoFrench demoGermanBad with mergepot := none }

/-- A template whose entry for line 10 has the source text `A\tB`, written with a
backslash and the letter `t`. -/
def demoTemplateEscape : List Nat :=
  record "#: Merge.rc:10" "A\\tB" "" ++ textLine ""

/-- The example environment with the template `demoTemplateEscape` and the given
contents of `French.po`. -/
def demoEscapeWorld (french : List Nat) : World :=
  { demoWorld 5 french demoGermanBad with mergepot := some demoTemplateEscape }

/-- A catalog for French that translates line 10 of `demoTemplateEscape`, with an
escape sequence in the translation. -/
def demoFrenchEscape : List Nat :=
  demoHeader ++ record "#: file:10" "A\\tB" "C\\tD" ++ textLine ""

/-- A catalog for French whose only entry with a reference is not followed by any line:
the file ends with the `msgstr` line. -/
def demoUnterminated : List Nat :=
  demoHeader ++ record "#: file:10" "Hello" "Bonjour"

/-- A catalog for French with an entry for line 10, a blank line, and a second entry for
line 10 that ends the file with its `msgstr` line. -/
def demoUnterminatedSecond : List Nat :=
  demoHeader ++ record "#: file:10" "Hello" "Bonjour" ++ textLine "" ++
    record "#: file:10" "Hello" "Salut"

/-- The lead bytes of codepage 936: the values 0x81 to 0xFE. -/
def demoLead936 (codepage c : Nat) : Bool := codepage == 936 && (0x81 ≤ c && c ≤ 0xFE)

/-! # Theorems -/

/-! ## `unslash` -/

theorem and_0x80_of_lt {c : Nat} (h : c < 0x80) : c &&& 0x80 = 0 := by
  have key : ∀ c, c < 0x80 → c &&& 0x80 = 0 := by decide
  exact key c h

theorem unslashDefault_spec {lead : Nat → Nat → Bool} {cp c : Nat} {r w : List Nat}
    {o : Option (List Nat)} (h : unslashDefault lead cp c r = some (w, o)) :
    w ≠ [] ∧ ∀ q1, o = some q1 → q1.length ≤ r.length := by
  unfold unslashDefault at h
  split at h
  · cases r with
    | nil => simp at h
    | cons t r1 =>
      simp only [Option.some.injEq, Prod.mk.injEq] at h
      obtain ⟨rfl, rfl⟩ := h
      refine ⟨by simp, ?_⟩
      intro q1 hq1
      split at hq1
      · simp at hq1
      · simp only [Option.some.injEq] at hq1
        subst hq1
        simp
  · simp only [Option.some.injEq, Prod.mk.injEq] at h
    obtain ⟨rfl, rfl⟩ := h
    refine ⟨by simp, ?_⟩
    intro q1 hq1
    split at hq1
    · simp at hq1
    · simp only [Option.some.injEq] at hq1
      subst hq1
      simp

theorem unslashIter_spec {lead : Nat → Nat → Bool} {cp : Nat} {q w : List Nat}
    {o : Option (List Nat)} (h : unslashIter lead cp q = some (w, o)) :
    w ≠ [] ∧ ∀ q1, o = some q1 → q1.length < q.length := by
  have fallspec : ∀ (c : Nat) (r : List Nat), r.length < q.length →
      unslashDefault lead cp c r = some (w, o) →
      w ≠ [] ∧ ∀ q1, o = some q1 → q1.length < q.length := by
    intro c r hr hf
    have := unslashDefault_spec hf
    refine ⟨this.1, fun q1 hq1 => ?_⟩
    have := this.2 q1 hq1
    omega
  have numspec : ∀ (v c1 k : Nat) (r : List Nat), r.length < q.length → 0 < k →
      some ([v], if c1 = 0 then none else some (r.drop k)) = some (w, o) →
      w ≠ [] ∧ ∀ q1, o = some q1 → q1.length < q.length := by
    intro v c1 k r hr hk h
    simp only [Option.some.injEq, Prod.mk.injEq] at h
    obtain ⟨rfl, rfl⟩ := h
    refine ⟨by simp, ?_⟩
    intro q1 hq1
    split at hq1
    · simp at hq1
    · simp only [Option.some.injEq] at hq1
      subst hq1
      simp only [List.length_drop]
      omega
  cases q with
  | nil => exact absurd h (by simp [unslashIter])
  | cons c r =>
    unfold unslashIter at h
    dsimp only at h
    by_cases hc : c = 0x5C
    · rw [if_pos hc] at h
      cases r with
      | nil => exact absurd h (by simp)
      | cons c1 r1 =>
        dsimp only at h
        have hlen : r1.length < (c :: c1 :: r1).length := by simp only [List.length_cons]; omega
        have hlen1 : (c1 :: r1).length < (c :: c1 :: r1).length := by simp
        by_cases h1 : c1 = 0x61
        · rw [if_pos h1] at h; exact fallspec _ _ hlen h
        rw [if_neg h1] at h
        by_cases h2 : c1 = 0x62
        · rw [if_pos h2] at h; exact fallspec _ _ hlen h
        rw [if_neg h2] at h
        by_cases h3 : c1 = 0x66
        · rw [if_pos h3] at h; exact fallspec _ _ hlen h
        rw [if_neg h3] at h
        by_cases h4 : c1 = 0x6E
        · rw [if_pos h4] at h; exact fallspec _ _ hlen h
        rw [if_neg h4] at h
        by_cases h5 : c1 = 0x72
        · rw [if_pos h5] at h; exact fallspec _ _ hlen h
        rw [if_neg h5] at h
        by_cases h6 : c1 = 0x74
        · rw [if_pos h6] at h; exact fallspec _ _ hlen h
        rw [if_neg h6] at h
        by_cases h7 : c1 = 0x76
        · rw [if_pos h7] at h; exact fallspec _ _ hlen h
        rw [if_neg h7] at h
        by_cases h8 : c1 = 0x78
        · rw [if_pos h8] at h
          by_cases hk : 0 < (strtol r1 16).2
          · rw [if_pos hk] at h; exact numspec _ _ _ _ hlen hk h
          · rw [if_neg hk] at h; exact fallspec _ _ hlen h
        rw [if_neg h8] at h
        by_cases hk : 0 < (strtol (c1 :: r1) 8).2
        · rw [if_pos hk] at h; exact numspec _ _ _ _ hlen1 hk h
        · rw [if_neg hk] at h; exact fallspec _ _ hlen1 h
    · rw [if_neg hc] at h
      exact fallspec _ _ (by simp) h

theorem unslashLoop_fuel (lead : Nat → Nat → Bool) (cp : Nat) :
    ∀ (n m : Nat) (q : List Nat), q.length ≤ n → q.length ≤ m →
      unslashLoop lead cp n q = unslashLoop lead cp m q := by
  intro n
  induction n with
  | zero =>
    intro m q hn _
    have : q = [] := List.length_eq_zero.mp (Nat.le_zero.mp hn)
    subst this
    cases m with
    | zero => rfl
    | succ m => simp [unslashLoop, unslashIter]
  | succ n ih =>
    intro m q hn hm
    cases q with
    | nil =>
      cases m with
      | zero => simp [unslashLoop, unslashIter]
      | succ m => simp [unslashLoop, unslashIter]
    | cons c r =>
      cases m with
      | zero => simp at hm
      | succ m =>
        simp only [unslashLoop]
        cases hi : unslashIter lead cp (c :: r) with
        | none => rfl
        | some p =>
          obtain ⟨w, o⟩ := p
          cases o with
          | none => rfl
          | some q1 =>
            have hl := (unslashIter_spec hi).2 q1 rfl
            simp only [List.length_cons] at hl hn hm
            dsimp only
            rw [ih m q1 (by omega) (by omega)]

theorem unslashLoop_ne_nil {lead : Nat → Nat → Bool} {cp : Nat} :
    ∀ (n : Nat) (q t : List Nat), unslashLoop lead cp n q = some t → t ≠ [] := by
  intro n
  induction n with
  | zero => intro q t h; simp [unslashLoop] at h
  | succ n ih =>
    intro q t h
    simp only [unslashLoop] at h
    cases hi : unslashIter lead cp q with
    | none => simp [hi] at h
    | some p =>
      obtain ⟨w, o⟩ := p
      have hw := (unslashIter_spec hi).1
      cases o with
      | none =>
        simp only [hi, Option.some.injEq] at h
        subst h
        exact hw
      | some q1 =>
        simp only [hi, Option.map_eq_some'] at h
        obtain ⟨t1, _, rfl⟩ := h
        simp [hw]

/-- Decoding is compositional: when one iteration of the loop at the start of
`tok ++ rest` writes `w` and leaves the read pointer at `rest`, the decoding of
`tok ++ rest` is `w` followed by the decoding of `rest`. -/
theorem unslash_append_of_iter {lead : Nat → Nat → Bool} {cp : Nat} (tok rest w : List Nat)
    (h : unslashIter lead cp (tok ++ rest ++ [0]) = some (w, some (rest ++ [0]))) :
    unslash lead cp (tok ++ rest) = (unslash lead cp rest).map (fun t => w ++ t) := by
  have hl := (unslashIter_spec h).2 _ rfl
  simp only [List.length_append, List.length_singleton] at hl
  have e : unslashLoop lead cp ((tok ++ rest).length + 1) (tok ++ rest ++ [0]) =
      (unslashLoop lead cp (tok ++ rest).length (rest ++ [0])).map (fun t => w ++ t) := by
    rw [unslashLoop, h]
  unfold unslash
  rw [e, unslashLoop_fuel lead cp (tok ++ rest).length (rest.length + 1) (rest ++ [0])
    (by simp; omega) (by simp)]
  cases hr : unslashLoop lead cp (rest.length + 1) (rest ++ [0]) with
  | none => rfl
  | some t =>
    have ht := unslashLoop_ne_nil _ _ _ hr
    simp only [Option.map_some', Option.some.injEq]
    exact List.dropLast_append_of_ne_nil _ ht

theorem digit_range {base c : Nat} (hb : base ≤ 36) (h : isDigitIn base c = true) :
    0x30 ≤ c ∧ c ≤ 0x7A := by
  unfold isDigitIn digitVal at h
  simp only [decide_eq_true_eq] at h
  split at h
  · omega
  · split at h
    · omega
    · split at h
      · omega
      · omega

theorem strtol_digits (base : Nat) (hb : base ≤ 16) (d1 d2 : Nat) (ds rest : List Nat)
    (h1 : isDigitIn base d1 = true) (h2 : isDigitIn base d2 = true)
    (hds : ∀ d ∈ ds, isDigitIn base d = true) (hrest : startsWithDigit base rest = false)
    (hv : ((d1 :: d2 :: ds).foldl (fun a c => a * base + digitVal c) 0 : Nat) ≤ 2147483647) :
    strtol (d1 :: d2 :: ds ++ rest) base =
      ((((d1 :: d2 :: ds).foldl (fun a c => a * base + digitVal c) 0 : Nat) : Int),
        (d1 :: d2 :: ds).length) := by
  have r1 := digit_range (by omega : base ≤ 36) h1
  have r2 := digit_range (by omega : base ≤ 36) h2
  have hs1 : isspace d1 = false := by
    unfold isspace
    simp only [Bool.or_eq_false_iff, beq_eq_false_iff_ne, Bool.and_eq_false_iff,
      decide_eq_false_iff_not]
    omega
  have hx : ¬ (d2 = 0x78 ∨ d2 = 0x58) := by
    intro hx
    unfold isDigitIn digitVal at h2
    rcases hx with rfl | rfl
    · simp at h2; omega
    · simp at h2; omega
  have htw : (d1 :: d2 :: ds ++ rest).takeWhile (isDigitIn base) = d1 :: d2 :: ds := by
    have : ∀ (l : List Nat), (∀ d ∈ l, isDigitIn base d = true) →
        (l ++ rest).takeWhile (isDigitIn base) = l := by
      intro l hl
      induction l with
      | nil =>
        cases rest with
        | nil => rfl
        | cons c r =>
          simp only [startsWithDigit] at hrest
          simp [List.takeWhile_cons, hrest]
      | cons a l ih =>
        simp only [List.cons_append, List.takeWhile_cons, hl a (List.mem_cons_self _ _),
          if_true]
        rw [ih (fun d hd => hl d (List.mem_cons_of_mem _ hd))]
    have := this (d1 :: d2 :: ds) (by
      intro d hd
      simp only [List.mem_cons] at hd
      rcases hd with rfl | rfl | hd
      · exact h1
      · exact h2
      · exact hds d hd)
    simpa using this
  unfold strtol
  have e1 : (d1 :: d2 :: ds ++ rest).takeWhile isspace = [] := by
    simp [List.takeWhile_cons, hs1]
  have e2 : (d1 :: d2 :: ds ++ rest).dropWhile isspace = d1 :: d2 :: ds ++ rest := by
    simp [List.dropWhile_cons, hs1]
  have n1 : d1 ≠ 0x2D := by omega
  have n2 : d1 ≠ 0x2B := by omega
  simp only [e1, e2]
  have e3 : (match (d1 :: d2 :: ds ++ rest : List Nat) with
      | 0x2D :: _ => (1 : Nat)
      | 0x2B :: _ => 1
      | _ => 0) = 0 := by
    simp only [List.cons_append]
    split
    · rename_i heq; simp only [List.cons.injEq] at heq; omega
    · rename_i heq; simp only [List.cons.injEq] at heq; omega
    · rfl
  have e4 : (match (d1 :: d2 :: ds ++ rest : List Nat) with
      | 0x2D :: _ => true
      | _ => false) = false := by
    simp only [List.cons_append]
    split
    · rename_i heq; simp only [List.cons.injEq] at heq; omega
    · rfl
  simp only [e3, e4, List.drop_zero]
  have e5 : (match (d1 :: d2 :: ds ++ rest : List Nat) with
      | 0x30 :: x :: d :: _ =>
        if base = 16 ∧ (x = 0x78 ∨ x = 0x58) ∧ isDigitIn 16 d = true then 2 else 0
      | _ => 0) = 0 := by
    simp only [List.cons_append]
    split
    · rename_i x d t heq
      simp only [List.cons.injEq] at heq
      obtain ⟨_, rfl, _⟩ := heq
      simp [hx]
    · rfl
  simp only [e5, List.drop_zero, htw]
  simp only [List.isEmpty_cons, Bool.false_eq_true, if_false, List.length_nil, Nat.zero_add,
    LONG_MAX]
  rw [if_neg (by omega)]

theorem unslashDefault_ascii (lead : Nat → Nat → Bool) (cp : Nat) {c : Nat} (r : List Nat)
    (h0 : c ≠ 0) (h : c < 0x80) : unslashDefault lead cp c r = some ([c], some r) := by
  unfold unslashDefault
  rw [if_neg (by simp [and_0x80_of_lt h]), if_neg h0]

theorem unslashIter_plain (lead : Nat → Nat → Bool) (cp : Nat) {c : Nat} (r : List Nat)
    (h0 : 0 < c) (h : c < 0x80) (hb : c ≠ 0x5C) :
    unslashIter lead cp (c :: r) = some ([c], some r) := by
  unfold unslashIter
  dsimp only
  rw [if_neg hb]
  exact unslashDefault_ascii lead cp r (by omega) h

theorem unslashIter_escape (lead : Nat → Nat → Bool) (cp : Nat) {l b : Nat} (r : List Nat)
    (h : controlOf l = some b) : unslashIter lead cp (0x5C :: l :: r) = some ([b], some r) := by
  unfold controlOf at h
  unfold unslashIter
  dsimp only
  rw [if_pos rfl]
  repeat' split at h
  all_goals first
    | (simp only [Option.some.injEq] at h
       subst h
       simp only [*, if_true, if_false]
       first
         | exact unslashDefault_ascii lead cp r (by decide) (by decide)
         | (subst_vars; simp only [Nat.reduceEqDiff, if_false, if_true]
            exact unslashDefault_ascii lead cp r (by decide) (by decide)))
    | exact absurd h (by simp)

/-- Claim C8: `unslash` decodes the letter escapes to control characters: for every text made
of ordinary ASCII bytes (non-zero, below 0x80, not the backslash) and of the
two-character escapes `\a \b \f \n \r \t \v`, and for every codepage and lead-byte
table, the result is the text with each escape replaced by its control character
(0x07, 0x08, 0x0C, 0x0A, 0x0D, 0x09, 0x0B) and every other byte unchanged. -/
theorem unslash_letter_escapes (lead : Nat → Nat → Bool) (cp : Nat) (ps : List Piece)
    (h : ∀ p ∈ ps, p.ordinary) :
    unslash lead cp (ps.map Piece.raw).flatten = some (ps.map Piece.decoded) := by
  induction ps with
  | nil =>
    simp [unslash, unslashLoop, unslashIter, unslashDefault]
  | cons p ps ih =>
    have ihp := ih (fun p hp => h p (List.mem_cons_of_mem _ hp))
    have hp := h p (List.mem_cons_self _ _)
    simp only [List.map_cons, List.flatten_cons]
    cases p with
    | plain c =>
      simp only [Piece.ordinary] at hp
      have hi := unslashIter_plain lead cp ((ps.map Piece.raw).flatten ++ [0]) hp.1 hp.2.1 hp.2.2
      have := unslash_append_of_iter [c] (ps.map Piece.raw).flatten [c] hi
      simp only [Piece.raw, Piece.decoded]
      rw [this, ihp]
      rfl
    | escape l =>
      simp only [Piece.ordinary, Option.isSome_iff_exists] at hp
      obtain ⟨b, hb⟩ := hp
      have hi := unslashIter_escape lead cp ((ps.map Piece.raw).flatten ++ [0]) hb
      have := unslash_append_of_iter [0x5C, l] (ps.map Piece.raw).flatten [b] hi
      simp only [Piece.raw, Piece.decoded, hb]
      rw [this, ihp]
      rfl

/-- Witness of claim C8: with every byte flagged as a lead byte, the five characters
backslash `n` backslash `t` `X` decode to the three bytes 0x0A, 0x09, 0x58. -/
theorem unslash_letter_escapes_witness :
    unslash (fun _ _ => true) 932 [0x5C, 0x6E, 0x5C, 0x74, 0x58] = some [0x0A, 0x09, 0x58] :=
  unslash_letter_escapes (fun _ _ => true) 932 [.escape 0x6E, .escape 0x74, .plain 0x58]
    (by decide)

theorem toChar_natCast (n : Nat) : toChar (n : Int) = n % 256 := by
  unfold toChar
  have : ((n : Int) % 256) = ((n % 256 : Nat) : Int) := by norm_cast
  rw [this]
  exact Int.toNat_natCast _

theorem digitVal_hexDigitChar (upper : Bool) {n : Nat} (h : n < 16) :
    digitVal (hexDigitChar upper n) = n := by
  have key : ∀ (u : Bool) (n : Nat), n < 16 → digitVal (hexDigitChar u n) = n := by decide
  exact key upper n h

theorem unslashIter_hex (lead : Nat → Nat → Bool) (cp : Nat) (d1 d2 : Nat) (rest : List Nat)
    (h1 : isDigitIn 16 d1 = true) (h2 : isDigitIn 16 d2 = true)
    (hrest : startsWithDigit 16 rest = false) :
    unslashIter lead cp (0x5C :: 0x78 :: d1 :: d2 :: rest) =
      some ([digitVal d1 * 16 + digitVal d2], some rest) := by
  have v1 : digitVal d1 < 16 := by simpa [isDigitIn] using h1
  have v2 : digitVal d2 < 16 := by simpa [isDigitIn] using h2
  have hs := strtol_digits 16 (by omega) d1 d2 [] rest h1 h2 (by simp) hrest
    (by simp only [List.foldl_cons, List.foldl_nil]; omega)
  simp only [List.cons_append, List.nil_append, List.foldl_cons, List.foldl_nil, Nat.zero_mul,
    Nat.zero_add, List.length_cons, List.length_nil] at hs
  unfold unslashIter
  dsimp only
  rw [if_pos rfl]
  simp only [Nat.reduceEqDiff, if_false, if_true, hs]
  simp only [Nat.lt_add_left_iff_pos, Nat.zero_lt_succ, if_true, List.drop_succ_cons,
    List.drop_zero, toChar_natCast]
  congr 3
  omega

theorem unslashIter_oct (lead : Nat → Nat → Bool) (cp : Nat) (d1 d2 d3 : Nat)
    (rest : List Nat) (h1 : isDigitIn 8 d1 = true) (h2 : isDigitIn 8 d2 = true)
    (h3 : isDigitIn 8 d3 = true) (hrest : startsWithDigit 8 rest = false) :
    unslashIter lead cp (0x5C :: d1 :: d2 :: d3 :: rest) =
      some ([((digitVal d1 * 8 + digitVal d2) * 8 + digitVal d3) % 256], some rest) := by
  have v1 : digitVal d1 < 8 := by simpa [isDigitIn] using h1
  have v2 : digitVal d2 < 8 := by simpa [isDigitIn] using h2
  have v3 : digitVal d3 < 8 := by simpa [isDigitIn] using h3
  have r1 := digit_range (by omega : 8 ≤ 36) h1
  have hs := strtol_digits 8 (by omega) d1 d2 [d3] rest h1 h2 (by simpa using h3) hrest
    (by simp only [List.foldl_cons, List.foldl_nil]; omega)
  simp only [List.cons_append, List.nil_append, List.foldl_cons, List.foldl_nil, Nat.zero_mul,
    Nat.zero_add, List.length_cons, List.length_nil] at hs
  have n1 : d1 ≠ 0x61 := by intro e; subst e; simp [digitVal] at v1
  have n2 : d1 ≠ 0x62 := by intro e; subst e; simp [digitVal] at v1
  have n3 : d1 ≠ 0x66 := by intro e; subst e; simp [digitVal] at v1
  have n4 : d1 ≠ 0x6E := by intro e; subst e; simp [digitVal] at v1
  have n5 : d1 ≠ 0x72 := by intro e; subst e; simp [digitVal] at v1
  have n6 : d1 ≠ 0x74 := by intro e; subst e; simp [digitVal] at v1
  have n7 : d1 ≠ 0x76 := by intro e; subst e; simp [digitVal] at v1
  have n8 : d1 ≠ 0x78 := by intro e; subst e; simp [digitVal] at v1
  have n0 : d1 ≠ 0 := by omega
  unfold unslashIter
  dsimp only
  rw [if_pos rfl, if_neg n1, if_neg n2, if_neg n3, if_neg n4, if_neg n5, if_neg n6, if_neg n7,
    if_neg n8, hs]
  simp only [Nat.lt_add_left_iff_pos, Nat.zero_lt_succ, if_true, List.drop_succ_cons,
    List.drop_zero, toChar_natCast, if_neg n0]

theorem digitVal_decimal {n : Nat} (h : n < 10) : digitVal (0x30 + n) = n := by
  unfold digitVal
  rw [if_pos (by omega)]
  omega

theorem octSpelling_spec {b : Nat} (hb : b < 256) :
    isDigitIn 8 (0x30 + b / 64) = true ∧ isDigitIn 8 (0x30 + b / 8 % 8) = true ∧
      isDigitIn 8 (0x30 + b % 8) = true ∧
      ((digitVal (0x30 + b / 64) * 8 + digitVal (0x30 + b / 8 % 8)) * 8 +
        digitVal (0x30 + b % 8)) % 256 = b := by
  have a1 : b / 64 < 10 := by omega
  have a2 : b / 8 % 8 < 10 := by omega
  have a3 : b % 8 < 10 := by omega
  simp only [isDigitIn, digitVal_decimal a1, digitVal_decimal a2, digitVal_decimal a3,
    decide_eq_true_eq]
  omega

/-- Claim C9: `unslash` decodes numeric escapes to their exact byte values. For every byte
value `b` in `0 .. 255`, every codepage and lead-byte table: backslash `x` followed by the
two-digit hexadecimal spelling of `b` (in either case) decodes to the one-byte string
`[b]`, and backslash followed by the three-digit octal spelling of `b` decodes to `[b]`;
when the escape is followed by a text `rest` that does not start with a further
hexadecimal (resp. octal) digit, the result is `b` followed by the decoding of `rest`
on its own. -/
theorem unslash_numeric_escapes (lead : Nat → Nat → Bool) (cp : Nat) (b : Nat) (hb : b < 256)
    (upper : Bool) :
    unslash lead cp (0x5C :: 0x78 :: hexSpelling upper b) = some [b] ∧
    unslash lead cp (0x5C :: octSpelling b) = some [b] ∧
    (∀ rest : List Nat, startsWithDigit 16 rest = false →
      unslash lead cp (0x5C :: 0x78 :: hexSpelling upper b ++ rest) =
        (unslash lead cp rest).map (fun t => b :: t)) ∧
    (∀ rest : List Nat, startsWithDigit 8 rest = false →
      unslash lead cp (0x5C :: octSpelling b ++ rest) =
        (unslash lead cp rest).map (fun t => b :: t)) := by
  have hq : b / 16 < 16 := by omega
  have hr : b % 16 < 16 := by omega
  have e1 := digitVal_hexDigitChar upper hq
  have e2 := digitVal_hexDigitChar upper hr
  have hexgen : ∀ rest : List Nat, startsWithDigit 16 rest = false →
      unslash lead cp (0x5C :: 0x78 :: hexSpelling upper b ++ rest) =
        (unslash lead cp rest).map (fun t => b :: t) := by
    intro rest hrest
    have hrest0 : startsWithDigit 16 (rest ++ [0]) = false := by
      cases rest with
      | nil => decide
      | cons c r => simpa [startsWithDigit] using hrest
    have hi := unslashIter_hex lead cp (hexDigitChar upper (b / 16))
      (hexDigitChar upper (b % 16)) (rest ++ [0]) (by simp [isDigitIn, e1, hq])
      (by simp [isDigitIn, e2, hr]) hrest0
    rw [e1, e2, Nat.div_add_mod' b 16] at hi
    exact unslash_append_of_iter (0x5C :: 0x78 :: hexSpelling upper b) rest [b] hi
  have octgen : ∀ rest : List Nat, startsWithDigit 8 rest = false →
      unslash lead cp (0x5C :: octSpelling b ++ rest) =
        (unslash lead cp rest).map (fun t => b :: t) := by
    intro rest hrest
    have hrest0 : startsWithDigit 8 (rest ++ [0]) = false := by
      cases rest with
      | nil => decide
      | cons c r => simpa [startsWithDigit] using hrest
    obtain ⟨o1, o2, o3, ov⟩ := octSpelling_spec hb
    have hi := unslashIter_oct lead cp _ _ _ (rest ++ [0]) o1 o2 o3 hrest0
    rw [ov] at hi
    exact unslash_append_of_iter (0x5C :: octSpelling b) rest [b] hi
  have hnil : unslash lead cp [] = some [] := by
    simp [unslash, unslashLoop, unslashIter, unslashDefault]
  refine ⟨?_, ?_, hexgen, octgen⟩
  · have := hexgen [] rfl
    rw [hnil] at this
    simpa using this
  · have := octgen [] rfl
    rw [hnil] at this
    simpa using this

/-- Witness of claim C9: the byte 0xE9, spelled `E9` and `351`. -/
theorem unslash_numeric_escapes_witness :
    unslash (fun _ _ => true) 932 [0x5C, 0x78, 0x45, 0x39] = some [0xE9] ∧
    unslash (fun _ _ => true) 932 [0x5C, 0x33, 0x35, 0x31] = some [0xE9] :=
  ⟨(unslash_numeric_escapes (fun _ _ => true) 932 0xE9 (by decide) true).1,
    (unslash_numeric_escapes (fun _ _ => true) 932 0xE9 (by decide) true).2.1⟩

/-- Claim C10 fails on the code: the escaped quote is decoded to two quote characters and
an escaped backslash makes the text after it be decoded differently. With no lead bytes,
`Say \"hi\"` decodes to `Say ""hi""`, and backslash backslash `n` decodes to the two
bytes backslash, newline. The octal branch `strtol(--r, &q, 8)` moves `r` back onto the
escaped character, and `q = r` then makes the loop read that character a second time. -/
theorem unslash_escaped_quote_and_backslash :
    unslash (fun _ _ => false) 0 (bytes "Say " ++ [0x5C, 0x22] ++ bytes "hi" ++ [0x5C, 0x22]) =
      some (bytes "Say " ++ [0x22, 0x22] ++ bytes "hi" ++ [0x22, 0x22]) ∧
    unslash (fun _ _ => false) 0 [0x5C, 0x5C, 0x6E] = some [0x5C, 0x0A] := by
  decide



/-! ## `LoadResourceDLL` -/

/-- The result of `LoadResourceDLL` for a proper file name when `MergeLang.dll` loads with
the version of the executable and both loops run: `FALSE` with everything cleared when
`badrefs` is not zero, `TRUE` with the array and codepage of the second loop otherwise. -/
theorem LoadResourceDLL_of_run (w : World) (name : List Nat) (s : CLanguageSelect)
    (po : PoParse) (hname : cstr name ≠ []) (hdll : w.mergeLangDll ≠ 0)
    (hver : w.instanceVer = w.resourceVer) (hrun : catalogRun w name = some po) :
    CLanguageSelect.LoadResourceDLL w (some name) s =
      if po.badrefs ≠ 0 then
        some (false, { s with resourceHandle := w.instanceHandle, m_hCurrentDll := 0,
                              m_strarray := [], m_codepage := 0,
                              freed := freedOnFailure w s })
      else
        some (true, { s with resourceHandle := w.mergeLangDll, m_hCurrentDll := w.mergeLangDll,
                             m_strarray := po.m_strarray, m_codepage := po.m_codepage,
                             freed := freedOnEntry s }) := by
  unfold catalogRun templateArray at hrun
  cases hm : w.mergepot with
  | none => simp [hm] at hrun
  | some data =>
    simp only [hm] at hrun
    cases hp : potLoop (templateLines 1024 data [])
        { ps := false, msgid := [], lines := [], m_strarray := [] } with
    | none => simp [hp] at hrun
    | some pot =>
      simp only [hp, Option.map_some'] at hrun
      cases hf : w.fopen name with
      | none => simp [hf] at hrun
      | some f =>
        simp only [hf] at hrun
        unfold CLanguageSelect.LoadResourceDLL
        by_cases h0 : s.m_hCurrentDll = 0 <;> by_cases hb : po.badrefs = 0 <;>
          simp [h0, hb, hname, hdll, hver, hm, hp, hf, hrun, freedOnFailure, freedOnEntry,
            CLanguageSelect.FreeCurrentDll]

theorem poAssign_count (msgid msgstr : List Nat) :
    ∀ (lines : List Nat) (a a1 : List (List Nat)) (b b1 : Nat) (cs cs1 : List Check),
      poAssign msgid msgstr lines (a, b, cs) = some (a1, b1, cs1) →
      b = cs.countP Check.mismatch → b1 = cs1.countP Check.mismatch := by
  intro lines
  induction lines with
  | nil =>
    intro a a1 b b1 cs cs1 h hb
    simp only [poAssign, Option.some.injEq, Prod.mk.injEq] at h
    obtain ⟨_, rfl, rfl⟩ := h
    exact hb
  | cons line rest ih =>
    intro a a1 b b1 cs cs1 h hb
    unfold poAssign at h
    dsimp only at h
    cases hg : (growTo a line)[line]? with
    | none => simp [hg] at h
    | some held =>
      simp only [hg] at h
      by_cases hm : held = msgid
      · rw [if_pos hm] at h
        refine ih _ _ _ _ _ _ h ?_
        simp [List.countP_append, Check.mismatch, hm, hb]
      · rw [if_neg hm] at h
        by_cases hlt : b < INT_MAX
        · rw [if_pos hlt] at h
          refine ih _ _ _ _ _ _ h ?_
          simp [List.countP_append, Check.mismatch, hm, hb]
        · rw [if_neg hlt] at h
          exact absurd h (by simp)

theorem poDirective_fields (st : PoParse) (text : List Nat) :
    (poDirective st text).badrefs = st.badrefs ∧ (poDirective st text).checks = st.checks ∧
      (poDirective st text).m_strarray = st.m_strarray ∧
      (poDirective st text).m_codepage = st.m_codepage := by
  unfold poDirective
  repeat' split
  all_goals exact ⟨rfl, rfl, rfl, rfl⟩

theorem poCommit_count (w : World) (st st1 : PoParse) (h : poCommit w st = some st1)
    (hb : st.badrefs = st.checks.countP Check.mismatch) :
    st1.badrefs = st1.checks.countP Check.mismatch := by
  unfold poCommit at h
  dsimp only at h
  split at h
  · exact absurd h (by simp)
  · split at h
    · exact absurd h (by simp)
    · rename_i a b cs ha
      simp only [Option.some.injEq] at h
      subst h
      exact poAssign_count _ _ _ _ _ _ _ _ _ ha hb

theorem poStep_count (w : World) (st st1 : PoParse) (buf : List Nat)
    (h : poStep w st buf = some st1) (hb : st.badrefs = st.checks.countP Check.mismatch) :
    st1.badrefs = st1.checks.countP Check.mismatch := by
  have hd := poDirective_fields st (cstr buf)
  have hb1 : (poDirective st (cstr buf)).badrefs =
      (poDirective st (cstr buf)).checks.countP Check.mismatch := by
    rw [hd.1, hd.2.1]
    exact hb
  unfold poStep at h
  dsimp only at h
  split at h
  · simp only [Option.some.injEq] at h
    subst h
    exact hb1
  · split at h
    · split at h <;>
        (simp only [Option.some.injEq] at h
         subst h
         exact hb1)
    · exact poCommit_count w _ _ h hb1

theorem poLoop_count (w : World) :
    ∀ (bufs : List (List Nat)) (st st1 : PoParse), poLoop w bufs st = some st1 →
      st.badrefs = st.checks.countP Check.mismatch →
      st1.badrefs = st1.checks.countP Check.mismatch := by
  intro bufs
  induction bufs with
  | nil =>
    intro st st1 h hb
    simp only [poLoop, Option.some.injEq] at h
    subst h
    exact hb
  | cons buf rest ih =>
    intro st st1 h hb
    unfold poLoop at h
    cases hs : poStep w st buf with
    | none => simp [hs] at h
    | some st2 =>
      simp only [hs] at h
      exact ih _ _ h (poStep_count w _ _ _ hs hb)

theorem catalogRun_count (w : World) (name : List Nat) (po : PoParse)
    (h : catalogRun w name = some po) : po.badrefs = po.checks.countP Check.mismatch := by
  unfold catalogRun at h
  cases ht : templateArray w with
  | none => simp [ht] at h
  | some a =>
    simp only [ht] at h
    cases hf : w.fopen name with
    | none => simp [hf] at h
    | some f =>
      simp only [hf] at h
      exact poLoop_count w _ _ _ h rfl

/-- The result of `LoadResourceDLL` for a proper file name is `FALSE` with everything
cleared when `MergeLang.dll` does not load or has another version than the executable. -/
theorem LoadResourceDLL_no_module (w : World) (name : List Nat) (s : CLanguageSelect)
    (hname : cstr name ≠ [])
    (h : w.mergeLangDll = 0 ∨ w.instanceVer.1 ≠ w.resourceVer.1 ∨
      w.instanceVer.2 ≠ w.resourceVer.2) :
    CLanguageSelect.LoadResourceDLL w (some name) s =
      some (false, { s with resourceHandle := w.instanceHandle, m_hCurrentDll := 0,
                            m_strarray := [], m_codepage := 0,
                            freed := freedOnFailure w s }) := by
  unfold CLanguageSelect.LoadResourceDLL
  by_cases hd : w.mergeLangDll = 0
  · by_cases h0 : s.m_hCurrentDll = 0 <;>
      simp [h0, hname, hd, freedOnFailure, freedOnEntry, CLanguageSelect.FreeCurrentDll]
  · have hv : w.instanceVer.1 ≠ w.resourceVer.1 ∨ w.instanceVer.2 ≠ w.resourceVer.2 := by
      rcases h with h | h
      · exact absurd h hd
      · exact h
    by_cases h0 : s.m_hCurrentDll = 0 <;>
      simp [h0, hname, hd, hv, freedOnFailure, freedOnEntry, CLanguageSelect.FreeCurrentDll]

/-- Claim C6: for every environment, template and catalog in which some committed entry
has a reference line whose held string differs from the entry's `msgid`,
`LoadResourceDLL` (called with a proper file name) rejects the catalog in full: it
returns `FALSE`, and afterwards `m_strarray` is empty, the codepage is 0 and no module
is loaded. -/
theorem LoadResourceDLL_mismatch (w : World) (name : List Nat) (s : CLanguageSelect)
    (hname : cstr name ≠ []) (hbad : hasMismatch w name = true) :
    CLanguageSelect.LoadResourceDLL w (some name) s =
      some (false, { s with resourceHandle := w.instanceHandle, m_hCurrentDll := 0,
                            m_strarray := [], m_codepage := 0,
                            freed := freedOnFailure w s }) := by
  unfold hasMismatch at hbad
  cases hrun : catalogRun w name with
  | none => simp [hrun] at hbad
  | some po =>
    simp only [hrun] at hbad
    have hcount := catalogRun_count w name po hrun
    have hpos : po.badrefs ≠ 0 := by
      rw [hcount]
      have : 0 < po.checks.countP Check.mismatch := by
        rw [List.countP_pos_iff]
        simpa using hbad
      omega
    by_cases hm : w.mergeLangDll = 0 ∨ w.instanceVer.1 ≠ w.resourceVer.1 ∨
        w.instanceVer.2 ≠ w.resourceVer.2
    · exact LoadResourceDLL_no_module w name s hname hm
    · have hdll : w.mergeLangDll ≠ 0 := fun e => hm (Or.inl e)
      have hver : w.instanceVer = w.resourceVer := by
        apply Prod.ext
        · by_contra e; exact hm (Or.inr (Or.inl e))
        · by_contra e; exact hm (Or.inr (Or.inr e))
      rw [LoadResourceDLL_of_run w name s po hname hdll hver hrun, if_pos hpos]

/-- Witness of claim C6: the template records `Hello` for line 10, and the catalog holds
the block `#: file:10`, `msgid "Hello"`, `msgstr "Bonjour"` followed by the block
`#: file:10`, `msgid "Hi"`, `msgstr "Bonjour"`; nothing of the catalog is kept, not even
the entry that matched. -/
theorem LoadResourceDLL_mismatch_witness :
    CLanguageSelect.LoadResourceDLL (demoWorld 5 demoFrenchBad []) (some demoPath) demoLoaded =
      some (false, { demoLoaded with resourceHandle := 1, m_hCurrentDll := 0,
                                     m_strarray := [], m_codepage := 0,
                                     freed := [5, 5] }) :=
  LoadResourceDLL_mismatch (demoWorld 5 demoFrenchBad []) demoPath demoLoaded (by decide)
    (by decide)

theorem poAssign_mono (msgid msgstr : List Nat) :
    ∀ (lines : List Nat) (a a1 : List (List Nat)) (b b1 : Nat) (cs cs1 : List Check),
      poAssign msgid msgstr lines (a, b, cs) = some (a1, b1, cs1) → b ≤ b1 := by
  intro lines
  induction lines with
  | nil =>
    intro a a1 b b1 cs cs1 h
    simp only [poAssign, Option.some.injEq, Prod.mk.injEq] at h
    omega
  | cons line rest ih =>
    intro a a1 b b1 cs cs1 h
    unfold poAssign at h
    dsimp only at h
    cases hg : (growTo a line)[line]? with
    | none => simp [hg] at h
    | some held =>
      simp only [hg] at h
      by_cases hm : held = msgid
      · rw [if_pos hm] at h
        exact ih _ _ _ _ _ _ h
      · rw [if_neg hm] at h
        by_cases hlt : b < INT_MAX
        · rw [if_pos hlt] at h
          have := ih _ _ _ _ _ _ h
          omega
        · rw [if_neg hlt] at h
          exact absurd h (by simp)

theorem poCommit_mono (w : World) (st st1 : PoParse) (h : poCommit w st = some st1) :
    st.badrefs ≤ st1.badrefs := by
  unfold poCommit at h
  dsimp only at h
  split at h
  · exact absurd h (by simp)
  · split at h
    · exact absurd h (by simp)
    · rename_i a b cs ha
      simp only [Option.some.injEq] at h
      subst h
      exact poAssign_mono _ _ _ _ _ _ _ _ _ ha

theorem poStep_mono (w : World) (st st1 : PoParse) (buf : List Nat)
    (h : poStep w st buf = some st1) : st.badrefs ≤ st1.badrefs := by
  have hd := (poDirective_fields st (cstr buf)).1
  unfold poStep at h
  dsimp only at h
  split at h
  · simp only [Option.some.injEq] at h
    subst h
    omega
  · split at h
    · split at h <;>
        (simp only [Option.some.injEq] at h
         subst h
         dsimp only
         omega)
    · have := poCommit_mono w _ _ h
      omega

theorem poLoop_mono (w : World) :
    ∀ (bufs : List (List Nat)) (st st1 : PoParse), poLoop w bufs st = some st1 →
      st.badrefs ≤ st1.badrefs := by
  intro bufs
  induction bufs with
  | nil =>
    intro st st1 h
    simp only [poLoop, Option.some.injEq] at h
    subst h
    exact Nat.le_refl _
  | cons buf rest ih =>
    intro st st1 h
    unfold poLoop at h
    cases hs : poStep w st buf with
    | none => simp [hs] at h
    | some st2 =>
      simp only [hs] at h
      have h1 := poStep_mono w _ _ _ hs
      have h2 := ih _ _ h
      omega

/-- The array and the counter after the loop `for (pline ...)` of a catalog entry with
the single reference line `k`. -/
theorem poAssign_single {msgid msgstr : List Nat} {k : Nat} {a a1 : List (List Nat)}
    {b b1 : Nat} {cs cs1 : List Check}
    (h : poAssign msgid msgstr [k] (a, b, cs) = some (a1, b1, cs1)) :
    k < a1.length ∧ b ≤ b1 ∧ (b1 = b → a1[k]? = some msgstr) := by
  unfold poAssign at h
  dsimp only at h
  cases hg : (growTo a k)[k]? with
  | none => simp [hg] at h
  | some held =>
    have hk : k < (growTo a k).length := by
      by_contra hk
      rw [List.getElem?_eq_none (by omega)] at hg
      exact absurd hg (by simp)
    simp only [hg] at h
    by_cases hm : held = msgid
    · rw [if_pos hm] at h
      simp only [poAssign, Option.some.injEq, Prod.mk.injEq] at h
      obtain ⟨rfl, rfl, _⟩ := h
      refine ⟨by simpa using hk, Nat.le_refl _, fun _ => ?_⟩
      simp [List.getElem?_set, hk]
    · rw [if_neg hm] at h
      by_cases hlt : b < INT_MAX
      · rw [if_pos hlt] at h
        simp only [poAssign, Option.some.injEq, Prod.mk.injEq] at h
        obtain ⟨rfl, rfl, _⟩ := h
        exact ⟨hk, by omega, fun e => by omega⟩
      · rw [if_neg hlt] at h
        exact absurd h (by simp)

theorem growTo_of_lt {a : List (List Nat)} {k : Nat} (h : k < a.length) : growTo a k = a := by
  unfold growTo
  rw [if_neg (by omega)]

/-- Counterexample to claim C7: with a template that records `Hello` for line 10, the
catalog made of the record `#: file:10`, `msgid "Hello"`, `msgstr "Bonjour"` followed by
a second identical record is rejected, `LoadResourceDLL` returns `FALSE` and the array
is empty; so is the catalog in which a blank line follows each of the two records. -/
theorem LoadResourceDLL_repeated_record_rejected :
    CLanguageSelect.LoadResourceDLL (demoWorld 5 demoTwiceAdjacent []) (some demoPath)
        (CLanguageSelect.init (demoWorld 5 demoTwiceAdjacent []) 0) =
      some (false, { CLanguageSelect.init (demoWorld 5 demoTwiceAdjacent []) 0 with
                       freed := [5] }) ∧
    CLanguageSelect.LoadResourceDLL (demoWorld 5 demoTwiceClosed []) (some demoPath)
        (CLanguageSelect.init (demoWorld 5 demoTwiceClosed []) 0) =
      some (false, { CLanguageSelect.init (demoWorld 5 demoTwiceClosed []) 0 with
                       freed := [5] }) := by
  decide

/-- Claim C7 as amended: when a record with one reference line `k`, `msgid` `m` and
`msgstr` `t` is committed twice in succession and the decoding of its translation (of
`m` when `t` is empty) is not `m` itself, the second loop of `LoadResourceDLL` ends with
`badrefs` different from zero whatever follows, so that the catalog is rejected: after
the first commit the line holds the translation and no longer equals `m`. -/
theorem poCommit_repeated_record (w : World) (st po : PoParse) (k : Nat) (m t : List Nat)
    (rest : List (List Nat))
    (hd : unslash w.IsDBCSLeadByteEx st.m_codepage (if t.isEmpty then m else t) ≠ some m)
    (hrun : ((poCommit w { st with lines := [k], msgid := m, msgstr := t }).bind
        (fun st1 => poCommit w { st1 with lines := [k], msgid := m, msgstr := t })).bind
        (poLoop w rest) = some po) :
    po.badrefs ≠ 0 := by
  cases h1 : poCommit w { st with lines := [k], msgid := m, msgstr := t } with
  | none => simp [h1] at hrun
  | some st1 =>
    simp only [h1, Option.some_bind] at hrun
    cases h2 : poCommit w { st1 with lines := [k], msgid := m, msgstr := t } with
    | none => simp [h2] at hrun
    | some st3 =>
      simp only [h2, Option.some_bind] at hrun
      have hmono := poLoop_mono w _ _ _ hrun
      suffices h3 : 0 < st3.badrefs by omega
      unfold poCommit at h1 h2
      dsimp only at h1 h2
      split at h1
      · exact absurd h1 (by simp)
      · rename_i d1 hu1
        split at h1
        · exact absurd h1 (by simp)
        · rename_i a1 b1 cs1 ha1
          simp only [Option.some.injEq] at h1
          subst h1
          dsimp only at h2
          split at h2
          · exact absurd h2 (by simp)
          · rename_i d2 hu2
            split at h2
            · exact absurd h2 (by simp)
            · rename_i a2 b2 cs2 ha2
              simp only [Option.some.injEq] at h2
              subst h2
              dsimp only
              have s1 := poAssign_single ha1
              by_cases hb : b1 = st.badrefs
              · have hheld := s1.2.2 hb
                unfold poAssign at ha2
                dsimp only at ha2
                rw [growTo_of_lt s1.1, hheld] at ha2
                dsimp only at ha2
                have hne : d1 ≠ m := by
                  intro e
                  rw [e] at hu1
                  exact hd hu1
                rw [if_neg hne] at ha2
                by_cases hlt : b1 < INT_MAX
                · rw [if_pos hlt] at ha2
                  simp only [poAssign, Option.some.injEq, Prod.mk.injEq] at ha2
                  omega
                · rw [if_neg hlt] at ha2
                  exact absurd ha2 (by simp)
              · have := (poAssign_single ha2).2.1
                have := s1.2.1
                omega

/-- Witness of claim C7 as amended: line 10 holds `Hello`, and the record with `msgid`
`Hello` and `msgstr` `Bonjour` is committed twice. -/
theorem poCommit_repeated_record_witness :
    ({ ps := none, msgid := [], msgstr := [], format := [], directive := [], lines := [],
       badrefs := 1,
       m_strarray := [[], [], [], [], [], [], [], [], [], [], bytes "Bonjour"],
       m_codepage := 0,
       checks := [⟨10, bytes "Hello", bytes "Hello"⟩, ⟨10, bytes "Bonjour", bytes "Hello"⟩] }
      : PoParse).badrefs ≠ 0 :=
  poCommit_repeated_record (demoWorld 5 [] [])
    (poInit [[], [], [], [], [], [], [], [], [], [], bytes "Hello"]) _ 10 (bytes "Hello")
    (bytes "Bonjour") [] (by decide) (by decide)

/-- What a failed `LoadResourceDLL` for a proper file name leaves behind. -/
theorem LoadResourceDLL_false_spec (w : World) (name : List Nat) (s s1 : CLanguageSelect)
    (hname : cstr name ≠ [])
    (h : CLanguageSelect.LoadResourceDLL w (some name) s = some (false, s1)) :
    s1.m_wCurLanguage = s.m_wCurLanguage ∧ s1.profileWrites = s.profileWrites ∧
    s1.threadLocale = s.threadLocale ∧ s1.crtLocale = s.crtLocale ∧
    s1.resourceHandle = w.instanceHandle ∧ s1.m_codepage = 0 ∧
    (s1.m_strarray = [] ∨ (w.fopen name = none ∧ templateArray w = some s1.m_strarray)) ∧
    (w.mergepot ≠ none → s1.m_hCurrentDll = 0) := by
  by_cases hm : w.mergeLangDll = 0 ∨ w.instanceVer.1 ≠ w.resourceVer.1 ∨
      w.instanceVer.2 ≠ w.resourceVer.2
  · rw [LoadResourceDLL_no_module w name s hname hm] at h
    simp only [Option.some.injEq, Prod.mk.injEq, true_and] at h
    subst h
    simp [CLanguageSelect.FreeCurrentDll]
  · have hdll : w.mergeLangDll ≠ 0 := fun e => hm (Or.inl e)
    have hv1 : w.instanceVer.1 = w.resourceVer.1 := by
      by_contra e; exact hm (Or.inr (Or.inl e))
    have hv2 : w.instanceVer.2 = w.resourceVer.2 := by
      by_contra e; exact hm (Or.inr (Or.inr e))
    unfold CLanguageSelect.LoadResourceDLL at h
    unfold templateArray
    cases hp : w.mergepot with
    | none =>
      by_cases h0 : s.m_hCurrentDll = 0 <;>
        (simp [h0, hname, hdll, hv1, hv2, hp] at h
         subst h
         simp [CLanguageSelect.FreeCurrentDll])
    | some data =>
      cases hl : potLoop (templateLines 1024 data [])
          { ps := false, msgid := [], lines := [], m_strarray := [] } with
      | none =>
        by_cases h0 : s.m_hCurrentDll = 0 <;> simp [h0, hname, hdll, hv1, hv2, hp, hl] at h
      | some pot =>
        cases hf : w.fopen name with
        | none =>
          by_cases h0 : s.m_hCurrentDll = 0 <;>
            (simp [h0, hname, hdll, hv1, hv2, hp, hl, hf] at h
             subst h
             simp [hl, CLanguageSelect.FreeCurrentDll])
        | some f =>
          cases hr : poLoop w (fgetsAll 1024 f []) (poInit pot.m_strarray) with
          | none =>
            by_cases h0 : s.m_hCurrentDll = 0 <;>
              simp [h0, hname, hdll, hv1, hv2, hp, hl, hf, hr] at h
          | some po =>
            by_cases hb : po.badrefs = 0
            · by_cases h0 : s.m_hCurrentDll = 0 <;>
                simp [h0, hname, hdll, hv1, hv2, hp, hl, hf, hr, hb] at h
            · by_cases h0 : s.m_hCurrentDll = 0 <;>
                (simp [h0, hname, hdll, hv1, hv2, hp, hl, hf, hr, hb] at h
                 subst h
                 simp [CLanguageSelect.FreeCurrentDll])

/-! ## `SetLanguage` -/

theorem wSourceLangId_eq : wSourceLangId = 1033 := by decide

theorem isDefault_iff {L : Nat} (hL : L < 65536) :
    (PRIMARYLANGID L = LANG_ENGLISH ∧ SUBLANGID L = SUBLANG_ENGLISH_US) ↔ L = wSourceLangId := by
  have h1 : (L % 65536) &&& 0x3ff = L % 1024 := by
    rw [Nat.mod_eq_of_lt hL]
    exact Nat.and_pow_two_sub_one_eq_mod L 10
  have h2 : (L % 65536) >>> 10 = L / 1024 := by
    rw [Nat.mod_eq_of_lt hL]
    exact Nat.shiftRight_eq_div_pow L 10
  unfold PRIMARYLANGID SUBLANGID LANG_ENGLISH SUBLANG_ENGLISH_US
  rw [h1, h2, wSourceLangId_eq]
  omega

theorem LoadResourceDLL_null (w : World) (s : CLanguageSelect) :
    CLanguageSelect.LoadResourceDLL w none s =
      some (false, localResources w s) := by
  unfold CLanguageSelect.LoadResourceDLL
  by_cases h : s.m_hCurrentDll = 0
  · simp [h, freedOnEntry, localResources]
  · simp [h, freedOnEntry, localResources, CLanguageSelect.FreeCurrentDll]

theorem SetLanguageResult_true (L : Nat) (o : Bool) (s : CLanguageSelect) :
    (CLanguageSelect.SetLanguageResult L o true s).1 = true ∧
    (CLanguageSelect.SetLanguageResult L o true s).2.m_wCurLanguage = L ∧
    (CLanguageSelect.SetLanguageResult L o true s).2.m_hCurrentDll = s.m_hCurrentDll ∧
    (CLanguageSelect.SetLanguageResult L o true s).2.m_strarray = s.m_strarray ∧
    (CLanguageSelect.SetLanguageResult L o true s).2.m_codepage = s.m_codepage := by
  unfold CLanguageSelect.SetLanguageResult
  simp only [if_true]
  refine ⟨trivial, ?_⟩
  cases o <;> simp only [if_true, Bool.false_eq_true, if_false] <;>
    (split_ifs <;>
      first
        | (refine ⟨rfl, rfl, rfl, rfl⟩)
        | (split <;>
            first
              | (refine ⟨rfl, rfl, rfl, rfl⟩)
              | (split <;>
                  first
                    | (refine ⟨rfl, rfl, rfl, rfl⟩)
                    | (split_ifs <;> refine ⟨rfl, rfl, rfl, rfl⟩))))

theorem SetLanguageResult_false (L : Nat) (o : Bool) (s : CLanguageSelect) :
    CLanguageSelect.SetLanguageResult L o false s = (false, s) := by
  simp [CLanguageSelect.SetLanguageResult]

theorem SetLanguage_wSourceLangId_eq (w : World) (o : Bool) (s : CLanguageSelect) :
    CLanguageSelect.SetLanguage w wSourceLangId o s =
      some (CLanguageSelect.SetLanguageResult wSourceLangId o true
        (localResources w s)) := by
  unfold CLanguageSelect.SetLanguage
  rw [if_pos ((isDefault_iff (by decide)).mpr rfl), LoadResourceDLL_null]

/-- Claim C1: for every prior state, `SetLanguage` called with the default id
(English/US) returns `TRUE`; afterwards the current language is the default id and no
resource module is loaded (`m_hCurrentDll` is null). -/
theorem SetLanguage_default_succeeds (w : World) (override : Bool) (s : CLanguageSelect) :
    ∃ s1, CLanguageSelect.SetLanguage w wSourceLangId override s = some (true, s1) ∧
      s1.m_wCurLanguage = wSourceLangId ∧ s1.m_hCurrentDll = 0 := by
  have h := SetLanguageResult_true wSourceLangId override
    (localResources w s)
  refine ⟨(CLanguageSelect.SetLanguageResult wSourceLangId override true
    (localResources w s)).2, ?_, h.2.1, h.2.2.1⟩
  rw [SetLanguage_wSourceLangId_eq]
  exact congrArg some (Prod.ext h.1 rfl)

/-- Claim C2 fails on the code: selecting the default language releases the module but
keeps the catalog. In the example environment French is selected from the constructed
object, which gives `demoLoaded`; `SetLanguage` with the default id then returns `TRUE`
with a null module handle, the same `m_strarray`, and `TranslateString(10, s)` still
returns `true` with the French string. For every environment and prior state the
array, the codepage and the result of `TranslateString` are those of the prior state:
`LoadResourceDLL` returns at `bail if using local resources` before
`m_strarray.clear()`. -/
theorem SetLanguage_default_keeps_catalog :
    CLanguageSelect.SetLanguage (demoWorld 5 demoFrench demoGermanBad) demoFrenchId true
        (CLanguageSelect.init (demoWorld 5 demoFrench demoGermanBad) 1252) = some (true, demoLoaded) ∧
    (CLanguageSelect.SetLanguage (demoWorld 5 demoFrench demoGermanBad) wSourceLangId true
        demoLoaded).map (fun r => (r.1, r.2.m_hCurrentDll, r.2.m_strarray,
          r.2.TranslateString 10)) =
      some (true, 0, demoLoaded.m_strarray, some (bytes "Bonjour")) ∧
    ∀ (w : World) (override : Bool) (s : CLanguageSelect),
      ∃ s1, CLanguageSelect.SetLanguage w wSourceLangId override s = some (true, s1) ∧
        s1.m_strarray = s.m_strarray ∧ s1.m_codepage = s.m_codepage ∧
        ∀ line, s1.TranslateString line = s.TranslateString line := by
  refine ⟨by decide, by decide, ?_⟩
  intro w override s
  have h := SetLanguageResult_true wSourceLangId override
    (localResources w s)
  refine ⟨(CLanguageSelect.SetLanguageResult wSourceLangId override true
    (localResources w s)).2, ?_, h.2.2.2.1,
    h.2.2.2.2, ?_⟩
  · rw [SetLanguage_wSourceLangId_eq]
    exact congrArg some (Prod.ext h.1 rfl)
  · intro line
    unfold CLanguageSelect.TranslateString
    rw [h.2.2.2.1]
    rfl

theorem GetDllNameLoop_none (w : World) (L : Nat) (files : List (List Nat))
    (h : ∀ f ∈ files, CLanguageSelect.GetLanguage w f ≠ none ∧
      CLanguageSelect.GetLanguage w f ≠ some (some L)) :
    CLanguageSelect.GetDllNameLoop w L files = some [] := by
  induction files with
  | nil => rfl
  | cons f rest ih =>
    have hf := h f (List.mem_cons_self _ _)
    have ih1 := ih (fun g hg => h g (List.mem_cons_of_mem _ hg))
    unfold CLanguageSelect.GetDllNameLoop
    cases hg : CLanguageSelect.GetLanguage w f with
    | none => exact absurd hg hf.1
    | some r =>
      cases r with
      | none => simpa using ih1
      | some l =>
        have : L ≠ l := by
          intro e
          subst e
          exact hf.2 hg
        simpa [this] using ih1

/-- Claim C4: for every state and every non-default language id that no discovered
catalog file declares (each discovered file is probed without undefined behaviour and
yields another id or none), `SetLanguage` returns `FALSE` and leaves the object and the
process state it controls unchanged; in particular nothing is written to the persisted
setting. -/
theorem SetLanguage_not_available (w : World) (L : Nat) (override : Bool)
    (s : CLanguageSelect) (hL : L < 65536) (hnd : L ≠ wSourceLangId)
    (h : ∀ f ∈ discovered w, CLanguageSelect.GetLanguage w f ≠ none ∧
      CLanguageSelect.GetLanguage w f ≠ some (some L)) :
    CLanguageSelect.SetLanguage w L override s = some (false, s) := by
  have hname : CLanguageSelect.GetDllName w L = some [] := by
    unfold CLanguageSelect.GetDllName
    unfold discovered at h
    cases hm : w.moduleFileName with
    | none => rfl
    | some fullpath =>
      rw [hm] at h
      exact GetDllNameLoop_none w L _ h
  unfold CLanguageSelect.SetLanguage
  rw [if_neg (fun hd => hnd ((isDefault_iff hL).mp hd))]
  by_cases hc : s.m_wCurLanguage = L
  · simp [hc, SetLanguageResult_false]
  · simp [hc, hname, SetLanguageResult_false]

/-- Witness of claim C4: Italian in an environment whose two catalog files declare French
and German, from the state with French loaded. -/
theorem SetLanguage_not_available_witness :
    CLanguageSelect.SetLanguage (demoWorld 5 demoFrench demoGermanBad) demoItalianId true
      demoLoaded = some (false, demoLoaded) :=
  SetLanguage_not_available (demoWorld 5 demoFrench demoGermanBad) demoItalianId true
    demoLoaded (by decide) (by decide) (by decide)

/-- Counterexample to claim C5: with French current and its catalog loaded (the state
reached by selecting French from the constructed object), `SetLanguage` for French
returns `FALSE`. -/
theorem SetLanguage_current_returns_false :
    CLanguageSelect.SetLanguage (demoWorld 5 demoFrench demoGermanBad) demoFrenchId true
        (CLanguageSelect.init (demoWorld 5 demoFrench demoGermanBad) 1252) = some (true, demoLoaded) ∧
    CLanguageSelect.SetLanguage (demoWorld 5 demoFrench demoGermanBad) demoFrenchId true
        demoLoaded = some (false, demoLoaded) := by
  decide

/-- Claim C5 as amended: for every state whose current language is a non-default id `L`,
`SetLanguage(L)` changes nothing, neither the object nor the persisted setting nor the
locales, and returns `FALSE`. -/
theorem SetLanguage_same (w : World) (L : Nat) (override : Bool) (s : CLanguageSelect)
    (hL : L < 65536) (hnd : L ≠ wSourceLangId) (hcur : s.m_wCurLanguage = L) :
    CLanguageSelect.SetLanguage w L override s = some (false, s) := by
  unfold CLanguageSelect.SetLanguage
  rw [if_neg (fun hd => hnd ((isDefault_iff hL).mp hd))]
  simp [hcur, SetLanguageResult_false]

/-- Witness of claim C5 as amended: French selected again while French is loaded. -/
theorem SetLanguage_same_witness :
    CLanguageSelect.SetLanguage (demoWorld 0 [] []) demoFrenchId false demoLoaded =
      some (false, demoLoaded) :=
  SetLanguage_same (demoWorld 0 [] []) demoFrenchId false demoLoaded (by decide) (by decide)
    (by decide)

/-- Counterexample to claim C3: French is loaded (the state reached by selecting French
from the constructed object); `SetLanguage` for German finds `German.po`, whose load
fails on a mismatched reference; it returns `FALSE` and the module handle, the array and
the resource handle are no longer those of the state before the call. -/
theorem SetLanguage_failure_not_atomic :
    CLanguageSelect.SetLanguage (demoWorld 5 demoFrench demoGermanBad) demoFrenchId true
        (CLanguageSelect.init (demoWorld 5 demoFrench demoGermanBad) 1252) = some (true, demoLoaded) ∧
    CLanguageSelect.GetDllName (demoWorld 5 demoFrench demoGermanBad) demoGermanId =
      some demoPathGerman ∧
    CLanguageSelect.SetLanguage (demoWorld 5 demoFrench demoGermanBad) demoGermanId true
        demoLoaded =
      some (false, demoAfterFailure) ∧
    demoAfterFailure ≠ demoLoaded := by
  decide

/-- Claim C3 as amended: when `SetLanguage(target)`, for a non-default target other than
the current language, finds a catalog file (a proper file name) whose load fails, it
returns `FALSE` and the current language id, the persisted setting and the locales are
those before the call; the module, the array and the codepage of the prior state are
not kept: the resource handle is the instance handle, the codepage is 0, the array is
empty or, when the catalog file cannot be opened, holds the strings of the template, and
no module is loaded when `MergeLang.dll` has its `MERGEPOT` resource. -/
theorem SetLanguage_load_failure (w : World) (L : Nat) (override : Bool)
    (s s1 : CLanguageSelect) (path : List Nat) (hL : L < 65536) (hnd : L ≠ wSourceLangId)
    (hcur : s.m_wCurLanguage ≠ L) (hfound : CLanguageSelect.GetDllName w L = some path)
    (hpath : cstr path ≠ [])
    (hfail : CLanguageSelect.LoadResourceDLL w (some path) s = some (false, s1)) :
    CLanguageSelect.SetLanguage w L override s = some (false, s1) ∧
    s1.m_wCurLanguage = s.m_wCurLanguage ∧ s1.profileWrites = s.profileWrites ∧
    s1.threadLocale = s.threadLocale ∧ s1.crtLocale = s.crtLocale ∧
    s1.resourceHandle = w.instanceHandle ∧ s1.m_codepage = 0 ∧
    (s1.m_strarray = [] ∨ (w.fopen path = none ∧ templateArray w = some s1.m_strarray)) ∧
    (w.mergepot ≠ none → s1.m_hCurrentDll = 0) := by
  refine ⟨?_, LoadResourceDLL_false_spec w path s s1 hpath hfail⟩
  have hne : path ≠ [] := by
    intro e
    rw [e] at hpath
    exact hpath rfl
  unfold CLanguageSelect.SetLanguage
  rw [if_neg (fun hd => hnd ((isDefault_iff hL).mp hd))]
  simp [hcur, hfound, hne, hfail, SetLanguageResult_false]

/-- Witness of claim C3 as amended: German selected while French is loaded, in the
environment whose `German.po` has a mismatched reference. -/
theorem SetLanguage_load_failure_witness :
    CLanguageSelect.SetLanguage (demoWorld 5 demoFrench demoGermanBad) demoGermanId true
        demoLoaded =
      some (false, demoAfterFailure) :=
  (SetLanguage_load_failure (demoWorld 5 demoFrench demoGermanBad) demoGermanId true
    demoLoaded demoAfterFailure demoPathGerman (by decide) (by decide) (by decide) (by decide) (by decide)
    (by decide)).1

/-! ## Lead bytes in `unslash` -/

theorem unslashIter_lead (lead : Nat → Nat → Bool) (cp : Nat) {L : Nat} (t : Nat)
    (r : List Nat) (hhigh : L &&& 0x80 ≠ 0) (hlead : lead cp L = true) :
    unslashIter lead cp (L :: t :: r) = some ([L, t], some r) := by
  have hb : L ≠ 0x5C := by
    intro e
    subst e
    exact hhigh (by decide)
  have h0 : L ≠ 0 := by
    intro e
    subst e
    exact hhigh (by decide)
  unfold unslashIter
  dsimp only
  rw [if_neg hb]
  unfold unslashDefault
  rw [if_pos ⟨hhigh, hlead⟩]
  dsimp only
  rw [if_neg h0]

theorem unslash_pieces_append (lead : Nat → Nat → Bool) (cp : Nat) (ps : List Piece)
    (rest : List Nat) (h : ∀ p ∈ ps, p.ordinary) :
    unslash lead cp ((ps.map Piece.raw).flatten ++ rest) =
      (unslash lead cp rest).map (fun d => ps.map Piece.decoded ++ d) := by
  induction ps with
  | nil => simp
  | cons p ps ih =>
    have ihp := ih (fun p hp => h p (List.mem_cons_of_mem _ hp))
    have hp := h p (List.mem_cons_self _ _)
    simp only [List.map_cons, List.flatten_cons, List.append_assoc]
    cases p with
    | plain c =>
      simp only [Piece.ordinary] at hp
      have hi := unslashIter_plain lead cp (((ps.map Piece.raw).flatten ++ rest) ++ [0]) hp.1
        hp.2.1 hp.2.2
      have := unslash_append_of_iter [c] ((ps.map Piece.raw).flatten ++ rest) [c] hi
      simp only [Piece.raw, Piece.decoded]
      rw [this, ihp]
      simp [Option.map_map, Function.comp_def]
    | escape l =>
      simp only [Piece.ordinary, Option.isSome_iff_exists] at hp
      obtain ⟨b, hb⟩ := hp
      have hi := unslashIter_escape lead cp (((ps.map Piece.raw).flatten ++ rest) ++ [0]) hb
      have := unslash_append_of_iter [0x5C, l] ((ps.map Piece.raw).flatten ++ rest) [b] hi
      simp only [Piece.raw, Piece.decoded, hb]
      rw [this, ihp]
      simp [Option.map_map, Function.comp_def]

/-- Claim C11: lead-byte awareness of `unslash`. For every codepage and lead-byte table,
every byte `L` with the high bit set that is a lead byte of the codepage, every following
byte `t` and every remainder `rest`: the raw text `L t rest` decodes to `L`, then `t`
unchanged, then the decoding of `rest` on its own, so exactly one more byte is consumed;
the same holds when `L` follows any text of ordinary bytes and letter escapes, where the
decoding of a new character also starts; and a backslash after `L` does not start an
escape: `L`, backslash, `n` decodes to itself. -/
theorem unslash_lead_byte (lead : Nat → Nat → Bool) (cp L t : Nat) (rest : List Nat)
    (hhigh : L &&& 0x80 ≠ 0) (hlead : lead cp L = true) :
    unslash lead cp (L :: t :: rest) = (unslash lead cp rest).map (fun d => L :: t :: d) ∧
    (∀ ps : List Piece, (∀ p ∈ ps, p.ordinary) →
      unslash lead cp ((ps.map Piece.raw).flatten ++ L :: t :: rest) =
        (unslash lead cp rest).map (fun d => ps.map Piece.decoded ++ L :: t :: d)) ∧
    unslash lead cp [L, 0x5C, 0x6E] = some [L, 0x5C, 0x6E] := by
  have key : ∀ (t : Nat) (rest : List Nat),
      unslash lead cp (L :: t :: rest) = (unslash lead cp rest).map (fun d => L :: t :: d) := by
    intro t rest
    have hi := unslashIter_lead lead cp t (rest ++ [0]) hhigh hlead
    exact unslash_append_of_iter [L, t] rest [L, t] hi
  refine ⟨key t rest, ?_, ?_⟩
  · intro ps hps
    rw [unslash_pieces_append lead cp ps _ hps, key t rest]
    simp [Option.map_map, Function.comp_def]
  · rw [key 0x5C [0x6E]]
    have := unslash_pieces_append lead cp [Piece.plain 0x6E] [] (by decide)
    simp only [List.map_cons, List.map_nil, List.flatten_cons, List.flatten_nil, Piece.raw,
      List.append_nil, Piece.decoded] at this
    rw [this]
    simp [unslash, unslashLoop, unslashIter, unslashDefault]

/-- Witness of claim C11: in a codepage where 0x83 is a lead byte, the bytes 0x83,
backslash, `n` are kept as they are. -/
theorem unslash_lead_byte_witness :
    unslash (fun cp c => cp == 932 && c == 0x83) 932 [0x83, 0x5C, 0x6E] =
      some [0x83, 0x5C, 0x6E] :=
  (unslash_lead_byte (fun cp c => cp == 932 && c == 0x83) 932 0x83 0x5C [0x6E] (by decide)
    (by decide)).2.2

/-! ## What a successful load leaves -/

/-- What a successful `LoadResourceDLL` implies and leaves behind. -/
theorem LoadResourceDLL_true_spec (w : World) (name : Option (List Nat))
    (s s1 : CLanguageSelect)
    (h : CLanguageSelect.LoadResourceDLL w name s = some (true, s1)) :
    ∃ n po, name = some n ∧ cstr n ≠ [] ∧ w.mergeLangDll ≠ 0 ∧ w.instanceVer = w.resourceVer ∧
      catalogRun w n = some po ∧ po.badrefs = 0 ∧
      s1 = { s with resourceHandle := w.mergeLangDll, m_hCurrentDll := w.mergeLangDll,
                    m_strarray := po.m_strarray, m_codepage := po.m_codepage,
                    freed := freedOnEntry s } := by
  cases name with
  | none =>
    rw [LoadResourceDLL_null] at h
    simp at h
  | some n =>
    by_cases hname : cstr n = []
    · unfold CLanguageSelect.LoadResourceDLL at h
      simp [hname] at h
    · by_cases hm : w.mergeLangDll = 0 ∨ w.instanceVer.1 ≠ w.resourceVer.1 ∨
          w.instanceVer.2 ≠ w.resourceVer.2
      · rw [LoadResourceDLL_no_module w n s hname hm] at h
        simp at h
      · have hdll : w.mergeLangDll ≠ 0 := fun e => hm (Or.inl e)
        have hv1 : w.instanceVer.1 = w.resourceVer.1 := by
          by_contra e; exact hm (Or.inr (Or.inl e))
        have hv2 : w.instanceVer.2 = w.resourceVer.2 := by
          by_contra e; exact hm (Or.inr (Or.inr e))
        have hver : w.instanceVer = w.resourceVer := Prod.ext hv1 hv2
        cases hrun : catalogRun w n with
        | none =>
          exfalso
          unfold catalogRun templateArray at hrun
          unfold CLanguageSelect.LoadResourceDLL at h
          cases hp : w.mergepot with
          | none =>
            by_cases h0 : s.m_hCurrentDll = 0 <;> simp [h0, hname, hdll, hv1, hv2, hp] at h
          | some data =>
            cases hl : potLoop (templateLines 1024 data [])
                { ps := false, msgid := [], lines := [], m_strarray := [] } with
            | none =>
              by_cases h0 : s.m_hCurrentDll = 0 <;>
                simp [h0, hname, hdll, hv1, hv2, hp, hl] at h
            | some pot =>
              cases hf : w.fopen n with
              | none =>
                by_cases h0 : s.m_hCurrentDll = 0 <;>
                  simp [h0, hname, hdll, hv1, hv2, hp, hl, hf] at h
              | some f =>
                simp only [hp, hl, Option.map_some', hf] at hrun
                by_cases h0 : s.m_hCurrentDll = 0 <;>
                  simp [h0, hname, hdll, hv1, hv2, hp, hl, hf, hrun] at h
        | some po =>
          rw [LoadResourceDLL_of_run w n s po hname hdll hver hrun] at h
          by_cases hb : po.badrefs = 0
          · simp only [hb, ne_eq, not_true_eq_false, if_false, Option.some.injEq,
              Prod.mk.injEq, true_and] at h
            exact ⟨n, po, rfl, hname, hdll, hver, hrun, hb, h.symm⟩
          · simp [hb] at h

/-- The part of the process state `LoadResourceDLL` never touches. -/
theorem LoadResourceDLL_frame (w : World) (name : Option (List Nat)) (s s1 : CLanguageSelect)
    (r : Bool) (h : CLanguageSelect.LoadResourceDLL w name s = some (r, s1)) :
    s1.m_wCurLanguage = s.m_wCurLanguage ∧ s1.profileWrites = s.profileWrites ∧
      s1.threadLocale = s.threadLocale ∧ s1.crtLocale = s.crtLocale := by
  cases r with
  | true =>
    obtain ⟨n, po, _, _, _, _, _, _, rfl⟩ := LoadResourceDLL_true_spec w name s s1 h
    exact ⟨rfl, rfl, rfl, rfl⟩
  | false =>
    cases name with
    | none =>
      rw [LoadResourceDLL_null] at h
      simp only [Option.some.injEq, Prod.mk.injEq, true_and] at h
      subst h
      exact ⟨rfl, rfl, rfl, rfl⟩
    | some n =>
      by_cases hname : cstr n = []
      · unfold CLanguageSelect.LoadResourceDLL at h
        by_cases h0 : s.m_hCurrentDll = 0 <;>
          (simp [hname, h0] at h
           subst h
           simp [CLanguageSelect.FreeCurrentDll])
      · have := LoadResourceDLL_false_spec w n s s1 hname h
        exact ⟨this.1, this.2.1, this.2.2.1, this.2.2.2.1⟩

/-! ## Entries with an empty `msgstr` -/

theorem growTo_getElem {a : List (List Nat)} {line : Nat} {held : List Nat}
    (h : (growTo a line)[line]? = some held) :
    a.length ≤ (growTo a line).length ∧ ∀ k, k < a.length → (growTo a line)[k]? = a[k]? := by
  unfold growTo at h ⊢
  by_cases hl : a.length ≤ line
  · rw [if_pos hl] at h ⊢
    have hlt : line < (resize a ((line + 1) % 4294967296)).length := by
      by_contra hc
      rw [List.getElem?_eq_none (by omega)] at h
      exact absurd h (by simp)
    have hlen : (resize a ((line + 1) % 4294967296)).length =
        min ((line + 1) % 4294967296) a.length + ((line + 1) % 4294967296 - a.length) := by
      simp [resize]
    have hle : a.length ≤ (line + 1) % 4294967296 := by
      rw [hlen] at hlt
      omega
    refine ⟨by rw [hlen]; omega, ?_⟩
    intro k hk
    unfold resize
    rw [List.take_of_length_le hle, List.getElem?_append_left hk]
  · rw [if_neg hl]
    exact ⟨Nat.le_refl _, fun _ _ => rfl⟩

/-- The comparisons logged by the loop `for (pline ...)` are those of the collected
lines, in order, and a line that is not among them keeps its string. -/
theorem poAssign_frame (msgid msgstr : List Nat) (k : Nat) :
    ∀ (lines : List Nat) (a a1 : List (List Nat)) (b b1 : Nat) (cs cs1 : List Check),
      poAssign msgid msgstr lines (a, b, cs) = some (a1, b1, cs1) →
      ∃ new, cs1 = cs ++ new ∧ new.map Check.line = lines ∧
        (k ∉ lines → ∀ v, a[k]? = some v → a1[k]? = some v) := by
  intro lines
  induction lines with
  | nil =>
    intro a a1 b b1 cs cs1 h
    simp only [poAssign, Option.some.injEq, Prod.mk.injEq] at h
    obtain ⟨rfl, _, rfl⟩ := h
    exact ⟨[], by simp, rfl, fun _ v hv => hv⟩
  | cons line rest ih =>
    intro a a1 b b1 cs cs1 h
    unfold poAssign at h
    dsimp only at h
    cases hg : (growTo a line)[line]? with
    | none => simp [hg] at h
    | some held =>
      have hgrow := growTo_getElem hg
      simp only [hg] at h
      have frame : ∀ (a2 : List (List Nat)), (a2 = growTo a line ∨ a2 = (growTo a line).set line msgstr) →
          k ∉ line :: rest → ∀ v, a[k]? = some v → a2[k]? = some v := by
        intro a2 ha2 hk v hv
        have hkl : k < a.length := by
          by_contra hc
          rw [List.getElem?_eq_none (by omega)] at hv
          exact absurd hv (by simp)
        have hne : line ≠ k := by
          intro e
          exact hk (by simp [e])
        rcases ha2 with rfl | rfl
        · rw [hgrow.2 k hkl]; exact hv
        · rw [List.getElem?_set_ne hne, hgrow.2 k hkl]; exact hv
      by_cases hm : held = msgid
      · rw [if_pos hm] at h
        obtain ⟨new, e1, e2, e3⟩ := ih _ _ _ _ _ _ h
        refine ⟨⟨line, held, msgid⟩ :: new, by simp [e1], by simp [e2], ?_⟩
        intro hk v hv
        exact e3 (fun hmem => hk (List.mem_cons_of_mem _ hmem)) v
          (frame _ (Or.inr rfl) hk v hv)
      · rw [if_neg hm] at h
        by_cases hlt : b < INT_MAX
        · rw [if_pos hlt] at h
          obtain ⟨new, e1, e2, e3⟩ := ih _ _ _ _ _ _ h
          refine ⟨⟨line, held, msgid⟩ :: new, by simp [e1], by simp [e2], ?_⟩
          intro hk v hv
          exact e3 (fun hmem => hk (List.mem_cons_of_mem _ hmem)) v
            (frame _ (Or.inl rfl) hk v hv)
        · rw [if_neg hlt] at h
          exact absurd h (by simp)

/-- A collected line whose string equals `msgid` holds `msgstr` after the loop
`for (pline ...)`. -/
theorem poAssign_assigns (msgid msgstr : List Nat) (k : Nat) :
    ∀ (lines : List Nat) (a a1 : List (List Nat)) (b b1 : Nat) (cs cs1 : List Check),
      poAssign msgid msgstr lines (a, b, cs) = some (a1, b1, cs1) →
      (a[k]? = some msgstr ∨ (a[k]? = some msgid ∧ k ∈ lines)) → a1[k]? = some msgstr := by
  intro lines
  induction lines with
  | nil =>
    intro a a1 b b1 cs cs1 h hk
    simp only [poAssign, Option.some.injEq, Prod.mk.injEq] at h
    obtain ⟨rfl, _, _⟩ := h
    rcases hk with hk | ⟨_, hk⟩
    · exact hk
    · simp at hk
  | cons line rest ih =>
    intro a a1 b b1 cs cs1 h hk
    unfold poAssign at h
    dsimp only at h
    cases hg : (growTo a line)[line]? with
    | none => simp [hg] at h
    | some held =>
      have hgrow := growTo_getElem hg
      have hline : line < (growTo a line).length := by
        by_contra hc
        rw [List.getElem?_eq_none (by omega)] at hg
        exact absurd hg (by simp)
      simp only [hg] at h
      have hkl : k < a.length := by
        by_contra hc
        rw [List.getElem?_eq_none (by omega)] at hk
        simp at hk
      have hgk : (growTo a line)[k]? = a[k]? := hgrow.2 k hkl
      by_cases hjk : line = k
      · subst hjk
        rw [hgk] at hg
        by_cases hm : held = msgid
        · rw [if_pos hm] at h
          refine ih _ _ _ _ _ _ h (Or.inl ?_)
          rw [List.getElem?_set_self hline]
        · rw [if_neg hm] at h
          by_cases hlt : b < INT_MAX
          · rw [if_pos hlt] at h
            refine ih _ _ _ _ _ _ h (Or.inl ?_)
            rw [hgk]
            rcases hk with hk | ⟨hk, _⟩
            · exact hk
            · rw [hk] at hg
              simp only [Option.some.injEq] at hg
              exact absurd hg.symm hm
          · rw [if_neg hlt] at h
            exact absurd h (by simp)
      · have hk1 : ∀ a2 : List (List Nat), a2[k]? = a[k]? →
            (a2[k]? = some msgstr ∨ (a2[k]? = some msgid ∧ k ∈ rest)) := by
          intro a2 e
          rw [e]
          rcases hk with hk | ⟨hk, hmem⟩
          · exact Or.inl hk
          · right
            refine ⟨hk, ?_⟩
            simp only [List.mem_cons] at hmem
            rcases hmem with rfl | hmem
            · exact absurd rfl hjk
            · exact hmem
        by_cases hm : held = msgid
        · rw [if_pos hm] at h
          exact ih _ _ _ _ _ _ h (hk1 _ (by rw [List.getElem?_set_ne hjk, hgk]))
        · rw [if_neg hm] at h
          by_cases hlt : b < INT_MAX
          · rw [if_pos hlt] at h
            exact ih _ _ _ _ _ _ h (hk1 _ hgk)
          · rw [if_neg hlt] at h
            exact absurd h (by simp)

/-- A collected line holds `msgstr` after the loop `for (pline ...)` when the loop counted
no bad reference. -/
theorem poAssign_matched (msgid msgstr : List Nat) (k : Nat) :
    ∀ (lines : List Nat) (a a1 : List (List Nat)) (b b1 : Nat) (cs cs1 : List Check),
      poAssign msgid msgstr lines (a, b, cs) = some (a1, b1, cs1) → b1 = b → k ∈ lines →
      a1[k]? = some msgstr := by
  intro lines
  induction lines with
  | nil =>
    intro a a1 b b1 cs cs1 _ _ hk
    simp at hk
  | cons line rest ih =>
    intro a a1 b b1 cs cs1 h hb hk
    have h0 := h
    unfold poAssign at h
    dsimp only at h
    cases hg : (growTo a line)[line]? with
    | none => simp [hg] at h
    | some held =>
      have hline : line < (growTo a line).length := by
        by_contra hc
        rw [List.getElem?_eq_none (by omega)] at hg
        exact absurd hg (by simp)
      simp only [hg] at h
      by_cases hm : held = msgid
      · rw [if_pos hm] at h
        by_cases hjk : line = k
        · subst hjk
          exact poAssign_assigns msgid msgstr line rest _ _ _ _ _ _ h
            (Or.inl (by rw [List.getElem?_set_self hline]))
        · simp only [List.mem_cons] at hk
          rcases hk with rfl | hk
          · exact absurd rfl hjk
          · exact ih _ _ _ _ _ _ h hb hk
      · rw [if_neg hm] at h
        by_cases hlt : b < INT_MAX
        · rw [if_pos hlt] at h
          have := poAssign_mono msgid msgstr rest _ _ _ _ _ _ h
          omega
        · rw [if_neg hlt] at h
          exact absurd h (by simp)

theorem poCommit_frame (w : World) (k : Nat) (st st1 : PoParse)
    (h : poCommit w st = some st1) :
    ∃ new, st1.checks = st.checks ++ new ∧ new.map Check.line = st.lines ∧
      ((∀ c ∈ new, c.line ≠ k) → ∀ v, st.m_strarray[k]? = some v → st1.m_strarray[k]? = some v) := by
  unfold poCommit at h
  dsimp only at h
  split at h
  · exact absurd h (by simp)
  · split at h
    · exact absurd h (by simp)
    · rename_i a b cs ha
      simp only [Option.some.injEq] at h
      subst h
      obtain ⟨new, e1, e2, e3⟩ := poAssign_frame _ _ k _ _ _ _ _ _ _ ha
      refine ⟨new, e1, e2, ?_⟩
      intro hnew
      apply e3
      rw [← e2]
      intro hmem
      simp only [List.mem_map] at hmem
      obtain ⟨c, hc, hck⟩ := hmem
      exact hnew c hc hck

theorem poStep_frame (w : World) (k : Nat) (st st1 : PoParse) (buf : List Nat)
    (h : poStep w st buf = some st1) :
    ∃ new, st1.checks = st.checks ++ new ∧
      ((∀ c ∈ new, c.line ≠ k) → ∀ v, st.m_strarray[k]? = some v → st1.m_strarray[k]? = some v) := by
  have hd := poDirective_fields st (cstr buf)
  unfold poStep at h
  dsimp only at h
  split at h
  · simp only [Option.some.injEq] at h
    subst h
    exact ⟨[], by simp [hd.2.1], fun _ v hv => by rw [hd.2.2.1]; exact hv⟩
  · split at h
    · split at h <;>
        (simp only [Option.some.injEq] at h
         subst h
         exact ⟨[], by simp [hd.2.1], fun _ v hv => by
           show (poDirective st (cstr buf)).m_strarray[k]? = some v
           rw [hd.2.2.1]; exact hv⟩)
    · obtain ⟨new, e1, _, e3⟩ := poCommit_frame w k _ _ h
      refine ⟨new, by rw [e1, hd.2.1], ?_⟩
      intro hnew v hv
      exact e3 hnew v (by rw [hd.2.2.1]; exact hv)

theorem poLoop_frame (w : World) (k : Nat) :
    ∀ (bufs : List (List Nat)) (st st1 : PoParse), poLoop w bufs st = some st1 →
      ∃ new, st1.checks = st.checks ++ new ∧
        ((∀ c ∈ new, c.line ≠ k) → ∀ v, st.m_strarray[k]? = some v →
          st1.m_strarray[k]? = some v) := by
  intro bufs
  induction bufs with
  | nil =>
    intro st st1 h
    simp only [poLoop, Option.some.injEq] at h
    subst h
    exact ⟨[], by simp, fun _ v hv => hv⟩
  | cons buf rest ih =>
    intro st st1 h
    unfold poLoop at h
    cases hs : poStep w st buf with
    | none => simp [hs] at h
    | some st2 =>
      simp only [hs] at h
      obtain ⟨n1, e1, f1⟩ := poStep_frame w k _ _ _ hs
      obtain ⟨n2, e2, f2⟩ := ih _ _ h
      refine ⟨n1 ++ n2, by rw [e2, e1, List.append_assoc], ?_⟩
      intro hnew v hv
      exact f2 (fun c hc => hnew c (List.mem_append_right _ hc)) v
        (f1 (fun c hc => hnew c (List.mem_append_left _ hc)) v hv)

theorem poLoop_append (w : World) :
    ∀ (pre rest : List (List Nat)) (st : PoParse),
      poLoop w (pre ++ rest) st = (poLoop w pre st).bind (poLoop w rest) := by
  intro pre
  induction pre with
  | nil => intro rest st; rfl
  | cons buf pre ih =>
    intro rest st
    simp only [List.cons_append, poLoop]
    cases hs : poStep w st buf with
    | none => rfl
    | some st1 => exact ih rest st1

/-- Counterexample to claim C12: in the catalog `demoFallbackThenEntry` the first entry
for line 10 is committed with an empty `msgstr` and a `msgid` equal to the template text
`Hello` of line 10, the load succeeds, and yet line 10 holds `Bonjour` afterwards, not the
decoded `msgid`: the second entry for line 10 finds the fallback `Hello`, which equals
its `msgid`, and replaces it. -/
theorem LoadResourceDLL_fallback_overwritten :
    templateArray (demoWorld 5 demoFallbackThenEntry demoGermanBad) = some demoTemplateArray ∧
    demoTemplateArray[10]? = some (bytes "Hello") ∧
    poLoop (demoWorld 5 demoFallbackThenEntry demoGermanBad)
        ((fgetsAll 1024 demoFallbackThenEntry []).take 6) (poInit demoTemplateArray) =
      some demoBeforeCommit ∧
    (fgetsAll 1024 demoFallbackThenEntry [])[6]? = some (textLine "") ∧
    quoted (cstr (textLine "")) = none ∧
    (poDirective demoBeforeCommit (cstr (textLine ""))).ps = some Target.msgstr ∧
    (poDirective demoBeforeCommit (cstr (textLine ""))).msgstr = [] ∧
    (poDirective demoBeforeCommit (cstr (textLine ""))).msgid = bytes "Hello" ∧
    (poDirective demoBeforeCommit (cstr (textLine ""))).lines = [10] ∧
    unslash (demoWorld 5 demoFallbackThenEntry demoGermanBad).IsDBCSLeadByteEx 0
      (bytes "Hello") = some (bytes "Hello") ∧
    (CLanguageSelect.LoadResourceDLL (demoWorld 5 demoFallbackThenEntry demoGermanBad)
        (some demoPath)
        (CLanguageSelect.init (demoWorld 5 demoFallbackThenEntry demoGermanBad) 1252)).map
      (fun r => (r.1, r.2.m_strarray[10]?)) = some (true, some (bytes "Bonjour")) ∧
    bytes "Bonjour" ≠ bytes "Hello" := by
  decide

/-- Claim C12 as amended: when a load succeeds, an entry of the catalog that is committed
at the string `buf` with an empty `msgstr` and a reference to line `k` leaves the decoded
`msgid` at `k` in the mapping, provided no comparison made after those of this entry is
for line `k`, that is, no entry committed later refers to `k`. The decoding is defined,
and the state `st0` is the one the loop has reached before `buf`. -/
theorem LoadResourceDLL_empty_msgstr (w : World) (name : List Nat) (s s1 : CLanguageSelect)
    (pre post : List (List Nat)) (buf : List Nat) (a : List (List Nat)) (st0 : PoParse)
    (k : Nat)
    (hload : CLanguageSelect.LoadResourceDLL w (some name) s = some (true, s1))
    (hfile : (w.fopen name).map (fun f => fgetsAll 1024 f []) = some (pre ++ buf :: post))
    (ha : templateArray w = some a)
    (hpre : poLoop w pre (poInit a) = some st0)
    (hps : (poDirective st0 (cstr buf)).ps ≠ none)
    (hq : quoted (cstr buf) = none)
    (hempty : (poDirective st0 (cstr buf)).msgstr = [])
    (hk : k ∈ (poDirective st0 (cstr buf)).lines)
    (hlater : ∀ c ∈ checksFrom w name
        (st0.checks.length + (poDirective st0 (cstr buf)).lines.length), c.line ≠ k) :
    ∃ d, unslash w.IsDBCSLeadByteEx st0.m_codepage (poDirective st0 (cstr buf)).msgid = some d ∧
      s1.m_strarray[k]? = some d := by
  obtain ⟨n, po, hn, _, _, _, hrun, hbad, hs1⟩ := LoadResourceDLL_true_spec w _ s s1 hload
  cases hn
  have hrun0 := hrun
  unfold catalogRun at hrun
  rw [ha] at hrun
  dsimp only at hrun
  cases hf : w.fopen name with
  | none => rw [hf] at hfile; simp at hfile
  | some f =>
    rw [hf] at hfile hrun
    simp only [Option.map_some', Option.some.injEq] at hfile
    dsimp only at hrun
    rw [hfile, poLoop_append, hpre] at hrun
    simp only [Option.some_bind, poLoop] at hrun
    cases hstep : poStep w st0 buf with
    | none => rw [hstep] at hrun; simp at hrun
    | some st2 =>
      rw [hstep] at hrun
      dsimp only at hrun
      have hd := poDirective_fields st0 (cstr buf)
      -- the step at `buf` is a commit
      have hcommit : poCommit w (poDirective st0 (cstr buf)) = some st2 := by
        unfold poStep at hstep
        dsimp only at hstep
        cases hp : (poDirective st0 (cstr buf)).ps with
        | none => exact absurd hp hps
        | some t =>
          rw [hp, hq] at hstep
          exact hstep
      have hb2 : st2.badrefs = 0 := by
        have := poLoop_mono w post st2 po hrun
        omega
      have hb0 : (poDirective st0 (cstr buf)).badrefs = 0 := by
        have := poCommit_mono w _ _ hcommit
        omega
      obtain ⟨new0, e0, l0, _⟩ := poCommit_frame w k _ _ hcommit
      obtain ⟨new1, e1, f1⟩ := poLoop_frame w k post st2 po hrun
      have hnew1 : ∀ c ∈ new1, c.line ≠ k := by
        intro c hc
        apply hlater c
        unfold checksFrom
        rw [hrun0]
        dsimp only
        have hlen : st0.checks.length + (poDirective st0 (cstr buf)).lines.length =
            st2.checks.length := by
          rw [e0, hd.2.1, List.length_append, ← l0, List.length_map]
        rw [hlen, e1, List.drop_left]
        exact hc
      unfold poCommit at hcommit
      dsimp only at hcommit
      rw [hempty] at hcommit
      simp only [List.isEmpty_nil, if_true] at hcommit
      rw [hd.2.2.2] at hcommit
      cases hu : unslash w.IsDBCSLeadByteEx st0.m_codepage (poDirective st0 (cstr buf)).msgid with
      | none => rw [hu] at hcommit; simp at hcommit
      | some d =>
        rw [hu] at hcommit
        dsimp only at hcommit
        cases hasg : poAssign (poDirective st0 (cstr buf)).msgid d
            (poDirective st0 (cstr buf)).lines
            ((poDirective st0 (cstr buf)).m_strarray, (poDirective st0 (cstr buf)).badrefs,
              (poDirective st0 (cstr buf)).checks) with
        | none => rw [hasg] at hcommit; simp at hcommit
        | some r =>
          obtain ⟨a1, b1, cs1⟩ := r
          rw [hasg] at hcommit
          simp only [Option.some.injEq] at hcommit
          have hb1 : b1 = (poDirective st0 (cstr buf)).badrefs := by
            rw [hb0, ← hb2, ← hcommit]
          have hk2 : st2.m_strarray[k]? = some d := by
            rw [← hcommit]
            exact poAssign_matched _ _ k _ _ _ _ _ _ _ hasg hb1 hk
          refine ⟨d, rfl, ?_⟩
          rw [hs1]
          exact f1 hnew1 d hk2

/-- Witness of claim C12 as amended: the catalog `demoFallbackOnly`, whose entry for
line 10 has the `msgid` `Hello` and an empty `msgstr`, loaded in a demo environment. -/
theorem LoadResourceDLL_empty_msgstr_witness :
    ∃ d, unslash (demoWorld 5 demoFallbackOnly demoGermanBad).IsDBCSLeadByteEx 0
        (bytes "Hello") = some d ∧
      ({ CLanguageSelect.init (demoWorld 5 demoFallbackOnly demoGermanBad) 1252 with
          m_hCurrentDll := 5, m_strarray := demoTemplateArray, m_codepage := 0,
          resourceHandle := 5 } : CLanguageSelect).m_strarray[10]? = some d :=
  LoadResourceDLL_empty_msgstr (demoWorld 5 demoFallbackOnly demoGermanBad) demoPath
    (CLanguageSelect.init (demoWorld 5 demoFallbackOnly demoGermanBad) 1252)
    { CLanguageSelect.init (demoWorld 5 demoFallbackOnly demoGermanBad) 1252 with
        m_hCurrentDll := 5, m_strarray := demoTemplateArray, m_codepage := 0,
        resourceHandle := 5 }
    ((fgetsAll 1024 demoFallbackOnly []).take 6) [] (textLine "") demoTemplateArray
    demoBeforeCommit 10
    (by decide) (by decide) (by decide) (by decide) (by decide) (by decide) (by decide)
    (by decide) (by decide)

/-! ## The `Codepage` directive -/

/-- Claim C13 fails on the code: the codepage of a `Codepage` entry does not survive the
entries that follow. A catalog whose only entry after the header is the `Codepage` entry
translated to 1250 loads with codepage 1250; with one more entry after it, translating
line 10 to `Bonjour`, the load succeeds with codepage 0. The variable `directive` is not
erased when an entry is committed, unlike `msgid`, `msgstr` and `lines`, so the next
entry is taken for a `Codepage` entry too and `m_codepage` becomes `strtol("Bonjour")`. -/
theorem LoadResourceDLL_codepage_overwritten :
    (CLanguageSelect.LoadResourceDLL (demoWorld 5 demoCodepageOnly []) (some demoPath)
      (CLanguageSelect.init (demoWorld 5 demoCodepageOnly []) 0)).map
      (fun r => (r.1, r.2.m_codepage)) = some (true, 1250) ∧
    (CLanguageSelect.LoadResourceDLL (demoWorld 5 demoCodepageThenEntry []) (some demoPath)
      (CLanguageSelect.init (demoWorld 5 demoCodepageThenEntry []) 0)).map
      (fun r => (r.1, r.2.m_codepage, r.2.TranslateString 10)) =
      some (true, 0, some (bytes "Bonjour")) := by
  decide

/-! ## Switching to a catalog -/

theorem SetLanguageResult_true_effects (L : Nat) (o : Bool) (s : CLanguageSelect) :
    (CLanguageSelect.SetLanguageResult L o true s).2.profileWrites =
        (if o = true then s.profileWrites ++ [L] else s.profileWrites) ∧
      (CLanguageSelect.SetLanguageResult L o true s).2.threadLocale = L ∧
      (CLanguageSelect.SetLanguageResult L o true s).2.resourceHandle = s.resourceHandle ∧
      (CLanguageSelect.SetLanguageResult L o true s).2.freed = s.freed := by
  unfold CLanguageSelect.SetLanguageResult
  simp only [if_true]
  cases o <;> simp only [if_true, Bool.false_eq_true, if_false] <;>
    (split_ifs <;>
      first
        | (refine ⟨rfl, rfl, rfl, rfl⟩)
        | (split <;>
            first
              | (refine ⟨rfl, rfl, rfl, rfl⟩)
              | (split <;>
                  first
                    | (refine ⟨rfl, rfl, rfl, rfl⟩)
                    | (split_ifs <;> refine ⟨rfl, rfl, rfl, rfl⟩))))

/-- How `SetLanguage` reaches the value `TRUE`: by the default branch, or by a successful
load of the file `GetDllName` returns. -/
theorem SetLanguage_true_cases (w : World) (L : Nat) (o : Bool) (s s1 : CLanguageSelect)
    (h : CLanguageSelect.SetLanguage w L o s = some (true, s1)) :
    ∃ s0, s1 = (CLanguageSelect.SetLanguageResult L o true s0).2 ∧
      s0.profileWrites = s.profileWrites ∧
      ((PRIMARYLANGID L = LANG_ENGLISH ∧ SUBLANGID L = SUBLANG_ENGLISH_US ∧
          s0 = localResources w s) ∨
        (¬ (PRIMARYLANGID L = LANG_ENGLISH ∧ SUBLANGID L = SUBLANG_ENGLISH_US) ∧
          s.m_wCurLanguage ≠ L ∧
          ∃ path, CLanguageSelect.GetDllName w L = some path ∧ path ≠ [] ∧
            CLanguageSelect.LoadResourceDLL w (some path) s = some (true, s0))) := by
  unfold CLanguageSelect.SetLanguage at h
  by_cases hd : PRIMARYLANGID L = LANG_ENGLISH ∧ SUBLANGID L = SUBLANG_ENGLISH_US
  · rw [if_pos hd, LoadResourceDLL_null] at h
    simp only [Option.some.injEq] at h
    refine ⟨localResources w s, ?_, rfl, Or.inl ⟨hd.1, hd.2, rfl⟩⟩
    rw [h]
  · rw [if_neg hd] at h
    by_cases hc : s.m_wCurLanguage = L
    · simp [hc, SetLanguageResult_false] at h
    · simp only [ne_eq, hc, not_false_eq_true, if_true] at h
      cases hg : CLanguageSelect.GetDllName w L with
      | none => simp [hg] at h
      | some path =>
        simp only [hg] at h
        by_cases hp : path = []
        · simp [hp, SetLanguageResult_false] at h
        · have hpe : path.isEmpty = false := by
            cases path with
            | nil => exact absurd rfl hp
            | cons a t => rfl
          simp only [hpe, Bool.false_eq_true, not_false_eq_true, if_true] at h
          cases hl : CLanguageSelect.LoadResourceDLL w (some path) s with
          | none => simp [hl] at h
          | some r =>
            obtain ⟨b, s0⟩ := r
            simp only [hl, Option.some.injEq] at h
            cases b with
            | false => simp [SetLanguageResult_false] at h
            | true =>
              refine ⟨s0, ?_, (LoadResourceDLL_frame w _ s s0 true hl).2.1,
                Or.inr ⟨hd, hc, path, rfl, hp, hl⟩⟩
              rw [h]

theorem GetDllNameLoop_first (w : World) (L : Nat) :
    ∀ (files : List (List Nat)) (path : List Nat),
      CLanguageSelect.GetDllNameLoop w L files = some path → path ≠ [] →
      ∃ pre post, files = pre ++ path :: post ∧
        CLanguageSelect.GetLanguage w path = some (some L) ∧
        ∀ f ∈ pre, CLanguageSelect.GetLanguage w f ≠ some (some L) := by
  intro files
  induction files with
  | nil =>
    intro path h hne
    simp only [CLanguageSelect.GetDllNameLoop, Option.some.injEq] at h
    exact absurd h.symm hne
  | cons dll rest ih =>
    intro path h hne
    unfold CLanguageSelect.GetDllNameLoop at h
    cases hg : CLanguageSelect.GetLanguage w dll with
    | none => simp [hg] at h
    | some r =>
      have step : CLanguageSelect.GetLanguage w dll ≠ some (some L) →
          CLanguageSelect.GetDllNameLoop w L rest = some path →
          ∃ pre post, dll :: rest = pre ++ path :: post ∧
            CLanguageSelect.GetLanguage w path = some (some L) ∧
            ∀ f ∈ pre, CLanguageSelect.GetLanguage w f ≠ some (some L) := by
        intro hdl hrest
        obtain ⟨pre, post, e, hp, hpre⟩ := ih path hrest hne
        refine ⟨dll :: pre, post, by simp [e], hp, ?_⟩
        intro f hf
        simp only [List.mem_cons] at hf
        rcases hf with rfl | hf
        · exact hdl
        · exact hpre f hf
      cases r with
      | none =>
        simp only [hg] at h
        exact step (by simp [hg]) h
      | some l =>
        simp only [hg] at h
        by_cases hl : L = l
        · rw [if_pos hl] at h
          simp only [Option.some.injEq] at h
          subst h
          subst hl
          exact ⟨[], rest, rfl, hg, by simp⟩
        · rw [if_neg hl] at h
          refine step ?_ h
          rw [hg]
          intro e
          simp only [Option.some.injEq] at e
          exact hl e.symm

theorem GetDllName_first (w : World) (L : Nat) (path : List Nat)
    (h : CLanguageSelect.GetDllName w L = some path) (hne : path ≠ []) :
    ∃ pre post, discovered w = pre ++ path :: post ∧
      CLanguageSelect.GetLanguage w path = some (some L) ∧
      ∀ f ∈ pre, CLanguageSelect.GetLanguage w f ≠ some (some L) := by
  unfold CLanguageSelect.GetDllName at h
  unfold discovered
  cases hm : w.moduleFileName with
  | none =>
    simp only [hm, Option.some.injEq] at h
    exact absurd h.symm hne
  | some fullpath =>
    simp only [hm] at h
    exact GetDllNameLoop_first w L _ path h hne

/-- Claim C14: for every non-default target id other than the current language, when
discovery finds a catalog file for the id and that file loads without error,
`SetLanguage` returns `TRUE` and the object is in the state loaded for the target: the
current language id is the target, the module `MergeLang.dll` is loaded, the module that
was loaded before, if any, has been passed to `FreeLibrary`, and the array and codepage
are those the loader computes from the first discovered file, in enumeration order, whose
probed language id is the target. -/
theorem SetLanguage_loads (w : World) (L : Nat) (override : Bool) (s s1 : CLanguageSelect)
    (path : List Nat) (hL : L < 65536) (hnd : L ≠ wSourceLangId)
    (hcur : s.m_wCurLanguage ≠ L) (hfound : CLanguageSelect.GetDllName w L = some path)
    (hne : path ≠ []) (hload : CLanguageSelect.LoadResourceDLL w (some path) s = some (true, s1)) :
    ∃ s2 po, CLanguageSelect.SetLanguage w L override s = some (true, s2) ∧
      s2.m_wCurLanguage = L ∧ s2.m_hCurrentDll = w.mergeLangDll ∧ w.mergeLangDll ≠ 0 ∧
      s2.freed = freedOnEntry s ∧
      catalogRun w path = some po ∧ s2.m_strarray = po.m_strarray ∧
      s2.m_codepage = po.m_codepage ∧
      ∃ pre post, discovered w = pre ++ path :: post ∧
        CLanguageSelect.GetLanguage w path = some (some L) ∧
        ∀ f ∈ pre, CLanguageSelect.GetLanguage w f ≠ some (some L) := by
  obtain ⟨n, po, hn, _, hdll, _, hrun, _, hs1⟩ :=
    LoadResourceDLL_true_spec w (some path) s s1 hload
  simp only [Option.some.injEq] at hn
  subst hn
  have hres := SetLanguageResult_true L override s1
  have heff := SetLanguageResult_true_effects L override s1
  have hpe : path.isEmpty = false := by
    cases path with
    | nil => exact absurd rfl hne
    | cons a t => rfl
  refine ⟨(CLanguageSelect.SetLanguageResult L override true s1).2, po, ?_, hres.2.1, ?_, hdll,
    ?_, hrun, ?_, ?_, GetDllName_first w L path hfound hne⟩
  · unfold CLanguageSelect.SetLanguage
    rw [if_neg (fun hd => hnd ((isDefault_iff hL).mp hd))]
    simp only [ne_eq, hcur, not_false_eq_true, if_true, hfound, hpe, Bool.false_eq_true, hload]
    exact congrArg some (Prod.ext hres.1 rfl)
  · rw [hres.2.2.1, hs1]
  · rw [heff.2.2.2, hs1]
  · rw [hres.2.2.2.1, hs1]
  · rw [hres.2.2.2.2, hs1]

/-- Witness of claim C14: French selected from the constructed object in the example
environment. -/
theorem SetLanguage_loads_witness :
    ∃ s2 po, CLanguageSelect.SetLanguage (demoWorld 5 demoFrench demoGermanBad) demoFrenchId true
        (CLanguageSelect.init (demoWorld 5 demoFrench demoGermanBad) 1252) = some (true, s2) ∧
      s2.m_wCurLanguage = demoFrenchId ∧
      s2.m_hCurrentDll = (demoWorld 5 demoFrench demoGermanBad).mergeLangDll ∧
      (demoWorld 5 demoFrench demoGermanBad).mergeLangDll ≠ 0 ∧
      s2.freed = freedOnEntry (CLanguageSelect.init (demoWorld 5 demoFrench demoGermanBad) 1252) ∧
      catalogRun (demoWorld 5 demoFrench demoGermanBad) demoPath = some po ∧
      s2.m_strarray = po.m_strarray ∧ s2.m_codepage = po.m_codepage ∧
      ∃ pre post, discovered (demoWorld 5 demoFrench demoGermanBad) = pre ++ demoPath :: post ∧
        CLanguageSelect.GetLanguage (demoWorld 5 demoFrench demoGermanBad) demoPath =
          some (some demoFrenchId) ∧
        ∀ f ∈ pre, CLanguageSelect.GetLanguage (demoWorld 5 demoFrench demoGermanBad) f ≠
          some (some demoFrenchId) :=
  SetLanguage_loads (demoWorld 5 demoFrench demoGermanBad) demoFrenchId true
    (CLanguageSelect.init (demoWorld 5 demoFrench demoGermanBad) 1252) demoAfterLoad demoPath
    (by decide) (by decide) (by decide) (by decide) (by decide) (by decide)

/-- One call of `SetLanguage` that returns `TRUE` or changes nothing keeps the object in
one of the two states of the specification. -/
theorem SetLanguage_keeps_states (w : World) (L : Nat) (o : Bool) (r : Bool)
    (s s1 : CLanguageSelect) (hL : L < 65536)
    (h : CLanguageSelect.SetLanguage w L o s = some (r, s1)) (hr : r = true ∨ s1 = s)
    (hs : IsDefault s ∨ IsLoaded w s) : IsDefault s1 ∨ IsLoaded w s1 := by
  rcases hr with hr | hr
  · subst hr
    obtain ⟨s0, hs1, _, hcase⟩ := SetLanguage_true_cases w L o s s1 h
    have hf := SetLanguageResult_true L o s0
    rw [← hs1] at hf
    rcases hcase with ⟨hp, hsub, hs0⟩ | ⟨hnd, _, path, hpath, _, hload⟩
    · left
      refine ⟨?_, ?_⟩
      · rw [hf.2.1]
        exact (isDefault_iff hL).mp ⟨hp, hsub⟩
      · rw [hf.2.2.1, hs0]
        rfl
    · right
      obtain ⟨n, po, hn, _, hdll, _, hrun, hbad, hs0⟩ :=
        LoadResourceDLL_true_spec w _ s s0 hload
      cases hn
      have hm : s0.m_hCurrentDll = w.mergeLangDll := by rw [hs0]
      have ha : s0.m_strarray = po.m_strarray := by rw [hs0]
      have hc : s0.m_codepage = po.m_codepage := by rw [hs0]
      refine ⟨?_, ?_, ?_, path, po, ?_, hrun, hbad, ?_, ?_⟩
      · rw [hf.2.1]
        intro e
        exact hnd ((isDefault_iff hL).mpr e)
      · rw [hf.2.2.1, hm]
        exact hdll
      · rw [hf.2.2.1, hm]
      · rw [hf.2.1]
        exact hpath
      · rw [hf.2.2.2.1, ha]
      · rw [hf.2.2.2.2, hc]
  · rw [hr]
    exact hs

theorem SetLanguageSeq_keeps_states (w : World) :
    ∀ (calls : List (Nat × Bool)) (s s1 : CLanguageSelect),
      (∀ c ∈ calls, c.1 < 65536) → succeedOrKeep w calls s = true →
      SetLanguageSeq w calls s = some s1 → (IsDefault s ∨ IsLoaded w s) →
      IsDefault s1 ∨ IsLoaded w s1 := by
  intro calls
  induction calls with
  | nil =>
    intro s s1 _ _ hrun hs
    simp only [SetLanguageSeq, Option.some.injEq] at hrun
    rw [← hrun]
    exact hs
  | cons c rest ih =>
    intro s s1 hw hok hrun hs
    unfold succeedOrKeep at hok
    unfold SetLanguageSeq at hrun
    cases hc : CLanguageSelect.SetLanguage w c.1 c.2 s with
    | none => rw [hc] at hok; simp at hok
    | some res =>
      obtain ⟨r, s2⟩ := res
      rw [hc] at hok hrun
      simp only [Bool.and_eq_true, Bool.or_eq_true, decide_eq_true_eq] at hok
      exact ih s2 s1 (fun c1 h1 => hw c1 (List.mem_cons_of_mem _ h1)) hok.2 hrun
        (SetLanguage_keeps_states w c.1 c.2 r s s2 (hw c (List.mem_cons_self _ _)) hc hok.1 hs)

/-- Counterexample to claim C15: from the constructed object, French is selected with
success and German, whose catalog has a mismatched reference, without. The state reached
has French as current language, a null module handle and an empty mapping: it is neither
`Default` nor `Loaded`. A later selection of French does nothing and returns `FALSE`. -/
theorem SetLanguageSeq_failed_load_state :
    SetLanguageSeq (demoWorld 5 demoFrench demoGermanBad)
        [(demoFrenchId, true), (demoGermanId, true)]
        (CLanguageSelect.init (demoWorld 5 demoFrench demoGermanBad) 1252) =
      some demoAfterFailure ∧
    demoAfterFailure.m_wCurLanguage = demoFrenchId ∧ demoFrenchId ≠ wSourceLangId ∧
    demoAfterFailure.m_hCurrentDll = 0 ∧ demoAfterFailure.m_strarray = [] ∧
    ¬ (IsDefault demoAfterFailure ∨ IsLoaded (demoWorld 5 demoFrench demoGermanBad)
        demoAfterFailure) ∧
    CLanguageSelect.SetLanguage (demoWorld 5 demoFrench demoGermanBad) demoFrenchId true
      demoAfterFailure = some (false, demoAfterFailure) := by
  refine ⟨by decide, by decide, by decide, by decide, by decide, ?_, by decide⟩
  intro h
  rcases h with h | h
  · exact absurd h.1 (by decide)
  · exact h.2.1 (by decide)

/-- Claim C15 as amended: every state reached from the constructed object by a sequence
of `SetLanguage` calls, each of which returns `TRUE` or leaves the object as it was (the
target is the current language, or no catalog file declares it), is `Default` or
`Loaded`. A call that finds a catalog file and fails to load it is left out: it keeps the
current language and frees the module. -/
theorem SetLanguageSeq_invariant (w : World) (m_codepage : Nat) (calls : List (Nat × Bool))
    (s : CLanguageSelect) (hword : ∀ c ∈ calls, c.1 < 65536)
    (hok : succeedOrKeep w calls (CLanguageSelect.init w m_codepage) = true)
    (hrun : SetLanguageSeq w calls (CLanguageSelect.init w m_codepage) = some s) :
    IsDefault s ∨ IsLoaded w s :=
  SetLanguageSeq_keeps_states w calls _ s hword hok hrun (Or.inl ⟨rfl, rfl⟩)

/-- Witness of claim C15 as amended: French is selected with success, then Italian, for
which there is no catalog file; the state reached is `demoLoaded`. -/
theorem SetLanguageSeq_invariant_witness :
    IsDefault demoLoaded ∨ IsLoaded (demoWorld 5 demoFrench demoGermanBad) demoLoaded :=
  SetLanguageSeq_invariant (demoWorld 5 demoFrench demoGermanBad) 1252
    [(demoFrenchId, true), (demoItalianId, true)] demoLoaded (by decide) (by decide)
    (by decide)

/-- Counterexample to claim C16: French selected from the constructed object with
`override` false; `SetLanguage` returns `TRUE` and nothing is written to the persisted
setting. -/
theorem SetLanguage_without_override :
    (CLanguageSelect.SetLanguage (demoWorld 5 demoFrench demoGermanBad) demoFrenchId false
      (CLanguageSelect.init (demoWorld 5 demoFrench demoGermanBad) 1252)).map
      (fun r => (r.1, r.2.m_wCurLanguage, r.2.profileWrites)) =
      some (true, demoFrenchId, []) := by
  decide

/-- Claim C16 as amended: every successful `SetLanguage` call, for every target id,
writes the chosen language id to the persisted setting when `override` is true, and
writes nothing when `override` is false. -/
theorem SetLanguage_persists (w : World) (L : Nat) (override : Bool)
    (s s1 : CLanguageSelect)
    (h : CLanguageSelect.SetLanguage w L override s = some (true, s1)) :
    s1.profileWrites = if override = true then s.profileWrites ++ [L] else s.profileWrites := by
  obtain ⟨s0, hs1, hp, _⟩ := SetLanguage_true_cases w L override s s1 h
  rw [hs1, (SetLanguageResult_true_effects L override s0).1, hp]

/-- Witness of claim C16 as amended: French selected with `override` true. -/
theorem SetLanguage_persists_witness :
    demoLoaded.profileWrites =
      if true = true then
        (CLanguageSelect.init (demoWorld 5 demoFrench demoGermanBad) 1252).profileWrites ++
          [demoFrenchId]
      else (CLanguageSelect.init (demoWorld 5 demoFrench demoGermanBad) 1252).profileWrites :=
  SetLanguage_persists (demoWorld 5 demoFrench demoGermanBad) demoFrenchId true
    (CLanguageSelect.init (demoWorld 5 demoFrench demoGermanBad) 1252) demoLoaded (by decide)

/-- Claim C17: catalog loading is deterministic and independent of the prior state. When
`LoadResourceDLL` succeeds for a file from one prior object, it succeeds for the same
file from every other prior object, with the same array and the same codepage; in
particular loading the same catalog again right after yields the identical array. -/
theorem LoadResourceDLL_deterministic (w : World) (name : Option (List Nat))
    (s t s1 : CLanguageSelect)
    (h : CLanguageSelect.LoadResourceDLL w name s = some (true, s1)) :
    (∃ t1, CLanguageSelect.LoadResourceDLL w name t = some (true, t1) ∧
      t1.m_strarray = s1.m_strarray ∧ t1.m_codepage = s1.m_codepage) ∧
    (∃ s2, CLanguageSelect.LoadResourceDLL w name s1 = some (true, s2) ∧
      s2.m_strarray = s1.m_strarray ∧ s2.m_codepage = s1.m_codepage) := by
  obtain ⟨n, po, hn, hname, hdll, hver, hrun, hb, hs1⟩ :=
    LoadResourceDLL_true_spec w name s s1 h
  subst hn
  have key : ∀ u : CLanguageSelect,
      ∃ u1, CLanguageSelect.LoadResourceDLL w (some n) u = some (true, u1) ∧
        u1.m_strarray = s1.m_strarray ∧ u1.m_codepage = s1.m_codepage := by
    intro u
    refine ⟨{ u with resourceHandle := w.mergeLangDll, m_hCurrentDll := w.mergeLangDll,
                     m_strarray := po.m_strarray, m_codepage := po.m_codepage,
                     freed := freedOnEntry u }, ?_, ?_, ?_⟩
    · rw [LoadResourceDLL_of_run w n u po hname hdll hver hrun, if_neg (by simp [hb])]
    · rw [hs1]
    · rw [hs1]
  exact ⟨key t, key s1⟩

/-- Witness of claim C17: `French.po` of the example environment, loaded into the
constructed object and into the object that has French loaded. -/
theorem LoadResourceDLL_deterministic_witness :
    (∃ t1, CLanguageSelect.LoadResourceDLL (demoWorld 5 demoFrench demoGermanBad) (some demoPath)
        demoLoaded = some (true, t1) ∧
      t1.m_strarray = demoAfterLoad.m_strarray ∧ t1.m_codepage = demoAfterLoad.m_codepage) ∧
    (∃ s2, CLanguageSelect.LoadResourceDLL (demoWorld 5 demoFrench demoGermanBad) (some demoPath)
        demoAfterLoad = some (true, s2) ∧
      s2.m_strarray = demoAfterLoad.m_strarray ∧ s2.m_codepage = demoAfterLoad.m_codepage) :=
  LoadResourceDLL_deterministic (demoWorld 5 demoFrench demoGermanBad) (some demoPath)
    (CLanguageSelect.init (demoWorld 5 demoFrench demoGermanBad) 1252) demoLoaded demoAfterLoad
    (by decide)

/-! ## The table `lang_map` -/

theorem GetLanguageArrayIndexFrom_id (LangId : Nat) :
    ∀ (tbl : List tLangDef) (i : Nat),
      (CLanguageSelect.GetLanguageArrayIndexFrom tbl LangId i = -1 ∧
        ∀ e ∈ beforeSentinel tbl, e.m_LangId ≠ LangId) ∨
      ∃ k, CLanguageSelect.GetLanguageArrayIndexFrom tbl LangId i = ((i + k : Nat) : Int) ∧
        LeastIndex (fun e => e.m_LangId = LangId) (beforeSentinel tbl) k := by
  intro tbl
  induction tbl with
  | nil =>
    intro i
    left
    simp [CLanguageSelect.GetLanguageArrayIndexFrom, beforeSentinel]
  | cons e t ih =>
    intro i
    unfold CLanguageSelect.GetLanguageArrayIndexFrom
    by_cases h0 : e.m_LangId = 0
    · left
      simp [h0, beforeSentinel]
    · rw [if_neg h0]
      have hb : beforeSentinel (e :: t) = e :: beforeSentinel t := by
        simp [beforeSentinel, List.takeWhile_cons, h0]
      rw [hb]
      by_cases he : e.m_LangId = LangId
      · right
        refine ⟨0, by simp [he], ⟨e, by simp, he⟩, ?_⟩
        intro j e1 hj
        omega
      · rw [if_neg he]
        rcases ih (i + 1) with ⟨h1, h2⟩ | ⟨k, h1, h2⟩
        · left
          refine ⟨h1, ?_⟩
          intro e1 he1
          simp only [List.mem_cons] at he1
          rcases he1 with rfl | he1
          · exact he
          · exact h2 e1 he1
        · right
          refine ⟨k + 1, ?_, ?_, ?_⟩
          · rw [h1]
            congr 1
            omega
          · simpa using h2.1
          · intro j e1 hj hje
            cases j with
            | zero =>
              simp only [List.getElem?_cons_zero, Option.some.injEq] at hje
              subst hje
              exact he
            | succ j =>
              simp only [List.getElem?_cons_succ] at hje
              exact h2.2 j e1 (by omega) hje

theorem GetLanguageArrayIndexFrom_names (lang sublang : List Nat) :
    ∀ (tbl : List tLangDef) (i : Nat),
      (∀ e ∈ beforeSentinel tbl, e.lang ≠ none ∧ e.sublang ≠ none) →
      (GetLanguageArrayIndexFrom tbl (some lang) (some sublang) i = some (-1) ∧
        ∀ e ∈ beforeSentinel tbl, ¬ hasNames lang sublang e) ∨
      ∃ k, GetLanguageArrayIndexFrom tbl (some lang) (some sublang) i =
          some ((i + k : Nat) : Int) ∧
        LeastIndex (hasNames lang sublang) (beforeSentinel tbl) k := by
  intro tbl
  induction tbl with
  | nil =>
    intro i _
    left
    simp [GetLanguageArrayIndexFrom, beforeSentinel]
  | cons e t ih =>
    intro i hall
    unfold GetLanguageArrayIndexFrom
    by_cases h0 : e.m_LangId = 0
    · left
      simp [h0, beforeSentinel]
    · rw [if_neg h0]
      have hb : beforeSentinel (e :: t) = e :: beforeSentinel t := by
        simp [beforeSentinel, List.takeWhile_cons, h0]
      rw [hb] at hall ⊢
      have hall1 : ∀ e1 ∈ beforeSentinel t, e1.lang ≠ none ∧ e1.sublang ≠ none :=
        fun e1 h1 => hall e1 (List.mem_cons_of_mem _ h1)
      have hes := hall e (List.mem_cons_self _ _)
      obtain ⟨el, hel⟩ := Option.ne_none_iff_exists'.mp hes.1
      obtain ⟨es, hes1⟩ := Option.ne_none_iff_exists'.mp hes.2
      simp only [hel, hes1]
      have step : ¬ hasNames lang sublang e →
          ((GetLanguageArrayIndexFrom t (some lang) (some sublang) (i + 1) = some (-1) ∧
            ∀ e1 ∈ e :: beforeSentinel t, ¬ hasNames lang sublang e1) ∨
          ∃ k, GetLanguageArrayIndexFrom t (some lang) (some sublang) (i + 1) =
              some ((i + k : Nat) : Int) ∧
            LeastIndex (hasNames lang sublang) (e :: beforeSentinel t) k) := by
        intro he
        rcases ih (i + 1) hall1 with ⟨h1, h2⟩ | ⟨k, h1, h2⟩
        · left
          refine ⟨h1, ?_⟩
          intro e1 he1
          simp only [List.mem_cons] at he1
          rcases he1 with rfl | he1
          · exact he
          · exact h2 e1 he1
        · right
          refine ⟨k + 1, ?_, ?_, ?_⟩
          · rw [h1]
            congr 2
            omega
          · simpa using h2.1
          · intro j e1 hj hje
            cases j with
            | zero =>
              simp only [List.getElem?_cons_zero, Option.some.injEq] at hje
              subst hje
              exact he
            | succ j =>
              simp only [List.getElem?_cons_succ] at hje
              exact h2.2 j e1 (by omega) hje
      by_cases hl : bytes el = lang
      · rw [if_pos hl]
        by_cases hs : bytes es = sublang
        · rw [if_pos hs]
          right
          refine ⟨0, by simp, ⟨e, by simp, ?_⟩, ?_⟩
          · simp [hasNames, hel, hes1, hl, hs]
          · intro j e1 hj
            omega
        · rw [if_neg hs]
          exact step (by simp [hasNames, hel, hes1, hs])
      · rw [if_neg hl]
        exact step (by simp [hasNames, hel, hes1, hl])

theorem lang_map_names_some : ∀ e ∈ beforeSentinel lang_map, e.lang ≠ none ∧ e.sublang ≠ none := by
  decide

/-- Claim C18: both lookups in `lang_map` are exact linear scans. For the lookup by
language id and for the lookup by the two name strings: when an entry before the
zero-id sentinel has the key, the result is the least index of such an entry; the
result is `-1` exactly when no entry before the sentinel has the key; the lookup of
language id 0 returns `-1`, and no lookup returns the index of the sentinel, 40. -/
theorem GetLanguageArrayIndex_linear_scan (LangId : Nat) (lang sublang : List Nat) :
    (((∃ e ∈ beforeSentinel lang_map, e.m_LangId = LangId) →
        ∃ k : Nat, CLanguageSelect.GetLanguageArrayIndex LangId = (k : Int) ∧
          LeastIndex (fun e => e.m_LangId = LangId) (beforeSentinel lang_map) k) ∧
      (CLanguageSelect.GetLanguageArrayIndex LangId = -1 ↔
        ∀ e ∈ beforeSentinel lang_map, e.m_LangId ≠ LangId)) ∧
    (((∃ e ∈ beforeSentinel lang_map, hasNames lang sublang e) →
        ∃ k : Nat, GetLanguageArrayIndex (some lang) (some sublang) = some (k : Int) ∧
          LeastIndex (hasNames lang sublang) (beforeSentinel lang_map) k) ∧
      (GetLanguageArrayIndex (some lang) (some sublang) = some (-1) ↔
        ∀ e ∈ beforeSentinel lang_map, ¬ hasNames lang sublang e)) ∧
    CLanguageSelect.GetLanguageArrayIndex 0 = -1 ∧
    (beforeSentinel lang_map).length = 40 ∧
    CLanguageSelect.GetLanguageArrayIndex LangId ≠ 40 ∧
    GetLanguageArrayIndex (some lang) (some sublang) ≠ some 40 := by
  have hid := GetLanguageArrayIndexFrom_id LangId lang_map 0
  have hnm := GetLanguageArrayIndexFrom_names lang sublang lang_map 0 lang_map_names_some
  have hlen : (beforeSentinel lang_map).length = 40 := by decide
  have bound : ∀ (p : tLangDef → Prop) (k : Nat), LeastIndex p (beforeSentinel lang_map) k →
      k < 40 := by
    intro p k hk
    obtain ⟨⟨e, he, _⟩, _⟩ := hk
    by_contra hc
    rw [List.getElem?_eq_none (by omega)] at he
    exact absurd he (by simp)
  have mem : ∀ (p : tLangDef → Prop) (k : Nat), LeastIndex p (beforeSentinel lang_map) k →
      ∃ e ∈ beforeSentinel lang_map, p e := by
    intro p k hk
    obtain ⟨⟨e, he, hp⟩, _⟩ := hk
    exact ⟨e, List.getElem?_mem he, hp⟩
  simp only [Nat.zero_add] at hid hnm
  refine ⟨⟨?_, ?_⟩, ⟨?_, ?_⟩, by decide, hlen, ?_, ?_⟩
  · intro hex
    rcases hid with ⟨_, h2⟩ | ⟨k, h1, h2⟩
    · obtain ⟨e, he, hp⟩ := hex
      exact absurd hp (h2 e he)
    · exact ⟨k, h1, h2⟩
  · constructor
    · intro hres
      rcases hid with ⟨_, h2⟩ | ⟨k, h1, _⟩
      · exact h2
      · unfold CLanguageSelect.GetLanguageArrayIndex at hres
        rw [h1] at hres
        omega
    · intro hno
      rcases hid with ⟨h1, _⟩ | ⟨k, _, h2⟩
      · exact h1
      · obtain ⟨e, he, hp⟩ := mem _ k h2
        exact absurd hp (hno e he)
  · intro hex
    rcases hnm with ⟨_, h2⟩ | ⟨k, h1, h2⟩
    · obtain ⟨e, he, hp⟩ := hex
      exact absurd hp (h2 e he)
    · exact ⟨k, h1, h2⟩
  · constructor
    · intro hres
      rcases hnm with ⟨_, h2⟩ | ⟨k, h1, _⟩
      · exact h2
      · unfold GetLanguageArrayIndex at hres
        rw [h1] at hres
        simp only [Option.some.injEq] at hres
        omega
    · intro hno
      rcases hnm with ⟨h1, _⟩ | ⟨k, _, h2⟩
      · exact h1
      · obtain ⟨e, he, hp⟩ := mem _ k h2
        exact absurd hp (hno e he)
  · rcases hid with ⟨h1, _⟩ | ⟨k, h1, h2⟩
    · unfold CLanguageSelect.GetLanguageArrayIndex
      rw [h1]
      omega
    · have := bound _ k h2
      unfold CLanguageSelect.GetLanguageArrayIndex
      rw [h1]
      omega
  · rcases hnm with ⟨h1, _⟩ | ⟨k, h1, h2⟩
    · unfold GetLanguageArrayIndex
      rw [h1]
      simp
    · have := bound _ k h2
      unfold GetLanguageArrayIndex
      rw [h1]
      simp only [ne_eq, Option.some.injEq]
      omega

set_option maxRecDepth 100000 in
theorem lang_map_names_nodup : lang_map_names.Nodup := by
  decide

/-- Claim C19: the table `lang_map` holds one entry per pair of name strings. The pairs
`(lang, sublang)` of the entries before the sentinel are pairwise distinct, so two
positions before the sentinel whose entries have the same two names are the same
position: a lookup by names that succeeds identifies one entry. -/
theorem lang_map_unique_names :
    lang_map_names.Nodup ∧
    ∀ (i j : Nat) (e1 e2 : tLangDef), (beforeSentinel lang_map)[i]? = some e1 →
      (beforeSentinel lang_map)[j]? = some e2 → e1.lang = e2.lang → e1.sublang = e2.sublang →
      i = j := by
  refine ⟨lang_map_names_nodup, ?_⟩
  intro i j e1 e2 h1 h2 hl hs
  have hn := lang_map_names_nodup
  rw [List.nodup_iff_getElem?_ne_getElem?] at hn
  by_contra hij
  have hi : lang_map_names[i]? = some (e1.lang, e1.sublang) := by
    simp [lang_map_names, h1]
  have hj : lang_map_names[j]? = some (e2.lang, e2.sublang) := by
    simp [lang_map_names, h2]
  have hlen : lang_map_names.length = (beforeSentinel lang_map).length := by
    simp [lang_map_names]
  have hil : i < (beforeSentinel lang_map).length := by
    by_contra hc
    rw [List.getElem?_eq_none (by omega)] at h1
    exact absurd h1 (by simp)
  have hjl : j < (beforeSentinel lang_map).length := by
    by_contra hc
    rw [List.getElem?_eq_none (by omega)] at h2
    exact absurd h2 (by simp)
  rcases Nat.lt_or_gt_of_ne hij with hlt | hgt
  · apply hn i j hlt (by omega)
    rw [hi, hj, hl, hs]
  · apply hn j i hgt (by omega)
    rw [hi, hj, hl, hs]

/-! ## The probe `GetLanguage` -/

theorem fgetsAll_full (n : Nat) (tail : List Nat) :
    ∀ (xs cur : List Nat), (∀ x ∈ xs, x ≠ 0x0A) → xs ≠ [] → cur.length + xs.length = n - 1 →
      fgetsAll n (xs ++ tail) cur = (cur ++ xs) :: fgetsAll n tail [] := by
  intro xs
  induction xs with
  | nil => intro cur _ h; exact absurd rfl h
  | cons c xs ih =>
    intro cur hnl _ hlen
    have hc : c ≠ 0x0A := hnl c (List.mem_cons_self _ _)
    rw [List.cons_append, fgetsAll]
    by_cases hx : xs = []
    · subst hx
      simp only [List.length_cons, List.length_nil] at hlen
      rw [if_pos (Or.inr (by omega))]
      simp
    · have hpos : 0 < xs.length := List.length_pos.mpr hx
      simp only [List.length_cons] at hlen
      rw [if_neg (by intro h; rcases h with h | h; exact hc h; omega)]
      rw [ih (cur ++ [c]) (fun x hx1 => hnl x (List.mem_cons_of_mem _ hx1)) hx
        (by simp only [List.length_append, List.length_cons, List.length_nil]; omega)]
      simp

/-- The loop of `GetLanguage` passes over strings that fit the buffer and are not taken
for the marker record. -/
theorem GetLanguageLoop_skip (rest : List (List Nat)) :
    ∀ pre : List (List Nat), (∀ b ∈ pre, fitsBuffer b = true ∧ isMarker b = false) →
      CLanguageSelect.GetLanguageLoop (pre ++ rest) = CLanguageSelect.GetLanguageLoop rest := by
  intro pre
  induction pre with
  | nil => intro _; rfl
  | cons b pre ih =>
    intro h
    have hb := h b (List.mem_cons_self _ _)
    have hfit : ¬ (cstr b).length + 2 > 1024 := by
      have := hb.1
      simp only [fitsBuffer, decide_eq_true_eq] at this
      omega
    have hm : ¬ sscanfMarker (cstr b ++ [0x31]) ≠ 0 := by
      have := hb.2
      simp only [isMarker, bne_eq_false_iff_eq] at this
      simp [this]
    rw [List.cons_append, CLanguageSelect.GetLanguageLoop.eq_def]
    dsimp only
    rw [if_neg hfit, if_neg hm]
    exact ih (fun b1 h1 => h b1 (List.mem_cons_of_mem _ h1))

theorem getElem_takeWhile_some {α : Type} (p : α → Bool) :
    ∀ (l : List α) (k : Nat) (e : α), (l.takeWhile p)[k]? = some e → l[k]? = some e := by
  intro l
  induction l with
  | nil => intro k e h; simp at h
  | cons a l ih =>
    intro k e h
    rw [List.takeWhile_cons] at h
    by_cases hp : p a = true
    · rw [if_pos hp] at h
      cases k with
      | zero => simpa using h
      | succ k =>
        simp only [List.getElem?_cons_succ] at h ⊢
        exact ih k e h
    · rw [if_neg hp] at h
      simp at h

/-- What `GetLanguage` does on files it reads within the bounds of its buffer. An
unreadable file gives `FALSE`. A file none of whose strings is taken for the marker
record gives `FALSE`. When a string is taken for the marker record and the next one has
the texts `LANG_` and `SUBLANG_`, the result depends on the tokens found there alone:
`TRUE` with the language id of the first entry of `lang_map` that has the two names, or
`FALSE` when no entry before the sentinel has them. A marker record that ends the file
gives `FALSE`. -/
theorem GetLanguage_probe (w : World) (name : List Nat) :
    (w.fopen name = none → CLanguageSelect.GetLanguage w name = some none) ∧
    (∀ f, w.fopen name = some f →
      (∀ b ∈ fgetsAll 1024 f [], fitsBuffer b = true ∧ isMarker b = false) →
      CLanguageSelect.GetLanguage w name = some none) ∧
    (∀ f pre m, w.fopen name = some f → fgetsAll 1024 f [] = pre ++ [m] →
      (∀ b ∈ pre, fitsBuffer b = true ∧ isMarker b = false) →
      fitsBuffer m = true → isMarker m = true →
      CLanguageSelect.GetLanguage w name = some none) ∧
    (∀ f pre m next post l sl, w.fopen name = some f →
      fgetsAll 1024 f [] = pre ++ m :: next :: post →
      (∀ b ∈ pre, fitsBuffer b = true ∧ isMarker b = false) →
      fitsBuffer m = true → isMarker m = true →
      strstr (cstr next) (bytes "LANG_") = some l →
      strstr (cstr next) (bytes "SUBLANG_") = some sl →
      (∃ k e, LeastIndex (hasNames (strtokToken l) (strtokToken sl)) (beforeSentinel lang_map) k ∧
          (beforeSentinel lang_map)[k]? = some e ∧
          CLanguageSelect.GetLanguage w name = some (some e.m_LangId)) ∨
        ((∀ e ∈ beforeSentinel lang_map, ¬ hasNames (strtokToken l) (strtokToken sl) e) ∧
          CLanguageSelect.GetLanguage w name = some none)) := by
  have hmark : ∀ m : List Nat, fitsBuffer m = true → isMarker m = true →
      ¬ (cstr m).length + 2 > 1024 ∧ sscanfMarker (cstr m ++ [0x31]) ≠ 0 := by
    intro m h1 h2
    simp only [fitsBuffer, decide_eq_true_eq] at h1
    simp only [isMarker, bne_iff_ne, ne_eq] at h2
    exact ⟨by omega, h2⟩
  refine ⟨?_, ?_, ?_, ?_⟩
  · intro h
    simp [CLanguageSelect.GetLanguage, h]
  · intro f hf hall
    simp only [CLanguageSelect.GetLanguage, hf]
    have := GetLanguageLoop_skip [] (fgetsAll 1024 f []) hall
    rw [List.append_nil] at this
    rw [this]
    rfl
  · intro f pre m hf hsplit hpre hfit hm
    simp only [CLanguageSelect.GetLanguage, hf]
    rw [hsplit, GetLanguageLoop_skip [m] pre hpre, CLanguageSelect.GetLanguageLoop,
      if_neg (hmark m hfit hm).1, if_pos (hmark m hfit hm).2]
  · intro f pre m next post l sl hf hsplit hpre hfit hm hl hsl
    simp only [CLanguageSelect.GetLanguage, hf]
    rw [hsplit, GetLanguageLoop_skip (m :: next :: post) pre hpre,
      CLanguageSelect.GetLanguageLoop, if_neg (hmark m hfit hm).1, if_pos (hmark m hfit hm).2]
    simp only [hl, hsl, Option.map_some']
    have hnm := GetLanguageArrayIndexFrom_names (strtokToken l) (strtokToken sl) lang_map 0
      lang_map_names_some
    simp only [Nat.zero_add] at hnm
    rcases hnm with ⟨h1, h2⟩ | ⟨k, h1, h2⟩
    · right
      refine ⟨h2, ?_⟩
      unfold GetLanguageArrayIndex
      rw [h1]
      simp
    · left
      obtain ⟨⟨e, he, hp⟩, hleast⟩ := h2
      refine ⟨k, e, ⟨⟨e, he, hp⟩, hleast⟩, he, ?_⟩
      unfold GetLanguageArrayIndex
      rw [h1]
      have hk : lang_map[k]? = some e := getElem_takeWhile_some _ lang_map k e he
      have hne : ((k : Nat) : Int) ≠ -1 := by omega
      simp only [hne, ne_eq, not_false_eq_true, if_true, Int.toNat_ofNat, hk, Option.map_some']

/-- Claim C20 fails on two kinds of files, where the execution of `GetLanguage` is
undefined instead of returning `FALSE`. For `demoLongLine`, which has no marker record,
`fgets` fills the buffer with 1023 characters and `strcat(buf, "1")` writes one byte past
its end. For `demoUntranslated`, the string after the marker record has no `LANG_`, so
that `strcmp` is called with a null pointer. The record of the claim is taken for the
marker; the probe gives `FALSE` for a file that cannot be opened, for a file without
marker record and for names that are not in `lang_map`, and the language id of French
for `demoFrench`. -/
theorem GetLanguage_undefined_cases :
    CLanguageSelect.GetLanguage (demoWorld 5 demoLongLine demoGermanBad) demoPath = none ∧
    CLanguageSelect.GetLanguage (demoWorld 5 demoUntranslated demoGermanBad) demoPath = none ∧
    isMarker (quotedLine "msgid" "LANG_ENGLISH, SUBLANG_ENGLISH_US") = true ∧
    isMarker (quotedLine "msgstr" "") = false ∧
    strstr (cstr (quotedLine "msgstr" "")) (bytes "LANG_") = none ∧
    CLanguageSelect.GetLanguage (demoWorld 5 demoFrench demoGermanBad) (bytes "missing.po") =
      some none ∧
    CLanguageSelect.GetLanguage (demoWorld 5 demoFallback demoGermanBad) demoPath = some none ∧
    CLanguageSelect.GetLanguage (demoWorld 5 demoUnknownNames demoGermanBad) demoPath =
      some none ∧
    CLanguageSelect.GetLanguage (demoWorld 5 demoFrench demoGermanBad) demoPath =
      some (some demoFrenchId) := by
  refine ⟨?_, by decide, by decide, by decide, by decide, by decide, by decide, by decide,
    by decide⟩
  have hf : (demoWorld 5 demoLongLine demoGermanBad).fopen demoPath = some demoLongLine := by
    simp [demoWorld]
  have hlen : (List.replicate 1023 0x41).length = 1023 := List.length_replicate 1023 0x41
  have hlines : fgetsAll 1024 demoLongLine [] =
      List.replicate 1023 0x41 :: fgetsAll 1024 [0x0A] [] := by
    have := fgetsAll_full 1024 [0x0A] (List.replicate 1023 0x41) []
      (by intro x hx; rw [List.eq_of_mem_replicate hx]; decide)
      (by intro h; rw [h] at hlen; exact absurd hlen (by decide))
      (by rw [hlen]; rfl)
    rw [List.nil_append] at this
    exact this
  have hc : cstr (List.replicate 1023 0x41) = List.replicate 1023 0x41 := by
    unfold cstr
    rw [List.takeWhile_eq_self_iff]
    intro x hx
    rw [List.eq_of_mem_replicate hx]
    decide
  simp only [CLanguageSelect.GetLanguage, hf]
  rw [hlines, CLanguageSelect.GetLanguageLoop.eq_def]
  dsimp only
  rw [hc, hlen, if_pos (by decide)]

/-! ## Records of the catalog and of the template -/

/-- A step of the second loop either ends a record, and is then the commit of the entry,
or leaves the array, the comparisons, the count of bad references and the codepage as they
are. -/
theorem poStep_cases (w : World) (st : PoParse) (buf : List Nat) :
    (endsRecord st buf = true ∧ poStep w st buf = poCommit w (poDirective st (cstr buf))) ∨
    (endsRecord st buf = false ∧ ∃ st1, poStep w st buf = some st1 ∧
      st1.m_strarray = st.m_strarray ∧ st1.checks = st.checks ∧ st1.badrefs = st.badrefs ∧
      st1.m_codepage = st.m_codepage ∧ st1.lines = (poDirective st (cstr buf)).lines ∧
      (st1.ps = none ↔ (poDirective st (cstr buf)).ps = none)) := by
  have hd := poDirective_fields st (cstr buf)
  unfold endsRecord poStep
  dsimp only
  cases hp : (poDirective st (cstr buf)).ps with
  | none =>
    right
    exact ⟨by simp, _, rfl, hd.2.2.1, hd.2.1, hd.1, hd.2.2.2, rfl, by simp [hp]⟩
  | some t =>
    cases hq : quoted (cstr buf) with
    | none =>
      left
      exact ⟨by simp, rfl⟩
    | some part =>
      right
      refine ⟨by simp, ?_⟩
      cases t with
      | msgid =>
        exact ⟨_, rfl, hd.2.2.1, hd.2.1, hd.1, hd.2.2.2, rfl, by simp [hp]⟩
      | msgstr =>
        exact ⟨_, rfl, hd.2.2.1, hd.2.1, hd.1, hd.2.2.2, rfl, by simp [hp]⟩

/-- A commit that counts no bad reference leaves the decoded translation of the entry at
every reference line of the entry. -/
theorem poCommit_holds (w : World) (k : Nat) (st st1 : PoParse)
    (h : poCommit w st = some st1) (hb : st1.badrefs = st.badrefs) (hk : k ∈ st.lines) :
    ∃ d, unslash w.IsDBCSLeadByteEx st.m_codepage st.translation = some d ∧
      st1.m_strarray[k]? = some d := by
  unfold poCommit at h
  dsimp only at h
  unfold PoParse.translation
  cases hu : unslash w.IsDBCSLeadByteEx st.m_codepage
      (if st.msgstr.isEmpty = true then st.msgid else st.msgstr) with
  | none => rw [hu] at h; simp at h
  | some d =>
    rw [hu] at h
    dsimp only at h
    cases hasg : poAssign st.msgid d st.lines (st.m_strarray, st.badrefs, st.checks) with
    | none => rw [hasg] at h; simp at h
    | some r =>
      obtain ⟨a1, b1, cs1⟩ := r
      rw [hasg] at h
      simp only [Option.some.injEq] at h
      refine ⟨d, rfl, ?_⟩
      have hb1 : b1 = st.badrefs := by rw [← hb, ← h]
      rw [← h]
      exact poAssign_matched _ _ k _ _ _ _ _ _ _ hasg hb1 hk

/-- A line for which the run of the second loop made no comparison holds what it held
before the run. -/
theorem catalogRun_untouched (w : World) (name : List Nat) (a : List (List Nat)) (po : PoParse)
    (k : Nat) (v : List Nat) (ha : templateArray w = some a) (hrun : catalogRun w name = some po)
    (hno : ∀ c ∈ po.checks, c.line ≠ k) (hv : a[k]? = some v) : po.m_strarray[k]? = some v := by
  unfold catalogRun at hrun
  rw [ha] at hrun
  dsimp only at hrun
  cases hf : w.fopen name with
  | none => rw [hf] at hrun; simp at hrun
  | some f =>
    rw [hf] at hrun
    dsimp only at hrun
    obtain ⟨new, e, fr⟩ := poLoop_frame w k _ _ _ hrun
    have e1 : po.checks = new := by
      rw [e]
      rfl
    exact fr (fun c hc => hno c (by rw [e1]; exact hc)) v hv

theorem potLoop_append :
    ∀ (pre rest : List (List Nat)) (st : PotParse),
      potLoop (pre ++ rest) st = (potLoop pre st).bind (potLoop rest) := by
  intro pre
  induction pre with
  | nil => intro rest st; rfl
  | cons buf pre ih =>
    intro rest st
    simp only [List.cons_append, potLoop]
    cases hs : potStep st buf with
    | none => rfl
    | some st1 => exact ih rest st1

theorem exists_first_occurrence (c : Nat) :
    ∀ l : List Nat, c ∈ l → ∃ pre post, l = pre ++ c :: post ∧ c ∉ pre := by
  intro l
  induction l with
  | nil => intro h; simp at h
  | cons a t ih =>
    intro h
    by_cases hac : a = c
    · exact ⟨[], t, by simp [hac], by simp⟩
    · have ht : c ∈ t := by
        simp only [List.mem_cons] at h
        rcases h with h | h
        · exact absurd h.symm hac
        · exact h
      obtain ⟨pre, post, e, hn⟩ := ih ht
      refine ⟨a :: pre, post, by simp [e], ?_⟩
      simp only [List.mem_cons, not_or]
      exact ⟨fun e1 => hac e1.symm, hn⟩

/-- The test `n = q - p` of the loops is zero exactly for a line with a single double
quote or with none. -/
theorem quoted_eq_none_iff (text : List Nat) : quoted text = none ↔ text.count 0x22 ≤ 1 := by
  by_cases hm : 0x22 ∈ text
  · obtain ⟨pre, post, e, hn⟩ := exists_first_occurrence 0x22 text hm
    have hfirst : text.indexOf 0x22 = pre.length := by
      rw [e, List.indexOf_append_of_not_mem hn, List.indexOf_cons_self]
      rfl
    have hlen : text.length = pre.length + post.length + 1 := by
      rw [e]
      simp only [List.length_append, List.length_cons]
      omega
    have hrev : text.reverse = post.reverse ++ 0x22 :: pre.reverse := by
      rw [e]
      simp
    have hcount : text.count 0x22 = 1 + post.count 0x22 := by
      rw [e, List.count_append, List.count_cons_self, List.count_eq_zero_of_not_mem hn]
      omega
    have hp : strchr text 0x22 = some pre.length := by
      unfold strchr
      rw [hfirst, if_pos (by omega)]
    by_cases hpost : 0x22 ∈ post
    · have hr : text.reverse.indexOf 0x22 < post.length := by
        rw [hrev, List.indexOf_append_of_mem (List.mem_reverse.mpr hpost)]
        have := List.indexOf_lt_length.mpr (List.mem_reverse.mpr hpost)
        simpa using this
      have hq : strrchr text 0x22 = some (text.length - 1 - text.reverse.indexOf 0x22) := by
        unfold strrchr
        rw [if_pos (by omega)]
      have hc : 0 < post.count 0x22 := List.count_pos_iff.mpr hpost
      unfold quoted
      rw [hp, hq]
      dsimp only
      rw [if_pos (by omega)]
      constructor
      · intro h
        exact absurd h (by simp)
      · intro h
        omega
    · have hr : text.reverse.indexOf 0x22 = post.length := by
        rw [hrev, List.indexOf_append_of_not_mem (fun h => hpost (List.mem_reverse.mp h)),
          List.indexOf_cons_self]
        simp
      have hq : strrchr text 0x22 = some pre.length := by
        unfold strrchr
        rw [hr, if_pos (by omega)]
        congr 1
        omega
      have hc : post.count 0x22 = 0 := List.count_eq_zero_of_not_mem hpost
      unfold quoted
      rw [hp, hq]
      dsimp only
      rw [if_neg (by omega)]
      constructor
      · intro _
        omega
      · intro _
        rfl
  · have hidx : ¬ text.indexOf 0x22 < text.length := fun h => hm (List.indexOf_lt_length.mp h)
    have hp : strchr text 0x22 = none := by
      unfold strchr
      rw [if_neg hidx]
    have hc : text.count 0x22 = 0 := List.count_eq_zero_of_not_mem hm
    unfold quoted
    rw [hp]
    constructor
    · intro _
      omega
    · intro _
      rfl

theorem poDirective_ps_none (st : PoParse) (text : List Nat) (hps : st.ps = none)
    (h : opensLiteral text = false) : (poDirective st text).ps = none := by
  simp only [opensLiteral, Bool.or_eq_false_iff] at h
  have h1 : EatPrefix text "msgid " = none := by
    cases he : EatPrefix text "msgid " with
    | none => rfl
    | some p => rw [he] at h; simp at h
  have h2 : EatPrefix text "msgstr " = none := by
    cases he : EatPrefix text "msgstr " with
    | none => rfl
    | some p => rw [he] at h; simp at h
  unfold poDirective
  rw [h1, h2]
  repeat' split
  all_goals first
    | exact hps
    | (rename_i heq; exact absurd heq (by simp))

/-- Lines that open no literal, read while no literal is open, end no record. -/
theorem poLoop_refs (w : World) :
    ∀ (refs : List (List Nat)) (st : PoParse), st.ps = none →
      (∀ b ∈ refs, opensLiteral (cstr b) = false) →
      ∃ st1, poLoop w refs st = some st1 ∧ st1.ps = none ∧
        st1.m_strarray = st.m_strarray ∧ st1.checks = st.checks := by
  intro refs
  induction refs with
  | nil => intro st hps _; exact ⟨st, rfl, hps, rfl, rfl⟩
  | cons b rest ih =>
    intro st hps h
    have hd := poDirective_ps_none st (cstr b) hps (h b (List.mem_cons_self _ _))
    rcases poStep_cases w st b with ⟨hend, _⟩ | ⟨_, st1, hs, h1, h2, _, _, _, h6⟩
    · simp [endsRecord, hd] at hend
    · obtain ⟨st2, hr, hp2, ha2, hc2⟩ := ih st1 (h6.mpr hd)
        (fun b1 hb1 => h b1 (List.mem_cons_of_mem _ hb1))
      exact ⟨st2, by simp [poLoop, hs, hr], hp2, by rw [ha2, h1], by rw [hc2, h2]⟩

/-- Lines with two double quotes end no record. -/
theorem poLoop_lits (w : World) :
    ∀ (lits : List (List Nat)) (st : PoParse), (∀ b ∈ lits, quoted (cstr b) ≠ none) →
      ∃ st1, poLoop w lits st = some st1 ∧
        st1.m_strarray = st.m_strarray ∧ st1.checks = st.checks := by
  intro lits
  induction lits with
  | nil => intro st _; exact ⟨st, rfl, rfl, rfl⟩
  | cons b rest ih =>
    intro st h
    have hq := h b (List.mem_cons_self _ _)
    rcases poStep_cases w st b with ⟨hend, _⟩ | ⟨_, st1, hs, h1, h2, _⟩
    · simp only [endsRecord, Bool.and_eq_true, Option.isNone_iff_eq_none] at hend
      exact absurd hend.2 hq
    · obtain ⟨st2, hr, ha2, hc2⟩ := ih st1 (fun b1 hb1 => h b1 (List.mem_cons_of_mem _ hb1))
      exact ⟨st2, by simp [poLoop, hs, hr], by rw [ha2, h1], by rw [hc2, h2]⟩

/-- Counterexample to claim C21: the catalog `demoUnterminatedSecond` ends with the line
`msgstr "Salut"` of its last entry, which refers to line 10. The load succeeds and the
last entry is not applied (its reference line and its `msgstr` are still pending at the
holds `Bonjour`, which the entry before has put there. -/
theorem LoadResourceDLL_unterminated_keeps_earlier :
    (fgetsAll 1024 demoUnterminatedSecond []).getLast? = some (quotedLine "msgstr" "Salut") ∧
    templateArray (demoWorld 5 demoUnterminatedSecond demoGermanBad) = some demoTemplateArray ∧
    demoTemplateArray[10]? = some (bytes "Hello") ∧
    (catalogRun (demoWorld 5 demoUnterminatedSecond demoGermanBad) demoPath).map
      (fun po => (po.ps, po.lines, po.msgid, po.msgstr, po.checks.length)) =
      some (some Target.msgstr, [10], bytes "Hello", bytes "Salut", 1) ∧
    (CLanguageSelect.LoadResourceDLL (demoWorld 5 demoUnterminatedSecond demoGermanBad)
        (some demoPath)
        (CLanguageSelect.init (demoWorld 5 demoUnterminatedSecond demoGermanBad) 1252)).map
      (fun r => (r.1, r.2.m_strarray[10]?)) = some (true, some (bytes "Bonjour")) ∧
    bytes "Bonjour" ≠ bytes "Hello" := by
  decide

/-- Claim C21 as amended. A step of the second loop that does not end a record leaves the
array and the comparisons as they are; a step that ends a record (a literal is open and
the line has no two double quotes, which is a line with one double quote or none) is the
commit of the entry: every collected reference line is compared, the entry is closed, and
a reference line holds the decoded translation when no bad reference is counted.
Consequently, when the strings of the catalog after the last end of record are lines that
open no literal followed by lines with two double quotes, as for a file that ends with
the `msgstr "..."` line of its last entry, that entry is not applied: after a successful
load the array is the one the loop had before the entry, and every line to which no
committed entry refers holds the source text of the template. -/
theorem LoadResourceDLL_unterminated_entry (w : World) (name : List Nat)
    (s s1 : CLanguageSelect) (pre refs lits : List (List Nat)) (a : List (List Nat))
    (st0 : PoParse)
    (hload : CLanguageSelect.LoadResourceDLL w (some name) s = some (true, s1))
    (hfile : (w.fopen name).map (fun f => fgetsAll 1024 f []) = some (pre ++ (refs ++ lits)))
    (ha : templateArray w = some a)
    (hpre : poLoop w pre (poInit a) = some st0)
    (hclosed : st0.ps = none)
    (hrefs : ∀ b ∈ refs, opensLiteral (cstr b) = false)
    (hlits : ∀ b ∈ lits, quoted (cstr b) ≠ none) :
    (∀ st buf st1, poStep w st buf = some st1 → endsRecord st buf = false →
      st1.m_strarray = st.m_strarray ∧ st1.checks = st.checks) ∧
    (∀ st buf, endsRecord st buf = true →
      poStep w st buf = poCommit w (poDirective st (cstr buf))) ∧
    (∀ st st1, poCommit w st = some st1 →
      st1.checks.map Check.line = st.checks.map Check.line ++ st.lines ∧
      st1.ps = none ∧ st1.lines = [] ∧
      ∀ k ∈ st.lines, st1.badrefs = st.badrefs →
        ∃ d, unslash w.IsDBCSLeadByteEx st.m_codepage st.translation = some d ∧
          st1.m_strarray[k]? = some d) ∧
    (∀ text : List Nat, quoted text = none ↔ text.count 0x22 ≤ 1) ∧
    (∃ po, catalogRun w name = some po ∧ po.checks = st0.checks ∧
      s1.m_strarray = st0.m_strarray ∧
      ∀ k v, (∀ c ∈ st0.checks, c.line ≠ k) → a[k]? = some v → s1.m_strarray[k]? = some v) := by
  refine ⟨?_, ?_, ?_, quoted_eq_none_iff, ?_⟩
  · intro st buf st1 hstep hend
    rcases poStep_cases w st buf with ⟨hend1, _⟩ | ⟨_, st2, hs, h1, h2, _⟩
    · rw [hend] at hend1
      exact absurd hend1 (by simp)
    · rw [hstep] at hs
      simp only [Option.some.injEq] at hs
      subst hs
      exact ⟨h1, h2⟩
  · intro st buf hend
    rcases poStep_cases w st buf with ⟨_, hc⟩ | ⟨hend1, _⟩
    · exact hc
    · rw [hend] at hend1
      exact absurd hend1 (by simp)
  · intro st st1 hc
    obtain ⟨new, e, ln, _⟩ := poCommit_frame w 0 st st1 hc
    refine ⟨by rw [e, List.map_append, ln], ?_, ?_, ?_⟩
    · unfold poCommit at hc
      dsimp only at hc
      split at hc
      · exact absurd hc (by simp)
      · split at hc
        · exact absurd hc (by simp)
        · simp only [Option.some.injEq] at hc
          rw [← hc]
    · unfold poCommit at hc
      dsimp only at hc
      split at hc
      · exact absurd hc (by simp)
      · split at hc
        · exact absurd hc (by simp)
        · simp only [Option.some.injEq] at hc
          rw [← hc]
    · intro k hk hb
      exact poCommit_holds w k st st1 hc hb hk
  · obtain ⟨n, po, hn, _, _, _, hrun, _, hs1⟩ := LoadResourceDLL_true_spec w _ s s1 hload
    cases hn
    have hrun0 := hrun
    unfold catalogRun at hrun
    rw [ha] at hrun
    dsimp only at hrun
    cases hf : w.fopen name with
    | none => rw [hf] at hrun; simp at hrun
    | some f =>
      rw [hf] at hfile hrun
      simp only [Option.map_some', Option.some.injEq] at hfile
      dsimp only at hrun
      obtain ⟨st1, hr1, hp1, ha1, hc1⟩ := poLoop_refs w refs st0 hclosed hrefs
      obtain ⟨st2, hr2, ha2, hc2⟩ := poLoop_lits w lits st1 hlits
      rw [hfile, poLoop_append, hpre, Option.some_bind, poLoop_append, hr1, Option.some_bind,
        hr2] at hrun
      simp only [Option.some.injEq] at hrun
      subst hrun
      have harr : s1.m_strarray = st0.m_strarray := by
        rw [hs1]
        show st2.m_strarray = st0.m_strarray
        rw [ha2, ha1]
      refine ⟨st2, hrun0, by rw [hc2, hc1], harr, ?_⟩
      intro k v hno hv
      obtain ⟨new, e, fr⟩ := poLoop_frame w k pre (poInit a) st0 hpre
      have e1 : st0.checks = new := by
        rw [e]
        rfl
      rw [harr]
      exact fr (fun c hc => hno c (by rw [e1]; exact hc)) v hv

/-- Witness of claim C21 as amended: the catalog `demoUnterminated` ends with the line
`msgstr "Bonjour"` of its entry for line 10; after the load line 10 holds `Hello`. -/
theorem LoadResourceDLL_unterminated_entry_witness :
    ∃ po, catalogRun (demoWorld 5 demoUnterminated demoGermanBad) demoPath = some po ∧
      po.checks = (poInit demoTemplateArray).checks ∧
      ({ CLanguageSelect.init (demoWorld 5 demoUnterminated demoGermanBad) 1252 with
          m_hCurrentDll := 5, m_strarray := demoTemplateArray, m_codepage := 0,
          resourceHandle := 5 } : CLanguageSelect).m_strarray =
        (poInit demoTemplateArray).m_strarray ∧
      ∀ k v, (∀ c ∈ (poInit demoTemplateArray).checks, c.line ≠ k) →
        demoTemplateArray[k]? = some v →
        ({ CLanguageSelect.init (demoWorld 5 demoUnterminated demoGermanBad) 1252 with
            m_hCurrentDll := 5, m_strarray := demoTemplateArray, m_codepage := 0,
            resourceHandle := 5 } : CLanguageSelect).m_strarray[k]? = some v :=
  (LoadResourceDLL_unterminated_entry (demoWorld 5 demoUnterminated demoGermanBad) demoPath
    (CLanguageSelect.init (demoWorld 5 demoUnterminated demoGermanBad) 1252)
    { CLanguageSelect.init (demoWorld 5 demoUnterminated demoGermanBad) 1252 with
        m_hCurrentDll := 5, m_strarray := demoTemplateArray, m_codepage := 0,
        resourceHandle := 5 }
    ((fgetsAll 1024 demoUnterminated []).take 3) [textLine "#: file:10"]
    [quotedLine "msgid" "Hello", quotedLine "msgstr" "Bonjour"] demoTemplateArray
    (poInit demoTemplateArray)
    (by decide) (by decide) (by decide) (by decide) (by decide) (by decide) (by decide)).2.2.2.2

/-! ## The module handle after a failed load -/

/-- A failed `LoadResourceDLL` leaves a module loaded on one path only: the one where
`MergeLang.dll` has no `MERGEPOT` resource, where the handle is that of `MergeLang.dll`. -/
theorem LoadResourceDLL_false_handle (w : World) (name : Option (List Nat))
    (s s1 : CLanguageSelect)
    (h : CLanguageSelect.LoadResourceDLL w name s = some (false, s1))
    (hne : s1.m_hCurrentDll ≠ 0) :
    w.mergepot = none ∧ s1.m_hCurrentDll = w.mergeLangDll ∧ s1.m_strarray = [] := by
  cases name with
  | none =>
    rw [LoadResourceDLL_null] at h
    simp only [Option.some.injEq, Prod.mk.injEq, true_and] at h
    subst h
    exact absurd rfl hne
  | some n =>
    by_cases hname : cstr n = []
    · unfold CLanguageSelect.LoadResourceDLL at h
      by_cases h0 : s.m_hCurrentDll = 0 <;>
        (simp [h0, hname, CLanguageSelect.FreeCurrentDll] at h
         subst h
         simp at hne)
    · have hs := LoadResourceDLL_false_spec w n s s1 hname h
      have hp : w.mergepot = none := by
        by_contra hc
        exact hne (hs.2.2.2.2.2.2.2 hc)
      refine ⟨hp, ?_⟩
      unfold CLanguageSelect.LoadResourceDLL at h
      by_cases hd : w.mergeLangDll = 0
      · by_cases h0 : s.m_hCurrentDll = 0 <;>
          (simp [h0, hname, hd, CLanguageSelect.FreeCurrentDll] at h
           subst h
           simp at hne)
      · by_cases hv : w.instanceVer.1 ≠ w.resourceVer.1 ∨ w.instanceVer.2 ≠ w.resourceVer.2
        · by_cases h0 : s.m_hCurrentDll = 0 <;>
            (simp [h0, hname, hd, hv, CLanguageSelect.FreeCurrentDll] at h
             subst h
             simp at hne)
        · by_cases h0 : s.m_hCurrentDll = 0 <;>
            (simp [h0, hname, hd, hv, hp, CLanguageSelect.FreeCurrentDll] at h
             subst h
             simp)

/-- Claim C22 fails on the code: when `MergeLang.dll` loads with the right version but
has no `MERGEPOT` resource, `LoadResourceDLL` returns `FALSE` and keeps the handle of
`MergeLang.dll` in `m_hCurrentDll`, without `FreeLibrary`; in the example the handle is 5
and nothing has been freed. `SetLanguage` then returns `FALSE` with the default language
current and the module loaded. On every other path that returns `FALSE` the handle is
null: a failed load that leaves a handle is the one without `MERGEPOT`. -/
theorem LoadResourceDLL_keeps_module :
    CLanguageSelect.LoadResourceDLL demoNoTemplate (some demoPath)
        (CLanguageSelect.init demoNoTemplate 1252) =
      some (false, { CLanguageSelect.init demoNoTemplate 1252 with
        m_hCurrentDll := 5, m_codepage := 0 }) ∧
    ((CLanguageSelect.SetLanguage demoNoTemplate demoFrenchId true
        (CLanguageSelect.init demoNoTemplate 1252)).map
      (fun r => (r.1, r.2.m_wCurLanguage, r.2.m_hCurrentDll, r.2.freed))) =
      some (false, wSourceLangId, 5, []) ∧
    (∀ (w : World) (name : Option (List Nat)) (s s1 : CLanguageSelect),
      CLanguageSelect.LoadResourceDLL w name s = some (false, s1) → s1.m_hCurrentDll ≠ 0 →
      w.mergepot = none ∧ s1.m_hCurrentDll = w.mergeLangDll ∧ s1.m_strarray = []) ∧
    (∀ (w : World) (name : Option (List Nat)) (s s1 : CLanguageSelect),
      CLanguageSelect.LoadResourceDLL w name s = some (false, s1) → w.mergepot ≠ none →
      s1.m_hCurrentDll = 0) := by
  refine ⟨by decide, by decide, LoadResourceDLL_false_handle, ?_⟩
  intro w name s s1 h hp
  by_contra hne
  exact hp (LoadResourceDLL_false_handle w name s s1 h hne).1

/-! ## Records as the files have them -/

theorem pushReference_append (p : List Nat) (acc : List Nat) :
    pushReference p acc = acc ++ pushReference p [] := by
  unfold pushReference
  split <;> simp

theorem referenceLinesFrom_append (bufs : List (List Nat)) :
    ∀ acc : List Nat, referenceLinesFrom acc bufs = acc ++ referenceLines bufs := by
  induction bufs with
  | nil => intro acc; simp [referenceLinesFrom, referenceLines]
  | cons b rest ih =>
    intro acc
    unfold referenceLines
    simp only [referenceLinesFrom]
    cases hp : EatPrefix (cstr b) "#:" with
    | none =>
      dsimp only
      rw [ih acc]
      rfl
    | some p =>
      dsimp only
      rw [ih (pushReference p acc), ih (pushReference p []), pushReference_append p acc,
        List.append_assoc]

theorem potDirective_lines (st : PotParse) (text : List Nat) :
    (potDirective st text).lines =
        (match EatPrefix text "#:" with
          | some p => pushReference p st.lines
          | none => st.lines) ∧
      (potDirective st text).msgid = st.msgid ∧
      (potDirective st text).m_strarray = st.m_strarray := by
  unfold potDirective
  cases EatPrefix text "#:" with
  | some p => exact ⟨rfl, rfl, rfl⟩
  | none =>
    dsimp only
    cases EatPrefix text "msgid " with
    | some q => exact ⟨rfl, rfl, rfl⟩
    | none => exact ⟨rfl, rfl, rfl⟩

theorem potDirective_ps (st : PotParse) (text : List Nat) :
    (potDirective st text).ps =
      (st.ps || ((EatPrefix text "#:").isNone && (EatPrefix text "msgid ").isSome)) := by
  unfold potDirective
  cases EatPrefix text "#:" with
  | some p => simp
  | none =>
    dsimp only
    cases EatPrefix text "msgid " with
    | some q => simp
    | none => simp

/-- Lines that do not start with `msgid `, read while no literal is open, only add
reference lines. -/
theorem potLoop_refs :
    ∀ (refs : List (List Nat)) (st : PotParse), st.ps = false →
      (∀ b ∈ refs, EatPrefix (cstr b) "msgid " = none) →
      ∃ st1, potLoop refs st = some st1 ∧ st1.ps = false ∧ st1.msgid = st.msgid ∧
        st1.lines = referenceLinesFrom st.lines refs ∧ st1.m_strarray = st.m_strarray := by
  intro refs
  induction refs with
  | nil => intro st hps _; exact ⟨st, rfl, hps, rfl, rfl, rfl⟩
  | cons b rest ih =>
    intro st hps h
    have hb := h b (List.mem_cons_self _ _)
    have hd := potDirective_lines st (cstr b)
    have hp : (potDirective st (cstr b)).ps = false := by
      rw [potDirective_ps, hps, hb]
      simp
    obtain ⟨st2, hr, h1, h2, h3, h4⟩ := ih (potDirective st (cstr b)) hp
      (fun b1 hb1 => h b1 (List.mem_cons_of_mem _ hb1))
    refine ⟨st2, ?_, h1, by rw [h2, hd.2.1], ?_, by rw [h4, hd.2.2]⟩
    · simp only [potLoop, potStep, hp, Bool.false_eq_true, if_false]
      exact hr
    · rw [h3, hd.1]
      simp only [referenceLinesFrom]
      cases EatPrefix (cstr b) "#:" <;> rfl

theorem potStep_append (st : PotParse) (b part : List Nat)
    (hp : (potDirective st (cstr b)).ps = true) (hq : quoted (cstr b) = some part) :
    ∃ st2, potStep st b = some st2 ∧ st2.ps = true ∧
      st2.msgid = (potDirective st (cstr b)).msgid ++ part ∧
      st2.lines = (potDirective st (cstr b)).lines ∧
      st2.m_strarray = (potDirective st (cstr b)).m_strarray := by
  refine ⟨{ potDirective st (cstr b) with msgid := (potDirective st (cstr b)).msgid ++ part },
    ?_, hp, rfl, rfl, rfl⟩
  unfold potStep
  dsimp only
  rw [if_pos hp, hq]

/-- Lines with two double quotes and no `#:` prefix, read while a literal is open, add
the bytes between their quotes to `msgid`. -/
theorem potLoop_lits :
    ∀ (lits : List (List Nat)) (st : PotParse), st.ps = true →
      (∀ b ∈ lits, EatPrefix (cstr b) "#:" = none ∧ quoted (cstr b) ≠ none) →
      ∃ st1, potLoop lits st = some st1 ∧ st1.ps = true ∧
        st1.msgid = st.msgid ++ literalText lits ∧ st1.lines = st.lines ∧
        st1.m_strarray = st.m_strarray := by
  intro lits
  induction lits with
  | nil => intro st hps _; exact ⟨st, rfl, hps, by simp [literalText], rfl, rfl⟩
  | cons b rest ih =>
    intro st hps h
    obtain ⟨hb1, hb2⟩ := h b (List.mem_cons_self _ _)
    obtain ⟨part, hq⟩ := Option.ne_none_iff_exists'.mp hb2
    have hd := potDirective_lines st (cstr b)
    have hp : (potDirective st (cstr b)).ps = true := by
      rw [potDirective_ps, hps]
      simp
    rw [hb1] at hd
    obtain ⟨st2, hs2, q1, q2, q3, q4⟩ := potStep_append st b part hp hq
    obtain ⟨st3, hr, h1, h2, h3, h4⟩ := ih st2 q1
      (fun b1 hb1 => h b1 (List.mem_cons_of_mem _ hb1))
    refine ⟨st3, ?_, h1, ?_, by rw [h3, q3]; exact hd.1, by rw [h4, q4]; exact hd.2.2⟩
    · simp only [potLoop, hs2]
      exact hr
    · rw [h2, q2, hd.2.1]
      simp [literalText, hq]

/-- What the loop `for (pline ...)` of the first loop leaves: a collected line holds
`msgid`, any other line what it held. -/
theorem potAssign_sets (msgid : List Nat) (k : Nat) :
    ∀ (lines : List Nat) (a a1 : List (List Nat)), potAssign msgid lines a = some a1 →
      (k ∈ lines → a1[k]? = some msgid) ∧
      (k ∉ lines → ∀ v, a[k]? = some v → a1[k]? = some v) ∧
      (a[k]? = some msgid → a1[k]? = some msgid) := by
  intro lines
  induction lines with
  | nil =>
    intro a a1 h
    simp only [potAssign, Option.some.injEq] at h
    subst h
    exact ⟨fun hk => absurd hk (by simp), fun _ v hv => hv, fun hv => hv⟩
  | cons line rest ih =>
    intro a a1 h
    unfold potAssign at h
    dsimp only at h
    split at h
    · rename_i hlt
      have hg : (growTo a line)[line]? = some ((growTo a line)[line]) :=
        List.getElem?_eq_getElem hlt
      have hgrow := growTo_getElem hg
      obtain ⟨i1, i2, i3⟩ := ih _ _ h
      have keep : ∀ v, a[k]? = some v → line ≠ k →
          ((growTo a line).set line msgid)[k]? = some v := by
        intro v hv hne
        have hkl : k < a.length := by
          by_contra hc
          rw [List.getElem?_eq_none (by omega)] at hv
          exact absurd hv (by simp)
        rw [List.getElem?_set_ne hne, hgrow.2 k hkl]
        exact hv
      have same : ((growTo a line).set line msgid)[line]? = some msgid :=
        List.getElem?_set_self hlt
      refine ⟨?_, ?_, ?_⟩
      · intro hk
        by_cases hkr : k ∈ rest
        · exact i1 hkr
        · have : k = line := by
            simp only [List.mem_cons] at hk
            rcases hk with hk | hk
            · exact hk
            · exact absurd hk hkr
          subst this
          exact i3 same
      · intro hk v hv
        simp only [List.mem_cons, not_or] at hk
        exact i2 hk.2 v (keep v hv (fun e => hk.1 e.symm))
      · intro hv
        by_cases hkl : line = k
        · subst hkl
          exact i3 same
        · exact i3 (keep msgid hv hkl)
    · exact absurd h (by simp)

/-- Lines that name no reference to `k` leave the string of line `k` as it is. -/
theorem potLoop_untouched (k : Nat) :
    ∀ (post : List (List Nat)) (st pot : PotParse), potLoop post st = some pot →
      k ∉ referenceLinesFrom st.lines post →
      ∀ v, st.m_strarray[k]? = some v → pot.m_strarray[k]? = some v := by
  intro post
  induction post with
  | nil =>
    intro st pot h _ v hv
    simp only [potLoop, Option.some.injEq] at h
    subst h
    exact hv
  | cons b rest ih =>
    intro st pot h hk v hv
    have hd := potDirective_lines st (cstr b)
    have hk1 : k ∉ referenceLinesFrom (potDirective st (cstr b)).lines rest := by
      rw [hd.1]
      simp only [referenceLinesFrom] at hk
      cases hp : EatPrefix (cstr b) "#:" with
      | none => rw [hp] at hk; exact hk
      | some p => rw [hp] at hk; exact hk
    have hk2 : k ∉ (potDirective st (cstr b)).lines ∧ k ∉ referenceLinesFrom [] rest := by
      rw [referenceLinesFrom_append] at hk1
      simp only [List.mem_append, not_or] at hk1
      exact hk1
    unfold potLoop at h
    cases hs : potStep st b with
    | none => rw [hs] at h; simp at h
    | some st2 =>
      rw [hs] at h
      dsimp only at h
      unfold potStep at hs
      dsimp only at hs
      by_cases hp : (potDirective st (cstr b)).ps = true
      · rw [if_pos hp] at hs
        cases hq : quoted (cstr b) with
        | some part =>
          rw [hq] at hs
          simp only [Option.some.injEq] at hs
          subst hs
          exact ih _ pot h hk1 v (by show (potDirective st (cstr b)).m_strarray[k]? = some v
                                     rw [hd.2.2]; exact hv)
        | none =>
          rw [hq] at hs
          dsimp only at hs
          cases hasg : potAssign (potDirective st (cstr b)).msgid
              (potDirective st (cstr b)).lines (potDirective st (cstr b)).m_strarray with
          | none => rw [hasg] at hs; simp at hs
          | some a1 =>
            rw [hasg] at hs
            simp only [Option.some.injEq] at hs
            subst hs
            have := (potAssign_sets _ k _ _ _ hasg).2.1 hk2.1 v (by rw [hd.2.2]; exact hv)
            exact ih _ pot h hk2.2 v this
      · rw [if_neg hp] at hs
        simp only [Option.some.injEq] at hs
        subst hs
        exact ih _ pot h hk1 v (by rw [hd.2.2]; exact hv)

/-- While no literal is open in the first loop, `msgid` is empty. -/
theorem potLoop_closed :
    ∀ (bufs : List (List Nat)) (st st1 : PotParse), potLoop bufs st = some st1 →
      (st.ps = false → st.msgid = []) → st1.ps = false → st1.msgid = [] := by
  intro bufs
  induction bufs with
  | nil =>
    intro st st1 h hinv hps
    simp only [potLoop, Option.some.injEq] at h
    subst h
    exact hinv hps
  | cons b rest ih =>
    intro st st1 h hinv hps
    unfold potLoop at h
    cases hs : potStep st b with
    | none => rw [hs] at h; simp at h
    | some st2 =>
      rw [hs] at h
      dsimp only at h
      refine ih st2 st1 h ?_ hps
      intro hps2
      have hd := potDirective_lines st (cstr b)
      unfold potStep at hs
      dsimp only at hs
      by_cases hp : (potDirective st (cstr b)).ps = true
      · rw [if_pos hp] at hs
        cases hq : quoted (cstr b) with
        | some part =>
          rw [hq] at hs
          simp only [Option.some.injEq] at hs
          subst hs
          rw [hp] at hps2
          exact absurd hps2 (by simp)
        | none =>
          rw [hq] at hs
          dsimp only at hs
          cases hasg : potAssign (potDirective st (cstr b)).msgid
              (potDirective st (cstr b)).lines (potDirective st (cstr b)).m_strarray with
          | none => rw [hasg] at hs; simp at hs
          | some a1 =>
            rw [hasg] at hs
            simp only [Option.some.injEq] at hs
            subst hs
            rfl
      · rw [if_neg hp] at hs
        simp only [Option.some.injEq] at hs
        subst hs
        rw [hd.2.1]
        apply hinv
        have := potDirective_ps st (cstr b)
        rw [this] at hp
        cases hst : st.ps with
        | false => rfl
        | true => rw [hst] at hp; simp at hp

/-- The string the first loop leaves for a line named by a record of the template: the
text written between the quotes of the `msgid` lines of the record, byte for byte. -/
theorem templateArray_record (w : World) (a : List (List Nat)) (k : Nat) (data : List Nat)
    (tpre trefs : List (List Nat)) (tmid : List Nat) (tconts tms : List (List Nat))
    (tend : List Nat) (tpost : List (List Nat)) (pt0 : PotParse)
    (ha : templateArray w = some a) (hdata : w.mergepot = some data)
    (hsplit : templateLines 1024 data [] =
      tpre ++ (trefs ++ tmid :: (tconts ++ tms) ++ [tend]) ++ tpost)
    (hpre : potLoop tpre potInit = some pt0) (hps : pt0.ps = false)
    (hrec : isTemplateRecord trefs tmid tconts tms tend = true)
    (hms : literalText tms = [])
    (hk : k ∈ referenceLines trefs) (hpost : k ∉ referenceLines tpost) :
    a[k]? = some (literalText (tmid :: tconts)) := by
  simp only [isTemplateRecord, Bool.and_eq_true, List.all_eq_true, Option.isNone_iff_eq_none,
    Option.isSome_iff_exists, List.mem_cons, forall_eq_or_imp] at hrec
  obtain ⟨⟨⟨⟨hrefs, ⟨q0, hmid⟩⟩, ⟨hmid1, ⟨part0, hq0⟩⟩, hl⟩, hend1⟩, hend2⟩ := hrec
  unfold templateArray at ha
  rw [hdata] at ha
  dsimp only at ha
  cases hrun : potLoop (templateLines 1024 data [])
      { ps := false, msgid := [], lines := [], m_strarray := [] } with
  | none => rw [hrun] at ha; simp at ha
  | some pot =>
    rw [hrun] at ha
    simp only [Option.map_some', Option.some.injEq] at ha
    subst ha
    have hrun1 : potLoop (templateLines 1024 data []) potInit = some pot := hrun
    have hmsg0 : pt0.msgid = [] := potLoop_closed tpre potInit pt0 hpre (fun _ => rfl) hps
    -- the reference lines
    obtain ⟨st1, hr1, p1, m1, l1, a1⟩ := potLoop_refs trefs pt0 hps hrefs
    -- the line that opens the literal
    have hd := potDirective_lines st1 (cstr tmid)
    have hp2 : (potDirective st1 (cstr tmid)).ps = true := by
      rw [potDirective_ps, hmid1, hmid]
      simp
    rw [hmid1] at hd
    obtain ⟨st2, hstep2, p2, m2, l2, a2⟩ := potStep_append st1 tmid part0 hp2 hq0
    -- the rest of the literal
    obtain ⟨st3, hr3, p3, m3, l3, a3⟩ := potLoop_lits (tconts ++ tms) st2 p2
      (fun b hb => by
        obtain ⟨h1, ⟨p, h2⟩⟩ := hl b hb
        exact ⟨h1, by rw [h2]; simp⟩)
    -- the end of the record
    have hd4 := potDirective_lines st3 (cstr tend)
    have hp4 : (potDirective st3 (cstr tend)).ps = true := by
      rw [potDirective_ps, p3]
      simp
    rw [hend1] at hd4
    have hlist : templateLines 1024 data [] =
        tpre ++ (trefs ++ (tmid :: ((tconts ++ tms) ++ (tend :: tpost)))) := by
      rw [hsplit]
      simp
    rw [hlist, potLoop_append, hpre, Option.some_bind, potLoop_append, hr1, Option.some_bind,
      potLoop, hstep2] at hrun1
    dsimp only at hrun1
    rw [potLoop_append, hr3, Option.some_bind, potLoop] at hrun1
    unfold potStep at hrun1
    dsimp only at hrun1
    rw [if_pos hp4, hend2] at hrun1
    dsimp only at hrun1
    cases hasg : potAssign (potDirective st3 (cstr tend)).msgid
        (potDirective st3 (cstr tend)).lines (potDirective st3 (cstr tend)).m_strarray with
    | none => rw [hasg] at hrun1; simp at hrun1
    | some a4 =>
      rw [hasg] at hrun1
      dsimp only at hrun1
      have hlines : k ∈ (potDirective st3 (cstr tend)).lines := by
        rw [hd4.1, l3, l2, hd.1, l1, referenceLinesFrom_append]
        exact List.mem_append_right _ hk
      have hmsgid : (potDirective st3 (cstr tend)).msgid = literalText (tmid :: tconts) := by
        rw [hd4.2.1, m3, m2, hd.2.1, m1, hmsg0]
        have e1 : literalText (tconts ++ tms) = literalText tconts ++ literalText tms := by
          simp [literalText]
        have e2 : literalText (tmid :: tconts) = part0 ++ literalText tconts := by
          simp [literalText, hq0]
        rw [e1, e2, hms]
        simp
      have hset := (potAssign_sets _ k _ _ _ hasg).1 hlines
      rw [hmsgid] at hset
      exact potLoop_untouched k tpost _ pot hrun1 (by
        show k ∉ referenceLinesFrom [] tpost
        exact hpost) _ hset

theorem committedRefs_cons (buf : List Nat) (rest : List (List Nat)) (ps : Option Target)
    (lines : List Nat) :
    committedRefs (buf :: rest) ps lines =
      if (poDirective { poInit [] with ps := ps, lines := lines } (cstr buf)).ps.isSome &&
          (quoted (cstr buf)).isNone
      then (poDirective { poInit [] with ps := ps, lines := lines } (cstr buf)).lines ++
        committedRefs rest none []
      else committedRefs rest
        (poDirective { poInit [] with ps := ps, lines := lines } (cstr buf)).ps
        (poDirective { poInit [] with ps := ps, lines := lines } (cstr buf)).lines := rfl

theorem poDirective_core (st : PoParse) (text : List Nat) :
    (poDirective st text).msgid = st.msgid ∧ (poDirective st text).msgstr = st.msgstr ∧
      (poDirective st text).lines =
        (match EatPrefix text "#:" with
          | some p => pushReference p st.lines
          | none => st.lines) := by
  unfold poDirective
  cases EatPrefix text "#:" with
  | some p => exact ⟨rfl, rfl, rfl⟩
  | none =>
    dsimp only
    cases EatPrefix text "#," with
    | some p => exact ⟨rfl, rfl, rfl⟩
    | none =>
      dsimp only
      cases EatPrefix text "#." with
      | some p => exact ⟨rfl, rfl, rfl⟩
      | none =>
        dsimp only
        cases EatPrefix text "msgid " with
        | some p => exact ⟨rfl, rfl, rfl⟩
        | none =>
          dsimp only
          cases EatPrefix text "msgstr " with
          | some p => exact ⟨rfl, rfl, rfl⟩
          | none => exact ⟨rfl, rfl, rfl⟩

theorem poDirective_ps_of (st : PoParse) (text : List Nat) :
    (opensLiteral text = false → (poDirective st text).ps = st.ps) ∧
      (startsMsgid text = true → (poDirective st text).ps = some Target.msgid) ∧
      (startsMsgstr text = true → (poDirective st text).ps = some Target.msgstr) := by
  unfold poDirective opensLiteral startsMsgid startsMsgstr
  cases EatPrefix text "#:" <;> cases EatPrefix text "#," <;> cases EatPrefix text "#." <;>
    cases EatPrefix text "msgid " <;> cases EatPrefix text "msgstr " <;> simp

theorem isContinuation_spec {text : List Nat} (h : isContinuation text = true) :
    opensLiteral text = false ∧ EatPrefix text "#:" = none := by
  unfold isContinuation at h
  unfold opensLiteral
  cases h1 : EatPrefix text "#:" <;> cases h2 : EatPrefix text "msgid " <;>
    cases h3 : EatPrefix text "msgstr " <;> simp [h1, h2, h3] at h ⊢

theorem poDirective_ps_lines (st st1 : PoParse) (text : List Nat) (hp : st.ps = st1.ps)
    (hl : st.lines = st1.lines) :
    (poDirective st text).ps = (poDirective st1 text).ps ∧
      (poDirective st text).lines = (poDirective st1 text).lines := by
  unfold poDirective
  cases EatPrefix text "#:" <;> cases EatPrefix text "#," <;> cases EatPrefix text "#." <;>
    cases EatPrefix text "msgid " <;> cases EatPrefix text "msgstr " <;> simp [hp, hl]

/-- A step of the second loop that does not end a record: the pointer and the lines are
those after the directive, the bytes between the quotes go to the string the pointer
designates, and nothing else of what the loop computes changes. -/
theorem poStep_quiet (w : World) (st : PoParse) (buf : List Nat)
    (h : endsRecord st buf = false) :
    ∃ st1, poStep w st buf = some st1 ∧ st1.ps = (poDirective st (cstr buf)).ps ∧
      st1.lines = (poDirective st (cstr buf)).lines ∧ st1.badrefs = st.badrefs ∧
      st1.m_strarray = st.m_strarray ∧ st1.m_codepage = st.m_codepage ∧
      st1.checks = st.checks ∧
      st1.msgid = (if (poDirective st (cstr buf)).ps = some Target.msgid
        then st.msgid ++ (quoted (cstr buf)).getD [] else st.msgid) ∧
      st1.msgstr = (if (poDirective st (cstr buf)).ps = some Target.msgstr
        then st.msgstr ++ (quoted (cstr buf)).getD [] else st.msgstr) := by
  have hd := poDirective_fields st (cstr buf)
  have hc := poDirective_core st (cstr buf)
  unfold endsRecord at h
  unfold poStep
  dsimp only
  cases hp : (poDirective st (cstr buf)).ps with
  | none =>
    exact ⟨_, rfl, hp, rfl, hd.1, hd.2.2.1, hd.2.2.2, hd.2.1, by simp [hc.1], by simp [hc.2.1]⟩
  | some t =>
    cases hq : quoted (cstr buf) with
    | none => rw [hp, hq] at h; simp at h
    | some part =>
      cases t with
      | msgid =>
        exact ⟨_, rfl, rfl, rfl, hd.1, hd.2.2.1, hd.2.2.2, hd.2.1, by simp [hc.1],
          by simp [hc.2.1]⟩
      | msgstr =>
        exact ⟨_, rfl, rfl, rfl, hd.1, hd.2.2.1, hd.2.2.2, hd.2.1, by simp [hc.1],
          by simp [hc.2.1]⟩

/-- What a commit leaves of the local variables: the entry is closed. -/
theorem poCommit_closed (w : World) (st st1 : PoParse) (h : poCommit w st = some st1) :
    st1.ps = none ∧ st1.lines = [] ∧ st1.msgid = [] ∧ st1.msgstr = [] := by
  unfold poCommit at h
  dsimp only at h
  split at h
  · exact absurd h (by simp)
  · split at h
    · exact absurd h (by simp)
    · simp only [Option.some.injEq] at h
      rw [← h]
      exact ⟨rfl, rfl, rfl, rfl⟩

/-- The lines of the comparisons of a run of the second loop are the reference lines of
the entries it commits. -/
theorem poLoop_checks (w : World) :
    ∀ (bufs : List (List Nat)) (st po : PoParse), poLoop w bufs st = some po →
      po.checks.map Check.line = st.checks.map Check.line ++ committedRefs bufs st.ps st.lines := by
  intro bufs
  induction bufs with
  | nil =>
    intro st po h
    simp only [poLoop, Option.some.injEq] at h
    subst h
    simp [committedRefs]
  | cons buf rest ih =>
    intro st po h
    have hpl := poDirective_ps_lines st { poInit [] with ps := st.ps, lines := st.lines }
      (cstr buf) rfl rfl
    unfold poLoop at h
    cases hs : poStep w st buf with
    | none => rw [hs] at h; simp at h
    | some st2 =>
      rw [hs] at h
      dsimp only at h
      have := ih st2 po h
      rw [this]
      rw [committedRefs_cons, ← hpl.1, ← hpl.2]
      by_cases hend : endsRecord st buf = true
      · have hend1 := hend
        unfold endsRecord at hend1
        rw [if_pos hend1]
        rcases poStep_cases w st buf with ⟨_, hc⟩ | ⟨hf, _⟩
        · rw [hs] at hc
          obtain ⟨new, e, ln, _⟩ := poCommit_frame w 0 _ st2 hc.symm
          obtain ⟨c1, c2, _, _⟩ := poCommit_closed w _ st2 hc.symm
          rw [e, (poDirective_fields st (cstr buf)).2.1, c1, c2, List.map_append, ln,
            List.append_assoc]
        · rw [hend] at hf
          exact absurd hf (by simp)
      · have hend0 : endsRecord st buf = false := by
          cases he : endsRecord st buf with
          | false => rfl
          | true => exact absurd he hend
        have hend1 := hend0
        unfold endsRecord at hend1
        rw [if_neg (by rw [hend1]; simp)]
        obtain ⟨st3, hs3, q1, q2, _, _, _, q6, _, _⟩ := poStep_quiet w st buf hend0
        rw [hs] at hs3
        simp only [Option.some.injEq] at hs3
        subst hs3
        rw [q6, q1, q2]

/-- While no literal is open in the second loop, `msgid` and `msgstr` are empty. -/
theorem poLoop_closed (w : World) :
    ∀ (bufs : List (List Nat)) (st st1 : PoParse), poLoop w bufs st = some st1 →
      (st.ps = none → st.msgid = [] ∧ st.msgstr = []) → st1.ps = none →
      st1.msgid = [] ∧ st1.msgstr = [] := by
  intro bufs
  induction bufs with
  | nil =>
    intro st st1 h hinv hps
    simp only [poLoop, Option.some.injEq] at h
    subst h
    exact hinv hps
  | cons b rest ih =>
    intro st st1 h hinv hps
    unfold poLoop at h
    cases hs : poStep w st b with
    | none => rw [hs] at h; simp at h
    | some st2 =>
      rw [hs] at h
      dsimp only at h
      refine ih st2 st1 h ?_ hps
      intro hps2
      by_cases hend : endsRecord st b = true
      · rcases poStep_cases w st b with ⟨_, hc⟩ | ⟨hf, _⟩
        · rw [hs] at hc
          exact (poCommit_closed w _ st2 hc.symm).2.2
        · rw [hend] at hf
          exact absurd hf (by simp)
      · have hend0 : endsRecord st b = false := by
          cases he : endsRecord st b with
          | false => rfl
          | true => exact absurd he hend
        obtain ⟨st3, hs3, q1, _, _, _, _, _, q7, q8⟩ := poStep_quiet w st b hend0
        rw [hs] at hs3
        simp only [Option.some.injEq] at hs3
        subst hs3
        rw [hps2] at q1
        rw [← q1] at q7 q8
        simp only [reduceCtorEq, if_false] at q7 q8
        -- the directive sets `ps` or keeps it, so `ps` was not set before
        have hst : st.ps = none := by
          have q1s : (poDirective st (cstr b)).ps = none := q1.symm
          unfold poDirective at q1s
          revert q1s
          cases EatPrefix (cstr b) "#:" <;> cases EatPrefix (cstr b) "#," <;>
            cases EatPrefix (cstr b) "#." <;> cases EatPrefix (cstr b) "msgid " <;>
            cases EatPrefix (cstr b) "msgstr " <;> simp
        rw [q7, q8]
        exact hinv hst

/-- Lines that open no literal, read by the second loop while no literal is open, only
add reference lines (and set `format` and `directive`). -/
theorem poLoop_comments (w : World) :
    ∀ (refs : List (List Nat)) (st : PoParse), st.ps = none →
      (∀ b ∈ refs, opensLiteral (cstr b) = false) →
      ∃ st1, poLoop w refs st = some st1 ∧ st1.ps = none ∧
        st1.lines = referenceLinesFrom st.lines refs ∧ st1.msgid = st.msgid ∧
        st1.msgstr = st.msgstr ∧ st1.badrefs = st.badrefs ∧
        st1.m_strarray = st.m_strarray ∧ st1.m_codepage = st.m_codepage ∧
        st1.checks = st.checks := by
  intro refs
  induction refs with
  | nil => intro st hps _; exact ⟨st, rfl, hps, rfl, rfl, rfl, rfl, rfl, rfl, rfl⟩
  | cons b rest ih =>
    intro st hps h
    have ho := h b (List.mem_cons_self _ _)
    have hdps : (poDirective st (cstr b)).ps = none := by
      rw [(poDirective_ps_of st (cstr b)).1 ho, hps]
    have hend : endsRecord st b = false := by
      unfold endsRecord
      rw [hdps]
      rfl
    obtain ⟨st2, hs, q1, q2, q3, q4, q5, q6, q7, q8⟩ := poStep_quiet w st b hend
    rw [hdps] at q1 q7 q8
    simp only [reduceCtorEq, if_false] at q7 q8
    obtain ⟨st3, hr, r1, r2, r3, r4, r5, r6, r7, r8⟩ := ih st2 q1
      (fun b1 hb1 => h b1 (List.mem_cons_of_mem _ hb1))
    refine ⟨st3, ?_, r1, ?_, by rw [r3, q7], by rw [r4, q8], by rw [r5, q3], by rw [r6, q4],
      by rw [r7, q5], by rw [r8, q6]⟩
    · rw [poLoop, hs]
      exact hr
    · rw [r2, q2, (poDirective_core st (cstr b)).2.2]
      simp only [referenceLinesFrom]
      cases EatPrefix (cstr b) "#:" <;> rfl

/-- Lines with two double quotes and none of the five prefixes, read by the second loop
while a literal is open, add the bytes between their quotes to the string `ps`
designates. -/
theorem poLoop_conts (w : World) (t : Target) :
    ∀ (conts : List (List Nat)) (st : PoParse), st.ps = some t →
      (∀ b ∈ conts, isContinuation (cstr b) = true) →
      (∀ b ∈ conts, (quoted (cstr b)).isSome = true) →
      ∃ st1, poLoop w conts st = some st1 ∧ st1.ps = some t ∧ st1.lines = st.lines ∧
        st1.msgid = (if t = Target.msgid then st.msgid ++ literalText conts else st.msgid) ∧
        st1.msgstr = (if t = Target.msgstr then st.msgstr ++ literalText conts
          else st.msgstr) ∧
        st1.badrefs = st.badrefs ∧ st1.m_strarray = st.m_strarray ∧
        st1.m_codepage = st.m_codepage ∧ st1.checks = st.checks := by
  intro conts
  induction conts with
  | nil =>
    intro st hps _ _
    exact ⟨st, rfl, hps, rfl, by simp [literalText], by simp [literalText], rfl, rfl, rfl, rfl⟩
  | cons b rest ih =>
    intro st hps h hq
    obtain ⟨ho, hno⟩ := isContinuation_spec (h b (List.mem_cons_self _ _))
    have hqb := hq b (List.mem_cons_self _ _)
    have hdps : (poDirective st (cstr b)).ps = some t := by
      rw [(poDirective_ps_of st (cstr b)).1 ho, hps]
    have hend : endsRecord st b = false := by
      unfold endsRecord
      rw [hdps]
      cases hqq : quoted (cstr b) with
      | none => rw [hqq] at hqb; simp at hqb
      | some part => rfl
    obtain ⟨st2, hs, q1, q2, q3, q4, q5, q6, q7, q8⟩ := poStep_quiet w st b hend
    rw [hdps] at q1 q7 q8
    have hl : st2.lines = st.lines := by
      rw [q2, (poDirective_core st (cstr b)).2.2, hno]
    obtain ⟨st3, hr, r1, r2, r3, r4, r5, r6, r7, r8⟩ := ih st2 q1
      (fun b1 hb1 => h b1 (List.mem_cons_of_mem _ hb1))
      (fun b1 hb1 => hq b1 (List.mem_cons_of_mem _ hb1))
    have hlit : literalText (b :: rest) = (quoted (cstr b)).getD [] ++ literalText rest := by
      simp [literalText]
    refine ⟨st3, ?_, r1, by rw [r2, hl], ?_, ?_, by rw [r5, q3], by rw [r6, q4],
      by rw [r7, q5], by rw [r8, q6]⟩
    · rw [poLoop, hs]
      exact hr
    · rw [r3, q7, hlit]
      cases t <;> simp
    · rw [r4, q8, hlit]
      cases t <;> simp

/-- An entry of the catalog read by the second loop from a state with no open literal:
when the run ends without bad reference and no entry committed after this one refers to
the line `k` of the entry, the array holds at `k` the decoded translation of the entry. -/
theorem poLoop_record (w : World) (k : Nat) (st0 po : PoParse)
    (crefs : List (List Nat)) (cmid : List Nat) (cmidconts : List (List Nat)) (cms : List Nat)
    (cmsconts : List (List Nat)) (cend : List Nat) (cpost : List (List Nat))
    (hps : st0.ps = none) (hclosed : st0.msgid = [] ∧ st0.msgstr = [])
    (hrec : isCatalogRecord crefs cmid cmidconts cms cmsconts cend = true)
    (hrun : poLoop w (crefs ++ (cmid :: (cmidconts ++ (cms :: (cmsconts ++ (cend :: cpost))))))
      st0 = some po)
    (hbad : po.badrefs = 0)
    (hk : k ∈ referenceLines crefs) (hpost : k ∉ committedRefs cpost none []) :
    ∃ d, unslash w.IsDBCSLeadByteEx st0.m_codepage
        (if (literalText (cms :: cmsconts)).isEmpty then literalText (cmid :: cmidconts)
          else literalText (cms :: cmsconts)) = some d ∧
      po.m_strarray[k]? = some d := by
  unfold isCatalogRecord at hrec
  simp only [Bool.and_eq_true, List.all_eq_true, Bool.not_eq_true', List.mem_cons,
    List.mem_append] at hrec
  obtain ⟨⟨⟨⟨⟨⟨⟨hrefs, hmid⟩, hmidconts⟩, hms⟩, hmsconts⟩, hquo⟩, hfin⟩, hfinq⟩ := hrec
  -- the reference lines and comments
  obtain ⟨st1, hr1, a1, a2, a3, a4, a5, a6, a7, a8⟩ := poLoop_comments w crefs st0 hps hrefs
  -- the msgid line
  have hd2 : (poDirective st1 (cstr cmid)).ps = some Target.msgid :=
    (poDirective_ps_of st1 (cstr cmid)).2.1 hmid
  have hq2 := hquo cmid (Or.inl rfl)
  have hend2 : endsRecord st1 cmid = false := by
    unfold endsRecord
    rw [hd2]
    cases hqq : quoted (cstr cmid) with
    | none => rw [hqq] at hq2; simp at hq2
    | some part => rfl
  obtain ⟨st2, hs2, b1, b2, b3, b4, b5, b6, b7, b8⟩ := poStep_quiet w st1 cmid hend2
  rw [hd2] at b1 b7 b8
  simp only [reduceCtorEq, if_true, if_false] at b7 b8
  have hnomid : EatPrefix (cstr cmid) "#:" = none := by
    unfold startsMsgid at hmid
    cases hx : EatPrefix (cstr cmid) "#:" with
    | none => rfl
    | some p => rw [hx] at hmid; simp at hmid
  have b2s : st2.lines = st1.lines := by
    rw [b2, (poDirective_core st1 (cstr cmid)).2.2, hnomid]
  -- the continuation lines of the msgid
  obtain ⟨st3, hr3, c1, c2, c3, c4, c5, c6, c7, c8⟩ := poLoop_conts w Target.msgid cmidconts st2 b1
    hmidconts (fun b hb => hquo b (Or.inr (Or.inl hb)))
  simp only [reduceCtorEq, if_true, if_false] at c3 c4
  -- the msgstr line
  have hd4 : (poDirective st3 (cstr cms)).ps = some Target.msgstr :=
    (poDirective_ps_of st3 (cstr cms)).2.2 hms
  have hq4 := hquo cms (Or.inr (Or.inr (Or.inl rfl)))
  have hend4 : endsRecord st3 cms = false := by
    unfold endsRecord
    rw [hd4]
    cases hqq : quoted (cstr cms) with
    | none => rw [hqq] at hq4; simp at hq4
    | some part => rfl
  obtain ⟨st4, hs4, d1, d2, d3, d4, d5, d6, d7, d8⟩ := poStep_quiet w st3 cms hend4
  rw [hd4] at d1 d7 d8
  simp only [reduceCtorEq, if_true, if_false] at d7 d8
  have hnoms : EatPrefix (cstr cms) "#:" = none := by
    unfold startsMsgstr at hms
    cases hx : EatPrefix (cstr cms) "#:" with
    | none => rfl
    | some p => rw [hx] at hms; simp at hms
  have d2s : st4.lines = st3.lines := by
    rw [d2, (poDirective_core st3 (cstr cms)).2.2, hnoms]
  -- the continuation lines of the msgstr
  obtain ⟨st5, hr5, e1, e2, e3, e4, e5, e6, e7, e8⟩ := poLoop_conts w Target.msgstr cmsconts st4 d1
    hmsconts (fun b hb => hquo b (Or.inr (Or.inr (Or.inr hb))))
  simp only [reduceCtorEq, if_true, if_false] at e3 e4
  -- the line that ends the record
  obtain ⟨ho6, hno6⟩ := isContinuation_spec hfin
  have hd6 : (poDirective st5 (cstr cend)).ps = some Target.msgstr := by
    rw [(poDirective_ps_of st5 (cstr cend)).1 ho6, e1]
  have hqe : quoted (cstr cend) = none := by
    cases hqq : quoted (cstr cend) with
    | none => rfl
    | some part => rw [hqq] at hfinq; simp at hfinq
  have hstep6 : poStep w st5 cend = poCommit w (poDirective st5 (cstr cend)) := by
    unfold poStep
    dsimp only
    rw [hd6, hqe]
  -- the run, piece by piece
  rw [poLoop_append, hr1, Option.some_bind, poLoop, hs2] at hrun
  dsimp only at hrun
  rw [poLoop_append, hr3, Option.some_bind, poLoop, hs4] at hrun
  dsimp only at hrun
  rw [poLoop_append, hr5, Option.some_bind, poLoop, hstep6] at hrun
  cases hc : poCommit w (poDirective st5 (cstr cend)) with
  | none => rw [hc] at hrun; simp at hrun
  | some st6 =>
    rw [hc] at hrun
    dsimp only at hrun
    have hf := poDirective_fields st5 (cstr cend)
    have hcore := poDirective_core st5 (cstr cend)
    have hm1 := poCommit_mono w _ st6 hc
    have hm2 := poLoop_mono w cpost st6 po hrun
    have hlines : (poDirective st5 (cstr cend)).lines = referenceLinesFrom st0.lines crefs := by
      rw [hcore.2.2, hno6, e2, d2s, c2, b2s, a2]
    have hkl : k ∈ (poDirective st5 (cstr cend)).lines := by
      rw [hlines, referenceLinesFrom_append]
      exact List.mem_append_right _ hk
    obtain ⟨d, hd, harr⟩ := poCommit_holds w k _ st6 hc (by omega) hkl
    have hmsgid : (poDirective st5 (cstr cend)).msgid = literalText (cmid :: cmidconts) := by
      rw [hcore.1, e3, d7, c3, b7, a3, hclosed.1]
      simp [literalText]
    have hmsgstr : (poDirective st5 (cstr cend)).msgstr = literalText (cms :: cmsconts) := by
      rw [hcore.2.1, e4, d8, c4, b8, a4, hclosed.2]
      simp [literalText]
    have hcp : (poDirective st5 (cstr cend)).m_codepage = st0.m_codepage := by
      rw [hf.2.2.2, e7, d5, c7, b5, a7]
    refine ⟨d, ?_, ?_⟩
    · rw [← hd, hcp]
      unfold PoParse.translation
      rw [hmsgid, hmsgstr]
    · obtain ⟨c1x, c2x, _, _⟩ := poCommit_closed w _ st6 hc
      obtain ⟨new, hnew, hkeep⟩ := poLoop_frame w k cpost st6 po hrun
      have hchk := poLoop_checks w cpost st6 po hrun
      rw [hnew, List.map_append, c1x, c2x] at hchk
      have hnl : new.map Check.line = committedRefs cpost none [] :=
        List.append_cancel_left hchk
      refine hkeep ?_ d harr
      intro c hcmem hck
      apply hpost
      rw [← hnl, ← hck]
      exact List.mem_map_of_mem _ hcmem

/-! ## Strings given by `TranslateString` after a load -/

/-- Claim C23: after a successful load, `TranslateString` gives for a line `k > 0` either
the text of the template as it is written or the decoded translation. First part: when
the template has a record with a reference to `k` (lines `trefs`, the `msgid` line `tmid`
with its continuation lines `tconts`, `msgstr` lines `tms` with empty literals, and the
line `tend` that ends the record), no later line of the template refers to `k`, and no
entry that the second loop commits refers to `k`, then the load returns true and
`TranslateString` returns true with the bytes between the quotes of the `msgid` lines of
the template, unchanged: no escape sequence is decoded. Second part: when the catalog has
an entry with a reference to `k` (lines `crefs`, the `msgid` line with continuation
lines, the `msgstr` line with continuation lines, and the line `cend` that ends the
record) and no entry committed after it refers to `k`, then `TranslateString` returns
true with the result of `unslash` on the `msgstr` text, or on the `msgid` text when the
`msgstr` text is empty. -/
theorem TranslateString_of_records (w : World) (name : List Nat) (s : CLanguageSelect) (k : Nat)
    (hk : 0 < k)
    (hload : (CLanguageSelect.LoadResourceDLL w (some name) s).map (fun r => r.1) = some true) :
    (∀ (data : List Nat) (tpre trefs : List (List Nat)) (tmid : List Nat)
        (tconts tms : List (List Nat)) (tend : List Nat) (tpost : List (List Nat))
        (pt0 : PotParse) (bufs : List (List Nat)),
      w.mergepot = some data →
      templateLines 1024 data [] =
        tpre ++ (trefs ++ tmid :: (tconts ++ tms) ++ [tend]) ++ tpost →
      potLoop tpre potInit = some pt0 → pt0.ps = false →
      isTemplateRecord trefs tmid tconts tms tend = true → literalText tms = [] →
      k ∈ referenceLines trefs → k ∉ referenceLines tpost →
      (w.fopen name).map (fun f => fgetsAll 1024 f []) = some bufs →
      k ∉ committedRefs bufs none [] →
      (CLanguageSelect.LoadResourceDLL w (some name) s).map
          (fun r => (r.1, r.2.TranslateString k)) =
        some (true, some (literalText (tmid :: tconts)))) ∧
    (∀ (a : List (List Nat)) (cpre crefs : List (List Nat)) (cmid : List Nat)
        (cmidconts : List (List Nat)) (cms : List Nat) (cmsconts : List (List Nat))
        (cend : List Nat) (cpost : List (List Nat)) (st0 : PoParse),
      templateArray w = some a →
      (w.fopen name).map (fun f => fgetsAll 1024 f []) =
        some (cpre ++ (crefs ++ cmid :: cmidconts ++ cms :: cmsconts ++ [cend]) ++ cpost) →
      poLoop w cpre (poInit a) = some st0 → st0.ps = none →
      isCatalogRecord crefs cmid cmidconts cms cmsconts cend = true →
      k ∈ referenceLines crefs → k ∉ committedRefs cpost none [] →
      ∃ d, unslash w.IsDBCSLeadByteEx st0.m_codepage
          (if (literalText (cms :: cmsconts)).isEmpty then literalText (cmid :: cmidconts)
            else literalText (cms :: cmsconts)) = some d ∧
        (CLanguageSelect.LoadResourceDLL w (some name) s).map
            (fun r => (r.1, r.2.TranslateString k)) = some (true, some d)) := by
  obtain ⟨s1, hs1⟩ : ∃ s1, CLanguageSelect.LoadResourceDLL w (some name) s = some (true, s1) := by
    cases hl : CLanguageSelect.LoadResourceDLL w (some name) s with
    | none => rw [hl] at hload; simp at hload
    | some r =>
      rw [hl] at hload
      simp only [Option.map_some', Option.some.injEq] at hload
      exact ⟨r.2, by rw [← hload]⟩
  obtain ⟨n, po, hn, _, _, _, hrun, hbad, hs1eq⟩ := LoadResourceDLL_true_spec w _ s s1 hs1
  cases hn
  have harr : s1.m_strarray = po.m_strarray := by rw [hs1eq]
  have translate : ∀ d, po.m_strarray[k]? = some d →
      (CLanguageSelect.LoadResourceDLL w (some name) s).map
        (fun r => (r.1, r.2.TranslateString k)) = some (true, some d) := by
    intro d hd
    have hlt : k < po.m_strarray.length := by
      by_contra hc
      rw [List.getElem?_eq_none (by omega)] at hd
      exact absurd hd (by simp)
    rw [hs1]
    simp only [Option.map_some', Option.some.injEq, Prod.mk.injEq, true_and]
    unfold CLanguageSelect.TranslateString
    rw [harr, if_pos ⟨hk, hlt⟩]
    exact hd
  have hrun0 := hrun
  unfold catalogRun at hrun
  cases hta : templateArray w with
  | none => rw [hta] at hrun; simp at hrun
  | some a0 =>
    rw [hta] at hrun
    dsimp only at hrun
    cases hf : w.fopen name with
    | none => rw [hf] at hrun; simp at hrun
    | some f =>
      rw [hf] at hrun
      dsimp only at hrun
      refine ⟨?_, ?_⟩
      · intro data tpre trefs tmid tconts tms tend tpost pt0 bufs hdata hsplit hpre hps hrec
          hms hkr hpost hfile hno
        have hv := templateArray_record w a0 k data tpre trefs tmid tconts tms tend tpost pt0
          hta hdata hsplit hpre hps hrec hms hkr hpost
        simp only [Option.map_some', Option.some.injEq] at hfile
        have hchk := poLoop_checks w _ _ po hrun
        rw [hfile] at hchk
        have hno2 : ∀ c ∈ po.checks, c.line ≠ k := by
          intro c hc hck
          apply hno
          have hm : c.line ∈ po.checks.map Check.line := List.mem_map_of_mem _ hc
          rw [hchk, hck] at hm
          simpa [poInit] using hm
        exact translate _ (catalogRun_untouched w name a0 po k _ hta hrun0 hno2 hv)
      · intro a cpre crefs cmid cmidconts cms cmsconts cend cpost st0 ha hfile hpre hps hrec
          hkr hpost
        simp only [Option.some.injEq] at ha
        subst ha
        simp only [Option.map_some', Option.some.injEq] at hfile
        have hlist : fgetsAll 1024 f [] =
            cpre ++ (crefs ++ (cmid :: (cmidconts ++ (cms :: (cmsconts ++ (cend :: cpost)))))) := by
          rw [hfile]
          simp
        rw [hlist, poLoop_append, hpre, Option.some_bind] at hrun
        have hclosed := poLoop_closed w cpre (poInit a0) st0 hpre
          (fun _ => ⟨rfl, rfl⟩) hps
        obtain ⟨d, hd, hget⟩ := poLoop_record w k st0 po crefs cmid cmidconts cms cmsconts cend
          cpost hps hclosed hrec hrun hbad hkr hpost
        exact ⟨d, hd, translate d hget⟩

/-- Witness of claim C23: the template gives line 10 the source text `A\tB`, written
with a backslash and the letter `t`. After the load of a catalog with no entry for line
10, `TranslateString` gives these four bytes; after the load of a catalog that translates
line 10 to `C\tD`, it gives the three bytes `C`, tab, `D`. -/
theorem TranslateString_of_records_witness :
    (CLanguageSelect.LoadResourceDLL (demoEscapeWorld demoHeader) (some demoPath)
        (CLanguageSelect.init (demoEscapeWorld demoHeader) 1252)).map
      (fun r => (r.1, r.2.TranslateString 10)) = some (true, some [0x41, 0x5C, 0x74, 0x42]) ∧
    (CLanguageSelect.LoadResourceDLL (demoEscapeWorld demoFrenchEscape) (some demoPath)
        (CLanguageSelect.init (demoEscapeWorld demoFrenchEscape) 1252)).map
      (fun r => (r.1, r.2.TranslateString 10)) = some (true, some [0x43, 0x09, 0x44]) :=
  ⟨(TranslateString_of_records (demoEscapeWorld demoHeader) demoPath
      (CLanguageSelect.init (demoEscapeWorld demoHeader) 1252) 10 (by decide) (by decide)).1
      demoTemplateEscape [] [bytes "#: Merge.rc:10"] (quotedLine "msgid" "A\\tB").dropLast []
      [(quotedLine "msgstr" "").dropLast] [] [] potInit (fgetsAll 1024 demoHeader [])
      (by decide) (by decide) (by decide) (by decide) (by decide) (by decide) (by decide)
      (by decide) (by decide) (by decide),
   Exists.elim
    ((TranslateString_of_records (demoEscapeWorld demoFrenchEscape) demoPath
      (CLanguageSelect.init (demoEscapeWorld demoFrenchEscape) 1252) 10 (by decide)
      (by decide)).2
      [[], [], [], [], [], [], [], [], [], [], [0x41, 0x5C, 0x74, 0x42]]
      [quotedLine "msgid" "LANG_ENGLISH, SUBLANG_ENGLISH_US",
        quotedLine "msgstr" "LANG_FRENCH, SUBLANG_FRENCH", textLine ""]
      [textLine "#: file:10"] (quotedLine "msgid" "A\\tB") [] (quotedLine "msgstr" "C\\tD") []
      (textLine "") []
      { poInit [[], [], [], [], [], [], [], [], [], [], [0x41, 0x5C, 0x74, 0x42]] with
        checks := [] }
      (by decide) (by decide) (by decide) (by decide) (by decide) (by decide) (by decide))
    (fun d hd => by
      have h2 : d = [0x43, 0x09, 0x44] := by
        have h3 := hd.1
        have h4 : unslash (demoEscapeWorld demoFrenchEscape).IsDBCSLeadByteEx 0
            (bytes "C\\tD") = some [0x43, 0x09, 0x44] := by decide
        exact Option.some.inj (h3.symm.trans h4)
      rw [← h2]
      exact hd.2)⟩

/-! ## Positions of `unslash` -/

theorem isLeadByte_iff (lead : Nat → Nat → Bool) (cp c : Nat) :
    ((c &&& 0x80) ≠ 0 ∧ lead cp c = true) ↔ isLeadByte lead cp c = true := by
  simp [isLeadByte]

theorem okBuf_suffix {lead : Nat → Nat → Bool} {cp : Nat} {q q1 : List Nat}
    (h : okBuf lead cp q) (hs : q1 <:+ q) (hne : q1 ≠ []) : okBuf lead cp q1 := by
  obtain ⟨pre0, rfl⟩ := hs
  refine ⟨?_, ?_⟩
  · have := h.1
    rw [List.getLast?_append_of_ne_nil _ hne] at this
    exact this
  · intro pre L rest e hl
    exact h.2 (pre0 ++ pre) L rest (by rw [e, List.append_assoc]) hl

theorem okBuf_cons {lead : Nat → Nat → Bool} {cp c : Nat} {r : List Nat}
    (h : okBuf lead cp (c :: r)) (hc : c ≠ 0) : r ≠ [] ∧ okBuf lead cp r := by
  have hr : r ≠ [] := by
    intro e
    subst e
    have := h.1
    simp only [List.getLast?_singleton, Option.some.injEq] at this
    exact hc this
  exact ⟨hr, okBuf_suffix h (List.suffix_cons c r) hr⟩

theorem takeWhile_length_lt {p : Nat → Bool} :
    ∀ (l : List Nat) (a : Nat), l.getLast? = some a → p a = false →
      (l.takeWhile p).length < l.length := by
  intro l
  induction l with
  | nil => intro a h; simp at h
  | cons b t ih =>
    intro a h hp
    rw [List.takeWhile_cons]
    by_cases hb : p b = true
    · rw [if_pos hb]
      cases t with
      | nil =>
        simp only [List.getLast?_singleton, Option.some.injEq] at h
        subst h
        rw [hb] at hp
        exact absurd hp (by simp)
      | cons b1 t1 =>
        rw [List.getLast?_cons_cons] at h
        have := ih a h hp
        simp only [List.length_cons] at this ⊢
        omega
    · rw [if_neg hb]
      simp

theorem takeWhile_after_drops (l : List Nat) (a b : Nat) (p : Nat → Bool)
    (h : l.getLast? = some 0) (hp : p 0 = false)
    (hne : ¬ ((((l.dropWhile isspace).drop a).drop b).takeWhile p).isEmpty = true) :
    (l.takeWhile isspace).length + a + b +
      ((((l.dropWhile isspace).drop a).drop b).takeWhile p).length < l.length := by
  have hsplit : (l.takeWhile isspace).length + (l.dropWhile isspace).length = l.length := by
    rw [← List.length_append, List.takeWhile_append_dropWhile]
  have ht : ((l.dropWhile isspace).drop a).drop b ≠ [] := by
    intro e
    rw [e] at hne
    exact hne rfl
  have hlen : (((l.dropWhile isspace).drop a).drop b).length =
      (l.dropWhile isspace).length - a - b := by
    simp only [List.length_drop]
  have hpos : 0 < (((l.dropWhile isspace).drop a).drop b).length := List.length_pos.mpr ht
  have hsuf : ((l.dropWhile isspace).drop a).drop b <:+ l :=
    ((List.drop_suffix b _).trans (List.drop_suffix a _)).trans (List.dropWhile_suffix _)
  obtain ⟨pre, hpre⟩ := hsuf
  have hlast : (((l.dropWhile isspace).drop a).drop b).getLast? = some 0 := by
    have := h
    rw [← hpre, List.getLast?_append_of_ne_nil _ ht] at this
    exact this
  have := takeWhile_length_lt (((l.dropWhile isspace).drop a).drop b) 0 hlast hp
  omega

/-- The function `strtol` stops before the terminator: it consumes fewer bytes than a
buffer that ends with a NUL holds. -/
theorem strtol_consumed_lt (l : List Nat) (base : Nat) (hb : base ≤ 36)
    (h : l.getLast? = some 0) : (strtol l base).2 < l.length := by
  have hl : l ≠ [] := by
    intro e
    subst e
    simp at h
  have hpos : 0 < l.length := List.length_pos.mpr hl
  have hd0 : isDigitIn base 0 = false := by
    unfold isDigitIn digitVal
    simp only [decide_eq_false_iff_not]
    norm_num
    omega
  unfold strtol
  dsimp only
  split
  · exact hpos
  · rename_i hds
    dsimp only
    exact takeWhile_after_drops l _ _ _ h hd0 hds

/-- What one pass through the `default:` label gives: the result of an iteration that is
safe, relative to the buffer `r` it is entered with and a bound `n` on the read
positions. -/
theorem unslashDefault_safe (lead : Nat → Nat → Bool) (cp c : Nat) (r : List Nat)
    (hl : isLeadByte lead cp c = true → 2 ≤ r.length)
    (hn : isLeadByte lead cp c = false → c ≠ 0 → r ≠ []) :
    ∃ w o, unslashDefault lead cp c r = some (w, o) ∧
      match o with
      | none => w.length = 1
      | some q1 => q1 ≠ [] ∧ q1 <:+ r ∧ w.length + q1.length ≤ r.length + 1 := by
  unfold unslashDefault
  by_cases hc : isLeadByte lead cp c = true
  · rw [if_pos ((isLeadByte_iff lead cp c).mpr hc)]
    have h2 := hl hc
    have hc0 : c ≠ 0 := by
      intro e
      subst e
      simp [isLeadByte] at hc
    cases r with
    | nil => simp at h2
    | cons t r1 =>
      refine ⟨[c, t], some r1, by simp [hc0], ?_⟩
      simp only [List.length_cons] at h2
      refine ⟨?_, List.suffix_cons t r1, by simp only [List.length_cons, List.length_nil]; omega⟩
      intro e
      subst e
      simp at h2
  · rw [if_neg (fun h => hc ((isLeadByte_iff lead cp c).mp h))]
    by_cases hc0 : c = 0
    · exact ⟨[c], none, by simp [hc0], rfl⟩
    · refine ⟨[c], some r, by simp [hc0], ?_⟩
      exact ⟨hn (by simpa using hc) hc0, List.suffix_refl r,
        by simp only [List.length_cons, List.length_nil]; omega⟩

theorem unslashIter_safe (lead : Nat → Nat → Bool) (cp : Nat) (q : List Nat)
    (hq : okBuf lead cp q) :
    ∃ w o, unslashIter lead cp q = some (w, o) ∧
      match o with
      | none => w.length = 1
      | some q1 => q1 ≠ [] ∧ q1 <:+ q ∧ w.length + q1.length ≤ q.length := by
  have lift : ∀ (c : Nat) (r : List Nat), r <:+ q → r.length + 1 ≤ q.length →
      (isLeadByte lead cp c = true → 2 ≤ r.length) →
      (isLeadByte lead cp c = false → c ≠ 0 → r ≠ []) →
      ∃ w o, unslashDefault lead cp c r = some (w, o) ∧
        match o with
        | none => w.length = 1
        | some q1 => q1 ≠ [] ∧ q1 <:+ q ∧ w.length + q1.length ≤ q.length := by
    intro c r hs hlen hl hn
    obtain ⟨w, o, hd, ho⟩ := unslashDefault_safe lead cp c r hl hn
    refine ⟨w, o, hd, ?_⟩
    cases o with
    | none => exact ho
    | some q1 => exact ⟨ho.1, ho.2.1.trans hs, by have := ho.2.2; omega⟩
  have num : ∀ (v c1 : Nat) (l : List Nat) (base : Nat), base ≤ 36 → l <:+ q → l ≠ [] →
      l.length + 1 ≤ q.length → 0 < (strtol l base).2 →
      ∃ w o, some ([v], if c1 = 0 then none else some (l.drop (strtol l base).2)) = some (w, o) ∧
        match o with
        | none => w.length = 1
        | some q1 => q1 ≠ [] ∧ q1 <:+ q ∧ w.length + q1.length ≤ q.length := by
    intro v c1 l base hb hs hne hlen hk
    have hlast := (okBuf_suffix hq hs hne).1
    have hlt := strtol_consumed_lt l base hb hlast
    by_cases h0 : c1 = 0
    · exact ⟨[v], none, by simp [h0], rfl⟩
    · refine ⟨[v], some (l.drop (strtol l base).2), by simp [h0], ?_, ?_, ?_⟩
      · intro e
        have := congrArg List.length e
        simp only [List.length_drop, List.length_nil] at this
        omega
      · exact (List.drop_suffix _ _).trans hs
      · simp only [List.length_singleton, List.length_drop]
        omega
  have ctrl : ∀ c : Nat, c < 0x80 → isLeadByte lead cp c = false := by
    intro c hc
    simp [isLeadByte, and_0x80_of_lt hc]
  cases q with
  | nil =>
    have := hq.1
    simp at this
  | cons c r =>
    unfold unslashIter
    dsimp only
    by_cases hc : c = 0x5C
    · rw [if_pos hc]
      have hc0 : c ≠ 0 := by omega
      obtain ⟨hr, hrok⟩ := okBuf_cons hq hc0
      cases r with
      | nil => exact absurd rfl hr
      | cons c1 r1 =>
        dsimp only
        have hs1 : r1 <:+ c :: c1 :: r1 := (List.suffix_cons c1 r1).trans (List.suffix_cons c _)
        have hsr : c1 :: r1 <:+ c :: c1 :: r1 := List.suffix_cons c _
        -- a letter escape: the character is not the terminator, so `r1` is not empty
        have letter : ∀ v : Nat, v < 0x80 → c1 ≠ 0 →
            ∃ w o, unslashDefault lead cp v r1 = some (w, o) ∧
              match o with
              | none => w.length = 1
              | some q1 => q1 ≠ [] ∧ q1 <:+ c :: c1 :: r1 ∧
                  w.length + q1.length ≤ (c :: c1 :: r1).length := by
          intro v hv hc1
          have hr1 := (okBuf_cons hrok hc1).1
          refine lift v r1 hs1 (by simp) ?_ (fun _ _ => hr1)
          intro hl
          rw [ctrl v hv] at hl
          exact absurd hl (by simp)
        by_cases h1 : c1 = 0x61
        · rw [if_pos h1]; exact letter _ (by decide) (by omega)
        rw [if_neg h1]
        by_cases h2 : c1 = 0x62
        · rw [if_pos h2]; exact letter _ (by decide) (by omega)
        rw [if_neg h2]
        by_cases h3 : c1 = 0x66
        · rw [if_pos h3]; exact letter _ (by decide) (by omega)
        rw [if_neg h3]
        by_cases h4 : c1 = 0x6E
        · rw [if_pos h4]; exact letter _ (by decide) (by omega)
        rw [if_neg h4]
        by_cases h5 : c1 = 0x72
        · rw [if_pos h5]; exact letter _ (by decide) (by omega)
        rw [if_neg h5]
        by_cases h6 : c1 = 0x74
        · rw [if_pos h6]; exact letter _ (by decide) (by omega)
        rw [if_neg h6]
        by_cases h7 : c1 = 0x76
        · rw [if_pos h7]; exact letter _ (by decide) (by omega)
        rw [if_neg h7]
        by_cases h8 : c1 = 0x78
        · rw [if_pos h8]
          have hr1 := (okBuf_cons hrok (by omega : c1 ≠ 0)).1
          by_cases hk : 0 < (strtol r1 16).2
          · rw [if_pos hk]
            exact num _ c1 r1 16 (by decide) hs1 hr1 (by simp) hk
          · rw [if_neg hk]
            subst h8
            exact letter _ (by decide) (by decide)
        rw [if_neg h8]
        by_cases hk : 0 < (strtol (c1 :: r1) 8).2
        · rw [if_pos hk]
          exact num _ c1 (c1 :: r1) 8 (by decide) hsr (by simp) (by simp) hk
        · rw [if_neg hk]
          refine lift c1 (c1 :: r1) hsr (by simp) ?_ (fun _ _ => by simp)
          intro hl
          have hc1 : c1 ≠ 0 := by
            intro e
            subst e
            simp [isLeadByte] at hl
          have hr1 := (okBuf_cons hrok hc1).1
          have := List.length_pos.mpr hr1
          simp only [List.length_cons]
          omega
    · rw [if_neg hc]
      refine lift c r (List.suffix_cons c r) (by simp) ?_ ?_
      · intro hl
        exact hq.2 [] c r rfl hl
      · intro _ hc0
        exact (okBuf_cons hq hc0).1

/-- The loop of `unslash` on a buffer that satisfies `okBuf`: it ends, reads inside the
buffer, and writes no more bytes than the buffer holds. -/
theorem unslashLoop_safe (lead : Nat → Nat → Bool) (cp : Nat) :
    ∀ (n : Nat) (q : List Nat), okBuf lead cp q → q.length ≤ n →
      ∃ d, unslashLoop lead cp n q = some d ∧ d.length ≤ q.length := by
  intro n
  induction n with
  | zero =>
    intro q hq hn
    have : q = [] := List.length_eq_zero.mp (Nat.le_zero.mp hn)
    subst this
    have := hq.1
    simp at this
  | succ n ih =>
    intro q hq hn
    obtain ⟨w, o, hi, ho⟩ := unslashIter_safe lead cp q hq
    have hqpos : 0 < q.length := by
      apply List.length_pos.mpr
      intro e
      subst e
      have := hq.1
      simp at this
    have hw := (unslashIter_spec hi).1
    have hwpos : 0 < w.length := List.length_pos.mpr hw
    cases o with
    | none =>
      refine ⟨w, by simp [unslashLoop, hi], ?_⟩
      simp only at ho
      omega
    | some q1 =>
      simp only at ho
      obtain ⟨d1, hd1, hl1⟩ := ih q1 (okBuf_suffix hq ho.2.1 ho.1) (by omega)
      refine ⟨w ++ d1, by simp [unslashLoop, hi, hd1], ?_⟩
      simp only [List.length_append]
      omega

theorem unslashHeads_safe (lead : Nat → Nat → Bool) (cp : Nat) :
    ∀ (n : Nat) (q : List Nat) (p qpos : Nat), okBuf lead cp q → q.length ≤ n →
      ∃ hs, unslashHeads lead cp n q p qpos = some hs ∧
        ∀ h ∈ hs, h.1 + qpos ≤ h.2 + p ∧ qpos ≤ h.2 ∧ h.2 < qpos + q.length := by
  intro n
  induction n with
  | zero =>
    intro q p qpos hq hn
    have : q = [] := List.length_eq_zero.mp (Nat.le_zero.mp hn)
    subst this
    have := hq.1
    simp at this
  | succ n ih =>
    intro q p qpos hq hn
    obtain ⟨w, o, hi, ho⟩ := unslashIter_safe lead cp q hq
    have hqpos : 0 < q.length := by
      apply List.length_pos.mpr
      intro e
      subst e
      have := hq.1
      simp at this
    have hw := (unslashIter_spec hi).1
    have hwpos : 0 < w.length := List.length_pos.mpr hw
    cases o with
    | none =>
      refine ⟨[(p, qpos)], by simp [unslashHeads, hi], ?_⟩
      intro h hh
      simp only [List.mem_singleton] at hh
      subst hh
      simp only
      omega
    | some q1 =>
      simp only at ho
      obtain ⟨hs1, hh1, hp1⟩ := ih q1 (p + w.length) (qpos + (q.length - q1.length))
        (okBuf_suffix hq ho.2.1 ho.1) (by omega)
      refine ⟨(p, qpos) :: hs1, by simp [unslashHeads, hi, hh1], ?_⟩
      intro h hh
      simp only [List.mem_cons] at hh
      rcases hh with rfl | hh
      · simp only
        omega
      · have := hp1 h hh
        omega

/-- The loop of `unslash` stays inside a string in which every byte that passes the
lead-byte test, at whatever position, is followed by at least one more byte of the
string: the loop over `s` and its terminating NUL ends with a result, which means that no
byte is read past the terminator; at the start of every iteration the write position is
at or before the read position and the read position is at or before the terminator; and
the resulting string is no longer than `s`. -/
theorem unslash_safe_per_byte (lead : Nat → Nat → Bool) (cp : Nat) (s : List Nat)
    (hlead : ∀ (i : Nat) (h : i < s.length), isLeadByte lead cp s[i] = true →
      i + 1 < s.length) :
    ∃ d hs, unslash lead cp s = some d ∧ d.length ≤ s.length ∧
      unslashHeads lead cp (s.length + 1) (s ++ [0]) 0 0 = some hs ∧
      ∀ h ∈ hs, h.1 ≤ h.2 ∧ h.2 ≤ s.length := by
  have hok : okBuf lead cp (s ++ [0]) := by
    refine ⟨List.getLast?_concat s, ?_⟩
    intro pre L rest e hl
    by_cases hr : rest = []
    · subst hr
      have := congrArg List.getLast? e
      rw [List.getLast?_concat, List.getLast?_concat] at this
      simp only [Option.some.injEq] at this
      subst this
      simp [isLeadByte] at hl
    · obtain ⟨rest1, a, rfl⟩ : ∃ rest1 a, rest = rest1 ++ [a] :=
        ⟨rest.dropLast, rest.getLast hr, (List.dropLast_append_getLast hr).symm⟩
      have e1 : s ++ [0] = (pre ++ L :: rest1) ++ [a] := by
        rw [e]
        simp
      have hs : s = pre ++ L :: rest1 := List.append_inj_left' e1 rfl
      subst hs
      have hlt : pre.length < (pre ++ L :: rest1).length := by
        simp only [List.length_append, List.length_cons]
        omega
      have hi : (pre ++ L :: rest1)[pre.length] = L := List.getElem_of_append rfl rfl
      have := hlead pre.length hlt (by rw [hi]; exact hl)
      simp only [List.length_append, List.length_cons, List.length_singleton] at this
      simp only [List.length_append, List.length_singleton]
      omega
  obtain ⟨d, hd, hl⟩ := unslashLoop_safe lead cp (s.length + 1) (s ++ [0]) hok (by simp)
  obtain ⟨hs, hh, hp⟩ := unslashHeads_safe lead cp (s.length + 1) (s ++ [0]) 0 0 hok (by simp)
  refine ⟨d.dropLast, hs, by simp [unslash, hd], ?_, hh, ?_⟩
  · simp only [List.length_dropLast, List.length_append, List.length_singleton] at hl ⊢
    omega
  · intro h hmem
    have := hp h hmem
    simp only [List.length_append, List.length_singleton] at this
    omega

/-- In a codepage where 0x83 is a lead byte, the text made of 0x83, backslash, `n`,
backslash, `t` decodes within its five bytes. -/
theorem unslash_safe_per_byte_example :
    ∃ d hs, unslash (fun cp c => cp == 932 && c == 0x83) 932 [0x83, 0x5C, 0x6E, 0x5C, 0x74] =
        some d ∧ d.length ≤ [0x83, 0x5C, 0x6E, 0x5C, 0x74].length ∧
      unslashHeads (fun cp c => cp == 932 && c == 0x83) 932
        ([0x83, 0x5C, 0x6E, 0x5C, 0x74].length + 1) ([0x83, 0x5C, 0x6E, 0x5C, 0x74] ++ [0]) 0 0 =
        some hs ∧
      ∀ h ∈ hs, h.1 ≤ h.2 ∧ h.2 ≤ [0x83, 0x5C, 0x6E, 0x5C, 0x74].length :=
  unslash_safe_per_byte (fun cp c => cp == 932 && c == 0x83) 932 [0x83, 0x5C, 0x6E, 0x5C, 0x74]
    (by decide)

/-! ## A trail byte after an escaped lead byte -/

/-- Claim C24 fails on the code: `unslash` reads past the terminator of a text in which
the one lead byte is followed by its trail byte. In codepage 936 the text is a backslash
and the two-byte character 0xD6 0xD0. The backslash is not followed by an octal digit, so
`strtol(--r, &q, 8)` leaves `r` on 0xD6, which is written and, being a lead byte, copied
once more in place of its trail byte; the trail byte 0xD0 is then read as a new character,
passes the lead-byte test, takes the terminator as its trail byte and leaves the read
pointer behind the terminator with `c` not zero, so that the next iteration reads there.
The loop has no result whatever the number of iterations allowed. Without the backslash
the same character is copied as it is. -/
theorem unslash_reads_past_terminator :
    leadBytesFollowed demoLead936 936 [0x5C, 0xD6, 0xD0] = true ∧
    unslashIter demoLead936 936 [0x5C, 0xD6, 0xD0, 0] = some ([0xD6, 0xD6], some [0xD0, 0]) ∧
    unslashIter demoLead936 936 [0xD0, 0] = some ([0xD0, 0], some []) ∧
    unslashIter demoLead936 936 [] = none ∧
    (∀ fuel : Nat, unslashLoop demoLead936 936 fuel ([0x5C, 0xD6, 0xD0] ++ [0]) = none) ∧
    unslash demoLead936 936 [0x5C, 0xD6, 0xD0] = none ∧
    unslashHeads demoLead936 936 ([0x5C, 0xD6, 0xD0].length + 1) ([0x5C, 0xD6, 0xD0] ++ [0])
      0 0 = none ∧
    unslash demoLead936 936 [0xD6, 0xD0] = some [0xD6, 0xD0] := by
  have h1 : unslashIter demoLead936 936 [0x5C, 0xD6, 0xD0, 0] =
      some ([0xD6, 0xD6], some [0xD0, 0]) := by decide
  have h2 : unslashIter demoLead936 936 [0xD0, 0] = some ([0xD0, 0], some []) := by decide
  have h3 : unslashIter demoLead936 936 [] = none := by decide
  refine ⟨by decide, h1, h2, h3, ?_, by decide, by decide, by decide⟩
  intro fuel
  cases fuel with
  | zero => rfl
  | succ f1 =>
    show unslashLoop demoLead936 936 (f1 + 1) [0x5C, 0xD6, 0xD0, 0] = none
    rw [unslashLoop, h1]
    cases f1 with
    | zero => rfl
    | succ f2 =>
      dsimp only
      rw [unslashLoop, h2]
      cases f2 with
      | zero => rfl
      | succ f3 =>
        dsimp only
        rw [unslashLoop, h3]
        rfl

end LanguageSelect
